import Mathlib

/-!
# Hyperion: storage range parsing, address translation and storage display/alteration

A shallow embedding of `parse_range`, `copy_regs`, `virt_to_real`, `bldtrans`,
`display_real`, `dump_abs_page`, `alter_display_real_or_abs`,
`alter_display_virt`, `disasm_stor` and `PIC2Name` from `hscmisc.c`, followed by
the properties proved about them.

Conventions of the embedding:

* a C string is a `List Char`; it is read up to its first NUL (`cstr`);
* `U64` values are natural numbers below `2 ^ 64`, with explicit reduction
  modulo `2 ^ 64` wherever the C arithmetic can wrap;
* messages written with `WRMSG` are collected in a list, in order, together
  with the calls of `virt_to_real` that the commands make;
* main storage is a function from absolute addresses to bytes; every read done
  by a page dump is recorded in the message it produces.
-/

namespace Hyperion

/-! ## Machine integers -/

/-- Addition of two `U64` values, as C computes it (modulo `2 ^ 64`). -/
def add64 (a b : Nat) : Nat := (a + b) % 2 ^ 64

/-- Subtraction of two `U64` values, as C computes it (modulo `2 ^ 64`). -/
def sub64 (a b : Nat) : Nat := (a + (2 ^ 64 - b % 2 ^ 64)) % 2 ^ 64

/-! ## C strings and the C library functions used by `parse_range` -/

/-- The characters of a C string: the characters before the first NUL. -/
def cstr (s : List Char) : List Char :=
  s.takeWhile (fun c => c != Char.ofNat 0)

/-- C library `isspace` in the C locale: space, and the controls TAB to CR. -/
def isspace (c : Char) : Bool :=
  c == ' ' || (9 ≤ c.toNat && c.toNat ≤ 13)

/-- C library `toupper` in the C locale, on character codes. -/
def toupper (c : Int) : Int :=
  if 97 ≤ c ∧ c ≤ 122 then c - 32 else c

/-- The value of a hexadecimal digit, or `-1`: the expression
`(h >= '0' && h <= '9') ? h - '0' : (h >= 'A' && h <= 'F') ? h - 'A' + 10 : -1`
applied to `toupper(h)`, as `parse_range` computes it for `h1` and `h2`. -/
def hexdigit (c : Char) : Int :=
  let h := toupper c.toNat
  if 48 ≤ h ∧ h ≤ 57 then h - 48
  else if 65 ≤ h ∧ h ≤ 70 then h - 65 + 10
  else -1

/-- C library `isxdigit`. -/
def isxdigit (c : Char) : Bool := decide (0 ≤ hexdigit c)

/-- The value of a string of hexadecimal digits, most significant digit first. -/
def hexvalue (ds : List Char) : Nat :=
  ds.foldl (fun acc c => 16 * acc + (hexdigit c).toNat) 0

/-- One `%llx` conversion of `sscanf`, as the GNU C library reads it: white
space is skipped, then an optional sign is read; when a `0` comes next it is
kept as a digit, and an `x` or `X` right after it is read and dropped, whether
or not a hexadecimal digit follows; then the longest run of hexadecimal digits
is read. The digits kept are converted as `strtoull` does in base 16. So `0x`
alone, or `0x` before a character that is not a hexadecimal digit, is the
number `0`, and the input goes on after the `x`. With no digit the conversion
fails (`none`). The value saturates at `2 ^ 64 - 1` when it does not fit, and
is negated modulo `2 ^ 64` after a minus sign. Returns the value and the rest
of the input. -/
def scan_llx (s : List Char) : Option (Nat × List Char) :=
  let s1 := s.dropWhile isspace
  let neg := decide (s1.head? = some '-')
  let s2 := if s1.head? = some '-' ∨ s1.head? = some '+' then s1.tail else s1
  let s3 := match s2 with
    | '0' :: x :: t => if x = 'x' ∨ x = 'X' then '0' :: t else s2
    | _ => s2
  let ds := s3.takeWhile isxdigit
  if ds = [] then none
  else
    let v := hexvalue ds
    let u := if 2 ^ 64 ≤ v then 2 ^ 64 - 1 else if neg then sub64 0 v else v
    some (u, s3.dropWhile isxdigit)

/-- What `sscanf (operand, "%llx%c%llx%c", &opnd1, &delim, &opnd2, &c)` leaves:
its return value and the variables it assigned. A variable that was not
assigned keeps the value given here (`0`, NUL); `parse_range` never uses such a
value in a result it returns. -/
structure Scanned where
  rc : Int
  opnd1 : Nat
  delim : Char
  opnd2 : Nat
  c : Char
deriving DecidableEq, Repr

/-- The call `sscanf (operand, "%llx%c%llx%c", ...)`: the number of conversions
done before the first one that fails, or `EOF` (`-1`) when the input ends
before the first conversion. `%c` takes the next character, whatever it is,
and fails at the end of the string. -/
def sscanf_range (operand : List Char) : Scanned :=
  match scan_llx operand with
  | none =>
      ⟨if operand.dropWhile isspace = [] then -1 else 0, 0, Char.ofNat 0, 0, Char.ofNat 0⟩
  | some (v1, r1) =>
    match r1 with
    | [] => ⟨1, v1, Char.ofNat 0, 0, Char.ofNat 0⟩
    | d :: r2 =>
      match scan_llx r2 with
      | none => ⟨2, v1, d, 0, Char.ofNat 0⟩
      | some (v2, r3) =>
        match r3 with
        | [] => ⟨3, v1, d, v2, Char.ofNat 0⟩
        | c :: _ => ⟨4, v1, d, v2, c⟩

/-- C library `strchr (operand, ch)` followed by `++s`: the characters after
the first occurrence of `ch`. -/
def after_strchr (operand : List Char) (ch : Char) : List Char :=
  (operand.dropWhile (fun c => c != ch)).tail

/-! ## `parse_range` -/

/-- The error messages `parse_range` issues before it returns `-1`. -/
inductive ParseError
  | missing_argument      -- HHC17000
  | invalid_hex_digit     -- HHC02205 ": invalid hex digit"
  | invalid_hex_pair      -- HHC02205 ": invalid hex pair"
  | too_many_bytes        -- HHC02205 ": only a maximum of 32 bytes may be altered"
  | invalid_operand       -- HHC02205 with an empty explanation
  | invalid_range         -- HHC02205 ": invalid range"
deriving DecidableEq, Repr

/-- The outcome of `parse_range`: `-1` after an error message, or the return
value `n` with the values stored through `sadrp`, `eadrp` and in
`newval[0..n-1]`. -/
inductive Parsed
  | error (e : ParseError)
  | ok (n : Nat) (saddr eaddr : Nat) (newval : List Nat)
deriving DecidableEq, Repr

/-- The `int` returned by `parse_range`. -/
def Parsed.rc : Parsed → Int
  | .error _ => -1
  | .ok n _ _ _ => n

/-- The `while (1)` loop of `parse_range` over the alteration value: `s` is the
text after the pointer, `newval` the bytes stored so far (`n` is their
number). Returns the bytes, or the error after which the function returns. -/
def parse_hexstring : List Char → List Nat → Except ParseError (List Nat)
  | [], newval => .ok newval
  | h1 :: s, newval =>
    if h1 = '#' then .ok newval
    else if h1 = ' ' ∨ h1 = '\t' then parse_hexstring s newval
    else if hexdigit h1 < 0 then .error .invalid_hex_digit
    else
      match s with
      | [] => .error .invalid_hex_pair
      | h2 :: s2 =>
        if hexdigit h2 < 0 then .error .invalid_hex_pair
        else if newval.length ≥ 32 then .error .too_many_bytes
        else
          parse_hexstring s2
            (newval ++ [(((hexdigit h1).toNat <<< 4) ||| (hexdigit h2).toNat) % 256])

/-- The function `parse_range (operand, maxadr, sadrp, eadrp, newval)`.
`operand = none` is a null pointer; `alter` tells whether `newval` is
non-null. -/
def parse_range (operand : Option (List Char)) (maxadr : Nat) (alter : Bool) : Parsed :=
  match operand with
  | none => .error .missing_argument
  | some str =>
    let operand := cstr str
    let sc := sscanf_range operand
    if sc.rc > 2 ∧ sc.delim = '=' ∧ alter then
      match parse_hexstring (after_strchr operand '=') [] with
      | .error e => .error e
      | .ok newval =>
        let n := newval.length
        let saddr := sc.opnd1
        let eaddr := sub64 (add64 saddr n) 1
        if saddr > maxadr ∨ eaddr > maxadr ∨ eaddr < saddr then .error .invalid_range
        else .ok n saddr eaddr newval
    else
      let saddr := sc.opnd1
      if sc.rc = 1 then
        let eaddr0 := add64 saddr 0x3F
        let eaddr := if eaddr0 > maxadr then maxadr else eaddr0
        if saddr > maxadr ∨ eaddr > maxadr ∨ eaddr < saddr then .error .invalid_range
        else .ok 0 saddr eaddr []
      else if sc.rc ≠ 3 ∨ ¬ (sc.delim = '-' ∨ sc.delim = '.') then .error .invalid_operand
      else
        let eaddr := if sc.delim = '.' then sub64 (add64 saddr sc.opnd2) 1 else sc.opnd2
        if saddr > maxadr ∨ eaddr > maxadr ∨ eaddr < saddr then .error .invalid_range
        else .ok 0 saddr eaddr []

/-- The upper-case hexadecimal digit character for a value below sixteen. -/
def hexchar (d : Nat) : Char :=
  if d < 10 then Char.ofNat (48 + d) else Char.ofNat (55 + d)

/-- Formatting an address in hexadecimal with upper-case digits and at least
`width` digits, padded with zeros: `printf` with `%X` (`width = 0` or `1`),
or with `F_RADR`, `%8.8X` or `%16.16llX`. -/
def hexstr (width : Nat) (n : Nat) : List Char :=
  let ds := (Nat.digits 16 n).reverse.map hexchar
  let ds := if ds = [] then ['0'] else ds
  List.replicate (width - ds.length) '0' ++ ds

/-! ## Operands of `parse_range`, built from addresses and bytes -/

/-- One byte of an alteration value as it is typed: optional blanks (spaces
and tabs) followed by two hexadecimal digits. -/
structure HexPair where
  blanks : List Char
  hi : Char
  lo : Char
deriving DecidableEq, Repr

/-- A well-formed typed byte: the blanks are spaces or tabs and both digits
are hexadecimal digits. -/
def HexPair.valid (p : HexPair) : Prop :=
  (∀ c ∈ p.blanks, c = ' ' ∨ c = '\t') ∧ isxdigit p.hi = true ∧ isxdigit p.lo = true

instance (p : HexPair) : Decidable p.valid := by
  unfold HexPair.valid
  infer_instance

/-- The byte a typed pair stands for: first digit times sixteen plus second
digit. -/
def HexPair.byte (p : HexPair) : Nat :=
  (hexdigit p.hi).toNat * 16 + (hexdigit p.lo).toNat

/-- The text of an alteration value: the typed pairs one after the other. -/
def hexstring : List HexPair → List Char
  | [] => []
  | p :: ps => p.blanks ++ p.hi :: p.lo :: hexstring ps

/-- The hex string of an alteration value: the text after the equal sign up to
`#` or the end of the string. -/
def hex_text (t : List Char) : List Char :=
  t.takeWhile (fun c => c != '#')

/-! ## Architectures and the constants that depend on them -/

/-- The build architectures of an `ARCH_DEP` function, which are also the values
of `sysblk.arch_mode`: `ARCH_370_IDX`, `ARCH_390_IDX`, `ARCH_900_IDX`. -/
inductive Arch
  | s370
  | s390
  | z900
deriving DecidableEq, Repr

/-- Modelled from the spec: the constant `PAGEFRAME_PAGESIZE`, which the source
uses and a header that is not embedded here defines. A page has a fixed power-of-two
size: 2K in S/370 mode, 4K in ESA/390 and z/Architecture mode. -/
def PAGEFRAME_PAGESIZE : Arch → Nat
  | .s370 => 2048
  | .s390 => 4096
  | .z900 => 4096

/-- Modelled from the spec: the constant `PAGEFRAME_BYTEMASK`, the bits of an
address that select a byte within its page. -/
def PAGEFRAME_BYTEMASK : Arch → Nat
  | .s370 => 0x7FF
  | .s390 => 0xFFF
  | .z900 => 0xFFF

/-- Modelled from the spec: the constant `PAGEFRAME_PAGEMASK`, the bits of an
address that select its page (31-bit addresses in S/370 and ESA/390 mode,
64-bit addresses in z/Architecture mode). -/
def PAGEFRAME_PAGEMASK : Arch → Nat
  | .s370 => 0x7FFFF800
  | .s390 => 0x7FFFF000
  | .z900 => 0xFFFFFFFFFFFFF000

/-- Modelled from the spec: the bits of a real address that select its
prefixing frame, which are also the bits of a prefix register that may be set
(a 4K frame in S/370 and ESA/390 mode, an 8K frame in z/Architecture mode). -/
def PREFIXING_MASK : Arch → Nat
  | .s370 => 0x7FFFF000
  | .s390 => 0x7FFFF000
  | .z900 => 0xFFFFFFFFFFFFE000

/-- The size of a prefixing frame: the lowest bit of `PREFIXING_MASK`. -/
def PREFIXING_FRAME : Arch → Nat
  | .s370 => 4096
  | .s390 => 4096
  | .z900 => 8192

/-- A value a prefix register can hold: only bits of `PREFIXING_MASK` are
set. -/
def is_prefix_value (arch : Arch) (px : Nat) : Prop :=
  px &&& PREFIXING_MASK arch = px

instance (arch : Arch) (px : Nat) : Decidable (is_prefix_value arch px) := by
  unfold is_prefix_value
  infer_instance

/-- Modelled from the spec: the macro `APPLY_PREFIXING (addr, pfx)`, which the
source uses and a header that is not embedded here defines: the exclusive-or
transform confined to the first storage frame and its image at the prefix
location. An address in frame zero or in the frame the prefix register
designates is exclusive-ored with the prefix; any other address is unchanged.
In S/370 and ESA/390 mode the address is taken as a 32-bit value. -/
def APPLY_PREFIXING (arch : Arch) (addr pfx : Nat) : Nat :=
  match arch with
  | .z900 =>
    if addr &&& PREFIXING_MASK .z900 = 0 ∨ addr &&& PREFIXING_MASK .z900 = pfx
    then addr ^^^ pfx else addr
  | a =>
    if (addr % 2 ^ 32) &&& PREFIXING_MASK a = 0 ∨ (addr % 2 ^ 32) &&& PREFIXING_MASK a = pfx
    then (addr % 2 ^ 32) ^^^ pfx else addr

/-- The limit for an address range that the commands pass to `parse_range`:
`0xFFFFFFFFFFFFFFFF` where `FEATURE_001_ZARCH_INSTALLED_FACILITY` is defined
(the z/Architecture build), `0x7FFFFFFF` elsewhere. -/
def maxadr : Arch → Nat
  | .z900 => 0xFFFFFFFFFFFFFFFF
  | _ => 0x7FFFFFFF

/-- The constant `_64_KILOBYTE`. -/
def _64_KILOBYTE : Nat := 0x10000

/-- Modelled from the spec: the macro `LIMIT_RANGE (saddr, eaddr, n)`, which the
source uses and a header that is not embedded here defines: the range is clamped to at
most `n` bytes by lowering its end; the start is unchanged. The value is the
new end. -/
def LIMIT_RANGE (saddr eaddr n : Nat) : Nat :=
  if sub64 eaddr saddr ≥ n then sub64 (add64 saddr n) 1 else eaddr

/-! ## CPU register contexts and main storage -/

/-- Modelled from the spec: the number of entries of a translation lookaside
buffer, `TLBN`. -/
def TLBN : Nat := 1024

/-- The fields of a `REGS` structure that the embedded functions read or write.
A pointer to a `REGS` is an index into the heap of contexts; `none` is the null
pointer. -/
structure REGS where
  /-- The value of `REAL_MODE (&regs->psw)`: DAT is off. -/
  real_mode : Bool
  /-- The value of `SIE_MODE (regs)`: the context is an SIE guest. -/
  sie_mode : Bool
  /-- The field `sie_active`, the value of `SIE_ACTIVE (regs)`. -/
  sie_active : Bool
  /-- The field `ghostregs`: the context is a working copy. -/
  ghostregs : Bool
  /-- The field `tlbID`. -/
  tlbID : Nat
  /-- The array `tlb.vaddr`. -/
  tlb_vaddr : List Nat
  /-- The pointer `HOST (regs)`. -/
  hostregs : Option Nat
  /-- The pointer `GUEST (regs)`. -/
  guestregs : Option Nat
  /-- The prefix register `PX`. -/
  PX : Nat
  /-- The field `mainlim`: the highest absolute address of main storage. -/
  mainlim : Nat
  /-- The field `dat.stid`. -/
  dat_stid : Int
  /-- The field `dat.raddr`. -/
  dat_raddr : Nat
  /-- The translation exception address `TEA`. -/
  tea : Nat
  /-- The jump buffer `progjmp`. -/
  progjmp : Nat
  /-- The general, control and access registers. -/
  gr : List Nat
deriving DecidableEq, Repr

/-- The storage shared by all contexts, and the system block. -/
structure Machine where
  /-- The bytes of main storage, by absolute address (`regs->mainstor`). -/
  mainstor : Nat → Nat
  /-- The storage key of the page frame of an absolute address, as
  `_get_storage_key (aaddr, SKEY_K)` returns it. -/
  storkey : Nat → Nat
  /-- The field `sysblk.arch_mode`. -/
  arch_mode : Arch

/-- The arguments `hexdumpew` is called with by `dump_abs_page`, with the bytes
it reads. -/
structure HexDump where
  /-- The absolute address of `dumpdata`, the first byte read. -/
  first : Nat
  /-- The bytes read: `amt` bytes starting at `dumpdata`. -/
  data : List Nat
  /-- The number of bytes to skip on the first line (`offset`). -/
  skip : Nat
  /-- The cosmetic address of the first line (`adr`). -/
  adr : Nat
  /-- The width of addresses in bits (`wid`). -/
  wid : Nat
  /-- The number of bytes per group (`bpg`). -/
  bpg : Nat
  /-- The number of groups per line (`gpl`). -/
  gpl : Nat
deriving DecidableEq, Repr

/-- The messages the embedded commands write. -/
inductive Msg
  /-- Message HHC17000, missing or invalid argument(s). -/
  | HHC17000
  /-- Message HHC02205, written by `parse_range`. -/
  | HHC02205 (e : ParseError)
  /-- Message HHC02219, error in a function. -/
  | HHC02219 (func text : String)
  /-- Message HHC02327, storage address is not valid. -/
  | HHC02327 (c : Char) (addr : Nat)
  /-- Message HHC02328, addressing exception. -/
  | HHC02328 (c : Char) (addr : Nat)
  /-- Message HHC02290 with the absolute address and storage key of a page. -/
  | HHC02290_key (aaddr key : Nat)
  /-- The addressing exception line of `dump_abs_page`. -/
  | dump_addressing (vra : Char) (adr : Nat)
  /-- The dump of a page: the call of `hexdumpew` and the display of its
  result. -/
  | dump (vra : Char) (d : HexDump)
  /-- Not a message: a call of `virt_to_real` by a command, with the virtual
  address passed and the program interruption code returned. -/
  | translation (vaddr icode : Nat)
  /-- Message HHC02329, translation exception, with the exception code and how
  the address was translated. The name `PIC2Name (xcode)` is determined by
  `xcode`. -/
  | HHC02329 (c : Char) (vaddr xcode : Nat) (trans : String)
  /-- Message HHC02291 with the real address and storage key of a page and how
  its address was translated. -/
  | HHC02291_key (raddr key : Nat) (trans : String)
  /-- Message HHC02289 of `disasm_stor`, real address is not valid. -/
  | HHC02289_not_valid
  /-- Message HHC02289 of `disasm_stor`, storage not accessible, with the
  address and the exception code. -/
  | HHC02289_not_accessible (saddr xcode : Nat)
  /-- Message HHC02289 of `disasm_stor`, addressing exception. -/
  | HHC02289_addressing (addr : Nat)
  /-- Message HHC02289 of `disasm_stor` for an instruction: the letter of the
  address space, the real address and the bytes of the instruction, which
  determine the text of the disassembler. -/
  | HHC02289_inst (c : Char) (raddr : Nat) (inst : List Nat)
deriving DecidableEq, Repr

/-- The message `parse_range` writes for an error. -/
def ParseError.msg : ParseError → Msg
  | .missing_argument => .HHC17000
  | e => .HHC02205 e

/-- Whether a message belongs to the display of a page: the line with its
storage key, or its dump. -/
def Msg.is_display : Msg → Bool
  | .HHC02290_key _ _ => true
  | .HHC02291_key _ _ _ => true
  | .dump _ _ => true
  | _ => false

/-- The bytes read from storage by the page dumps among some messages, in
order. -/
def dumped : List Msg → List Nat
  | [] => []
  | .dump _ d :: ms => d.data ++ dumped ms
  | _ :: ms => dumped ms

/-! ## `dump_abs_page` -/

/-- The function `dump_abs_page (regs, aaddr, adr, offset, amt, vra, wid)`: its
return value and the messages it writes. `vra` is NUL for
`alter_display_virt`. The flush of the interval timer (`ITIMER_SYNC`) and a
failure of `hexdumpew` are outside the embedding. -/
def dump_abs_page (arch : Arch) (regs : REGS) (m : Machine)
    (aaddr adr offset amt : Nat) (vra : Char) (wid : Nat) : Int × List Msg :=
  if aaddr &&& PAGEFRAME_BYTEMASK arch ≠ 0
      ∨ adr &&& PAGEFRAME_BYTEMASK arch ≠ 0
      ∨ offset ≥ PAGEFRAME_PAGESIZE arch
      ∨ amt > PAGEFRAME_PAGESIZE arch - offset
      ∨ (wid ≠ 32 ∧ wid ≠ 64) then
    (-1, [.HHC02219 "dump_abs_page()" "invalid parameters"])
  else if aaddr > regs.mainlim then
    (-1, [.dump_addressing (if vra = Char.ofNat 0 then 'V' else vra) adr])
  else
    let dumpdata := aaddr + offset
    let adr := add64 adr offset
    let adr := adr &&& 0xFFFFFFFFFFFFFFF0
    let offset := offset &&& 0xF
    (0, [.dump vra
      { first := dumpdata
        data := (List.range amt).map (fun i => m.mainstor (dumpdata + i))
        skip := offset, adr := adr, wid := wid, bpg := 4, gpl := 4 }])

/-! ## `alter_display_real_or_abs` -/

/-- The character `absorr[0]`: the first character of the command `argv[0]` in
upper case, or NUL when the command is empty. -/
def command_letter (argv0 : List Char) : Char :=
  match cstr argv0 with
  | [] => Char.ofNat 0
  | c :: _ => Char.ofNat (toupper c.toNat).toNat

/-- The real or absolute address of the commands `r` and `abs` made absolute:
`APPLY_PREFIXING (raddr, regs->PX)` when the command letter is `R`, the
address itself otherwise. -/
def to_absolute (arch : Arch) (regs : REGS) (absorr0 : Char) (raddr : Nat) : Nat :=
  if absorr0 = 'R' then APPLY_PREFIXING arch raddr regs.PX else raddr

/-- The loop `for (i=0; i < len; i++)` that alters storage, from index `i` on:
`newval` holds the bytes `newval[i..len-1]`. Returns the storage, and the
message after which the command returns when an address is beyond `mainlim`. -/
def alter_loop (arch : Arch) (regs : REGS) (absorr0 : Char) (saddr : Nat) :
    Nat → List Nat → (Nat → Nat) → (Nat → Nat) × Option Msg
  | _, [], stor => (stor, none)
  | i, b :: bs, stor =>
    let raddr := add64 saddr i
    let aaddr := to_absolute arch regs absorr0 raddr
    if aaddr > regs.mainlim then (stor, some (.HHC02328 'A' aaddr))
    else alter_loop arch regs absorr0 saddr (i + 1) bs (Function.update stor aaddr b)

/-- The loop `for (;;)` that dumps storage one page at a time, entered with the
given values of `totamt`, `pageadr`, `pageoff` and `pageamt`. Returns the
messages written, or `none` when the loop has not ended after `fuel`
iterations. -/
def display_loop (arch : Arch) (regs : REGS) (m : Machine) (absorr0 : Char) (addrwid : Nat) :
    Nat → Nat → Nat → Nat → Nat → Option (List Msg)
  | 0, _, _, _, _ => none
  | fuel + 1, totamt, pageadr, pageoff, pageamt =>
    let raddr := pageadr
    let pageamt := if pageamt > totamt then totamt else pageamt
    let aaddr := to_absolute arch regs absorr0 raddr
    if aaddr > regs.mainlim then some [.HHC02328 'A' aaddr]
    else
      let key := Msg.HHC02290_key aaddr (m.storkey aaddr)
      let page := (dump_abs_page arch regs m aaddr raddr pageoff pageamt absorr0 addrwid).2
      let totamt := totamt - pageamt
      if totamt = 0 then some (key :: page)
      else
        match display_loop arch regs m absorr0 addrwid fuel totamt
            (add64 pageadr (PAGEFRAME_PAGESIZE arch)) 0 (PAGEFRAME_PAGESIZE arch) with
        | none => none
        | some rest => some (key :: page ++ rest)

/-- The function `ARCH_DEP (alter_display_real_or_abs) (regs, argc, argv,
cmdline)` of the build architecture `arch`: main storage when it returns and
the messages written, or `none` when its display loop does not end.
`argv[0]` is the command and `argv[1]` its operand. -/
def arch_alter_display_real_or_abs (arch : Arch) (regs : REGS) (m : Machine)
    (argc : Int) (argv : List (List Char)) : Option (Machine × List Msg) :=
  if argc ≠ 2 then some (m, [.HHC17000])
  else
    let absorr0 := command_letter (argv.getD 0 [])
    let opnd := argv[1]?
    match parse_range opnd (maxadr arch) true with
    | .error e => some (m, [e.msg])
    | .ok len saddr eaddr newval =>
      if regs.mainlim = 0 then some (m, [.HHC02327 absorr0 saddr])
      else
        match alter_loop arch regs absorr0 saddr 0 (newval.take len) m.mainstor with
        | (stor, some msg) => some ({ m with mainstor := stor }, [msg])
        | (stor, none) =>
          let m := { m with mainstor := stor }
          let eaddr := LIMIT_RANGE saddr eaddr _64_KILOBYTE
          let totamt := add64 (sub64 eaddr saddr) 1
          if totamt > 0 then
            let pageadr := saddr &&& PAGEFRAME_PAGEMASK arch
            let pageoff := sub64 saddr pageadr
            let pageamt := PAGEFRAME_PAGESIZE arch - pageoff
            let addrwid := if Arch.z900 = m.arch_mode then 64 else 32
            (display_loop arch regs m absorr0 addrwid totamt totamt pageadr pageoff pageamt).map
              (fun out => (m, out))
          else some (m, [])

/-- The wrapper `alter_display_real_or_abs (regs, argc, argv, cmdline)`, which
calls the function of the architecture `sysblk.arch_mode`. -/
def alter_display_real_or_abs (regs : REGS) (m : Machine)
    (argc : Int) (argv : List (List Char)) : Option (Machine × List Msg) :=
  arch_alter_display_real_or_abs m.arch_mode regs m argc argv

/-! ## The heap of register contexts, `copy_regs` and `virt_to_real` -/

/-- The `REGS` structures in memory. A pointer to a `REGS` is an index into the
list; a block obtained from `malloc_aligned` is put at the end, and
`newregs + 1` is the next index. -/
abbrev Heap := List REGS

/-- The content of memory that was allocated and not yet written. -/
def REGS.uninit : REGS :=
  { real_mode := false, sie_mode := false, sie_active := false, ghostregs := false,
    tlbID := 0, tlb_vaddr := [], hostregs := none, guestregs := none,
    PX := 0, mainlim := 0, dat_stid := 0, dat_raddr := 0, tea := 0,
    progjmp := 0, gr := [] }

/-- The constants of headers not embedded here that `virt_to_real` and `bldtrans`
compare their arguments with. Their values are parameters of the embedding. -/
structure Consts where
  ACCTYPE_INSTFETCH : Int
  USE_INST_SPACE : Int
  TEA_ST_PRIMARY : Int
  TEA_ST_SECNDRY : Int
  TEA_ST_HOME : Int
deriving DecidableEq, Repr

/-- What `copy_regs` leaves: the heap, and the pointer returned (`some none` is
the null pointer); `ret = none` when the function reads through a pointer
that designates no context. -/
structure CopyRegs where
  heap : Heap
  ret : Option (Option Nat)
deriving DecidableEq, Repr

/-- The function `copy_regs (regs)`. `malloc_ok` tells whether `malloc_aligned`
returns a block. The partial copy `memcpy (newregs, regs,
sysblk.regs_copy_len)` copies every field of the embedding except the
translation lookaside buffer, which is cleared. -/
def copy_regs (h : Heap) (regs : Nat) (malloc_ok : Bool) : CopyRegs :=
  match h[regs]? with
  | none => ⟨h, none⟩
  | some r =>
    let size := if r.sie_mode ∨ r.sie_active then 2 else 1
    if ¬ malloc_ok then ⟨h, some none⟩
    else
      let newregs := h.length
      let h := h ++ List.replicate size REGS.uninit
      let nr : REGS :=
        { r with tlb_vaddr := List.replicate TLBN 0, tlbID := 1, ghostregs := true,
                 hostregs := some newregs, guestregs := none, sie_active := false }
      let h := h.set newregs nr
      if nr.sie_mode then
        let hostregs := newregs + 1
        match r.hostregs.bind (fun p => h[p]?) with
        | none => ⟨h, none⟩
        | some hr =>
          let hc : REGS :=
            { hr with tlb_vaddr := List.replicate TLBN 0, tlbID := 1, ghostregs := true,
                      hostregs := some hostregs, guestregs := some newregs }
          let h := h.set hostregs hc
          let h := h.set newregs { nr with hostregs := some hostregs, guestregs := some newregs }
          ⟨h, some (some newregs)⟩
      else ⟨h, some (some newregs)⟩

/-- What the table walk of address translation leaves: the context it was
given and, when that context has a host context that is another structure,
the host context, both as the walk leaves them; the program interruption code
(`0` for none); the table entries fetched. -/
structure Walked where
  regs : REGS
  hostregs : Option REGS
  icode : Nat
  fetched : List Nat
deriving DecidableEq, Repr

/-- The table walk of dynamic address translation, a parameter of the
embedding: from the virtual address, the access register number, the access
type, the context and its host context (when another structure) to what it
leaves. -/
abbrev TableWalk := Nat → Int → Int → REGS → Option REGS → Walked

/-- What a translation leaves: the heap, the program interruption code and the
table entries fetched. -/
structure Translated where
  heap : Heap
  icode : Nat
  fetched : List Nat
deriving DecidableEq, Repr

/-- Modelled from the spec: the function `logical_to_main_l (vaddr, arn, regs,
acctype, akey, len)`, which `virt_to_real` calls and `hscmisc.c` does not
define. In real mode (DAT off) translation is bypassed entirely: the
input address is the real address and no table is walked. Otherwise the
architected tables are walked (`walk`), which yields a real address or an
exception code. All state changes are made to the context passed and to the
host context it links to. The real address is left in `dat.raddr` of the host
context, where `virt_to_real` reads it. -/
def logical_to_main_l (walk : TableWalk) (h : Heap) (vaddr : Nat) (arn : Int) (regs : Nat)
    (acctype : Int) : Translated :=
  match h[regs]? with
  | none => ⟨h, 0, []⟩
  | some r =>
    let hostregs := r.hostregs.getD regs
    if r.real_mode then
      let h := h.set regs { r with dat_raddr := vaddr }
      let h := h.set hostregs { h.getD hostregs r with dat_raddr := vaddr }
      ⟨h, 0, []⟩
    else if hostregs = regs then
      let w := walk vaddr arn acctype r none
      ⟨h.set regs w.regs, w.icode, w.fetched⟩
    else
      let w := walk vaddr arn acctype r h[hostregs]?
      let h := h.set regs w.regs
      let h := match w.hostregs with
        | none => h
        | some hr => h.set hostregs hr
      ⟨h, w.icode, w.fetched⟩

/-- What `virt_to_real` leaves: the heap; the return value with the values
stored through `raptr` and `siptr`, or `none` when the function dereferences a
null pointer; the table entries fetched by the translation. -/
structure VirtToReal where
  heap : Heap
  ret : Option (Nat × Nat × Int)
  fetched : List Nat
deriving DecidableEq, Repr

/-- The function `virt_to_real (raptr, siptr, vaddr, arn, iregs, acctype)`. The
return value is `(icode, *raptr, *siptr)`. `setjmp` returns `0` when it is
called and the program interruption code when translation raises an
exception. `free_aligned` releases the block `copy_regs` obtained, the end of
the heap from `regs` on. -/
def virt_to_real (K : Consts) (walk : TableWalk) (h : Heap) (malloc_ok : Bool)
    (vaddr : Nat) (arn : Int) (iregs : Nat) (acctype : Int) : VirtToReal :=
  let c := copy_regs h iregs malloc_ok
  match c.ret with
  | none => ⟨c.heap, none, []⟩
  | some none => ⟨c.heap, none, []⟩
  | some (some regs) =>
    let h := c.heap
    let r := h.getD regs REGS.uninit
    let temp_arn := if acctype = K.ACCTYPE_INSTFETCH then K.USE_INST_SPACE else arn
    let h :=
      if r.sie_mode then
        let hostregs := r.hostregs.getD regs
        h.set hostregs { h.getD hostregs REGS.uninit with progjmp := r.progjmp }
      else h
    let t := logical_to_main_l walk h vaddr temp_arn regs acctype
    let h := t.heap
    let r := h.getD regs REGS.uninit
    let siptr := r.dat_stid
    let raptr := (h.getD (r.hostregs.getD regs) REGS.uninit).dat_raddr
    ⟨h.take regs, some (t.icode, raptr, siptr), t.fetched⟩

/-- The decimal digits of `arn` as `%2.2d` prints them: a minus sign for a
negative number, then at least two digits. -/
def fmt_2d (arn : Int) : String :=
  (if arn < 0 then "-" else "") ++
    (if arn.natAbs < 10 then "0" else "") ++ toString arn.natAbs

/-- The function `bldtrans (regs, arn, stid, trans, size)`: the string stored
in `trans`, which tells how a virtual address was translated. -/
def bldtrans (K : Consts) (regs : REGS) (arn : Int) (stid : Int) : String :=
  if regs.real_mode then "(dat off)"
  else if stid = K.TEA_ST_PRIMARY then "(primary)"
  else if stid = K.TEA_ST_SECNDRY then "(secondary)"
  else if stid = K.TEA_ST_HOME then "(home)"
  else "(AR" ++ fmt_2d arn ++ ")"

/-! ## `alter_display_virt` -/

/-- The constants of headers not embedded here that the commands for virtual
storage pass to `virt_to_real`, with those of `Consts`. Their values are
parameters of the embedding. -/
structure CommandConsts extends Consts where
  ACCTYPE_HW : Int
  USE_PRIMARY_SPACE : Int
  USE_SECONDARY_SPACE : Int
  USE_HOME_SPACE : Int
deriving DecidableEq, Repr

/-- The table walk of dynamic address translation as the commands use it: the
translation tables are in main storage, so the walk is given its content. -/
abbrev StorageWalk := (Nat → Nat) → TableWalk

/-- How the run of a command ends. -/
inductive Exit
  /-- The command returns. -/
  | returned
  /-- The command reads through a pointer that designates no context: the null
  pointer `copy_regs` hands to `virt_to_real` when no block can be allocated,
  or a pointer outside the heap. -/
  | crashed
  /-- A loop of the command has not ended after the number of iterations
  allowed. -/
  | unfinished
deriving DecidableEq, Repr

/-- What a command, or a part of it, leaves: the heap of contexts, main storage,
what it wrote and did in order, and how it ended; `exit = none` when control
leaves the part and the command goes on. -/
structure Ran where
  heap : Heap
  mainstor : Nat → Nat
  out : List Msg
  exit : Option Exit

/-- The loop `for (i=0; i < len; i++)` of `alter_display_virt` that alters
storage, from index `i` on: `newval` holds the bytes `newval[i..len-1]`. The
addresses of a range do not exceed `maxadr`, so the conversion of `saddr + i`
to `VADR` keeps its value. -/
def virt_alter_loop (arch : Arch) (K : CommandConsts) (walk : StorageWalk) (malloc_ok : Bool)
    (regs : Nat) (arn : Int) (saddr : Nat) :
    Nat → List Nat → Heap → (Nat → Nat) → Ran
  | _, [], h, stor => ⟨h, stor, [], none⟩
  | i, b :: bs, h, stor =>
    let vaddr := add64 saddr i
    let t := virt_to_real K.toConsts (walk stor) h malloc_ok vaddr arn regs K.ACCTYPE_HW
    match t.ret with
    | none => ⟨t.heap, stor, [], some .crashed⟩
    | some (icode, raddr, stid) =>
      let r := t.heap.getD regs REGS.uninit
      let xcode := icode % 65536
      let trans := bldtrans K.toConsts r arn stid
      if xcode ≠ 0 then
        ⟨t.heap, stor, [.translation vaddr icode, .HHC02329 'V' vaddr xcode trans],
          some .returned⟩
      else
        let aaddr := APPLY_PREFIXING arch raddr r.PX
        if aaddr > r.mainlim then
          ⟨t.heap, stor, [.translation vaddr icode, .HHC02328 'R' raddr], some .returned⟩
        else
          let l := virt_alter_loop arch K walk malloc_ok regs arn saddr (i + 1) bs t.heap
            (Function.update stor aaddr b)
          { l with out := .translation vaddr icode :: l.out }

/-- The statement `if (len > 0 && virt_to_real (saddr) == 0 && virt_to_real
(eaddr) == 0)` of `alter_display_virt` with the loop it guards. -/
def virt_alter (arch : Arch) (K : CommandConsts) (walk : StorageWalk) (malloc_ok : Bool)
    (regs : Nat) (arn : Int) (len saddr eaddr : Nat) (newval : List Nat)
    (h : Heap) (stor : Nat → Nat) : Ran :=
  if len > 0 then
    let t0 := virt_to_real K.toConsts (walk stor) h malloc_ok saddr arn regs K.ACCTYPE_HW
    match t0.ret with
    | none => ⟨t0.heap, stor, [], some .crashed⟩
    | some (icode0, _, _) =>
      if icode0 = 0 then
        let t1 := virt_to_real K.toConsts (walk stor) t0.heap malloc_ok eaddr arn regs
          K.ACCTYPE_HW
        match t1.ret with
        | none => ⟨t1.heap, stor, [.translation saddr icode0], some .crashed⟩
        | some (icode1, _, _) =>
          if icode1 = 0 then
            let l := virt_alter_loop arch K walk malloc_ok regs arn saddr 0 (newval.take len)
              t1.heap stor
            { l with out := .translation saddr icode0 :: .translation eaddr icode1 :: l.out }
          else ⟨t1.heap, stor, [.translation saddr icode0, .translation eaddr icode1], none⟩
      else ⟨t0.heap, stor, [.translation saddr icode0], none⟩
  else ⟨h, stor, [], none⟩

/-- The loop `for (;;)` of `alter_display_virt` that dumps storage one page at a
time, entered with the given values of `totamt`, `pageadr`, `pageoff` and
`pageamt`. The messages of `dump_abs_page` are written whatever it returns
(`VERIFY`). The reference bit a translation sets in a storage key is outside
the embedding. -/
def virt_display_loop (arch : Arch) (K : CommandConsts) (walk : StorageWalk) (malloc_ok : Bool)
    (regs : Nat) (arn : Int) (m : Machine) (addrwid : Nat) :
    Nat → Nat → Nat → Nat → Nat → Heap → Ran
  | 0, _, _, _, _, h => ⟨h, m.mainstor, [], some .unfinished⟩
  | fuel + 1, totamt, pageadr, pageoff, pageamt, h =>
    let vaddr := pageadr
    let pageamt := if pageamt > totamt then totamt else pageamt
    let t := virt_to_real K.toConsts (walk m.mainstor) h malloc_ok vaddr arn regs K.ACCTYPE_HW
    match t.ret with
    | none => ⟨t.heap, m.mainstor, [], some .crashed⟩
    | some (icode, raddr, stid) =>
      let r := t.heap.getD regs REGS.uninit
      let xcode := icode % 65536
      let trans := bldtrans K.toConsts r arn stid
      let aaddr := APPLY_PREFIXING arch raddr r.PX
      if xcode = 0 ∧ aaddr > r.mainlim then
        ⟨t.heap, m.mainstor, [.translation vaddr icode, .HHC02328 'R' raddr], none⟩
      else
        let page :=
          if xcode ≠ 0 then [Msg.HHC02329 'V' vaddr xcode trans]
          else
            .HHC02291_key raddr (m.storkey aaddr) trans ::
              (dump_abs_page arch r m aaddr vaddr pageoff pageamt (Char.ofNat 0) addrwid).2
        let totamt := totamt - pageamt
        if totamt = 0 then ⟨t.heap, m.mainstor, .translation vaddr icode :: page, none⟩
        else
          let l := virt_display_loop arch K walk malloc_ok regs arn m addrwid fuel totamt
            (add64 pageadr (PAGEFRAME_PAGESIZE arch)) 0 (PAGEFRAME_PAGESIZE arch) t.heap
          { l with out := .translation vaddr icode :: page ++ l.out }

/-- The statement `if ((totamt = (eaddr - saddr) + 1) > 0)` of
`alter_display_virt` with the loop it guards: the display of the range from
`saddr` to `eaddr`. The loop is allowed `totamt` iterations. -/
def virt_display (arch : Arch) (K : CommandConsts) (walk : StorageWalk) (malloc_ok : Bool)
    (regs : Nat) (arn : Int) (m : Machine) (saddr eaddr : Nat) (h : Heap) : Ran :=
  let totamt := add64 (sub64 eaddr saddr) 1
  if totamt > 0 then
    let pageadr := saddr &&& PAGEFRAME_PAGEMASK arch
    let pageoff := sub64 saddr pageadr
    let pageamt := PAGEFRAME_PAGESIZE arch - pageoff
    let addrwid := if Arch.z900 = m.arch_mode then 64 else 32
    virt_display_loop arch K walk malloc_ok regs arn m addrwid totamt totamt
      pageadr pageoff pageamt h
  else ⟨h, m.mainstor, [], none⟩

/-- The access register number `arn` that `alter_display_virt` selects by the
letter `type` before its operand. -/
def space_arn (K : CommandConsts) (type : Char) : Int :=
  if type ≠ 'P' ∧ type ≠ 'S' ∧ type ≠ 'H' then 0
  else if type = 'P' then K.USE_PRIMARY_SPACE
  else if type = 'S' then K.USE_SECONDARY_SPACE
  else K.USE_HOME_SPACE

/-- The operand of `alter_display_virt` after its optional letter `P`, `S` or
`H`: the pointer `opnd` when `parse_range` is called. -/
def space_operand (opnd : List Char) : List Char :=
  let type := command_letter opnd
  if type ≠ 'P' ∧ type ≠ 'S' ∧ type ≠ 'H' then opnd else opnd.tail

/-- The function `ARCH_DEP (alter_display_virt) (regs, argc, argv, cmdline)` of
the build architecture `arch`. `argv[0]` is the operand. -/
def arch_alter_display_virt (arch : Arch) (K : CommandConsts) (walk : StorageWalk)
    (h : Heap) (m : Machine) (malloc_ok : Bool) (regs : Nat)
    (argc : Int) (argv : List (List Char)) : Ran :=
  if argc ≠ 1 then ⟨h, m.mainstor, [.HHC17000], some .returned⟩
  else
    match argv[0]? with
    | none => ⟨h, m.mainstor, [], some .crashed⟩
    | some opnd =>
      let arn := space_arn K (command_letter opnd)
      match parse_range (some (space_operand opnd)) (maxadr arch) true with
      | .error e => ⟨h, m.mainstor, [e.msg], some .returned⟩
      | .ok len saddr eaddr newval =>
        match h[regs]? with
        | none => ⟨h, m.mainstor, [], some .crashed⟩
        | some r =>
          if r.mainlim = 0 then ⟨h, m.mainstor, [.HHC02327 'V' saddr], some .returned⟩
          else
            let a := virt_alter arch K walk malloc_ok regs arn len saddr eaddr newval h
              m.mainstor
            match a.exit with
            | some e => ⟨a.heap, a.mainstor, a.out, some e⟩
            | none =>
              let eaddr := LIMIT_RANGE saddr eaddr _64_KILOBYTE
              let d := virt_display arch K walk malloc_ok regs arn
                { m with mainstor := a.mainstor } saddr eaddr a.heap
              ⟨d.heap, d.mainstor, a.out ++ d.out, some (d.exit.getD .returned)⟩

/-- The wrapper `alter_display_virt (iregs, argc, argv, cmdline)`: it works on
`iregs` when that is a working copy and on a copy made by `copy_regs`
otherwise, calls the function of the architecture `sysblk.arch_mode`, and
releases the copy. -/
def alter_display_virt (K : CommandConsts) (walk : StorageWalk) (h : Heap) (m : Machine)
    (malloc_ok : Bool) (iregs : Nat) (argc : Int) (argv : List (List Char)) : Ran :=
  match h[iregs]? with
  | none => ⟨h, m.mainstor, [], some .crashed⟩
  | some ir =>
    if ir.ghostregs then arch_alter_display_virt m.arch_mode K walk h m malloc_ok iregs argc argv
    else
      let c := copy_regs h iregs malloc_ok
      match c.ret with
      | none => ⟨c.heap, m.mainstor, [], some .crashed⟩
      | some none => ⟨c.heap, m.mainstor, [], some .returned⟩
      | some (some regs) =>
        let a := arch_alter_display_virt m.arch_mode K walk c.heap m malloc_ok regs argc argv
        if a.exit = some .returned then { a with heap := a.heap.take regs } else a

/-! ## `disasm_stor` -/

/-- Modelled from the spec: the macro `ILC (opcode)`, the architected
instruction-length code embedded in the first byte of an instruction: 2, 4
or 6 bytes according to its two leftmost bits. -/
def ILC (opcode : Nat) : Nat :=
  if opcode < 0x40 then 2 else if opcode < 0xC0 then 4 else 6

/-- The loop `while (saddr <= eaddr)` of `disasm_stor`, entered with the given
values of `saddr` and `stid`. -/
def disasm_loop (arch : Arch) (K : CommandConsts) (walk : StorageWalk) (malloc_ok : Bool)
    (regs : Nat) (type : Char) (m : Machine) (eaddr : Nat) :
    Nat → Nat → Int → Heap → Ran
  | 0, _, _, h => ⟨h, m.mainstor, [], some .unfinished⟩
  | fuel + 1, saddr, stid, h =>
    if saddr ≤ eaddr then
      let t : VirtToReal :=
        if type = 'R' then ⟨h, some (0, saddr, stid), []⟩
        else virt_to_real K.toConsts (walk m.mainstor) h malloc_ok saddr 0 regs K.ACCTYPE_HW
      let tr : List Msg :=
        if type = 'R' then []
        else match t.ret with
          | none => []
          | some (icode, _, _) => [.translation saddr icode]
      match t.ret with
      | none => ⟨t.heap, m.mainstor, [], some .crashed⟩
      | some (icode, raddr, stid) =>
        let r := t.heap.getD regs REGS.uninit
        let xcode := icode % 65536
        if xcode ≠ 0 then
          ⟨t.heap, m.mainstor, tr ++ [.HHC02289_not_accessible saddr xcode], some .returned⟩
        else
          let aaddr := APPLY_PREFIXING arch raddr r.PX
          if aaddr > r.mainlim then
            ⟨t.heap, m.mainstor, tr ++ [.HHC02289_addressing raddr], some .returned⟩
          else
            let opcode := m.mainstor aaddr
            let ilc := ILC opcode
            if add64 aaddr ilc > r.mainlim then
              ⟨t.heap, m.mainstor, tr ++ [.HHC02289_addressing aaddr], some .returned⟩
            else
              let inst := (List.range ilc).map (fun j => m.mainstor (aaddr + j))
              let c :=
                if stid = K.TEA_ST_PRIMARY then 'P'
                else if stid = K.TEA_ST_HOME then 'H'
                else if stid = K.TEA_ST_SECNDRY then 'S'
                else 'R'
              let l := disasm_loop arch K walk malloc_ok regs type m eaddr fuel
                (add64 saddr ilc) stid t.heap
              { l with out := tr ++ .HHC02289_inst c raddr inst :: l.out }
    else ⟨h, m.mainstor, [], none⟩

/-- The function `ARCH_DEP (disasm_stor) (regs, argc, argv, cmdline)` of the
build architecture `arch`, with its loop allowed `fuel` iterations. `argv[0]`
is the operand. The wrapper `disasm_stor`, which selects the function by the
architecture mode of the context, is not embedded. -/
def arch_disasm_stor (arch : Arch) (K : CommandConsts) (walk : StorageWalk)
    (h : Heap) (m : Machine) (malloc_ok : Bool) (regs : Nat)
    (argc : Int) (argv : List (List Char)) (fuel : Nat) : Ran :=
  if argc ≠ 1 then ⟨h, m.mainstor, [.HHC17000], some .returned⟩
  else
    match argv[0]? with
    | none => ⟨h, m.mainstor, [], some .crashed⟩
    | some opnd =>
      let type := command_letter opnd
      let lettered := type = 'R' ∨ type = 'V' ∨ type = 'P' ∨ type = 'H'
      let opnd := if lettered then opnd.tail else opnd
      let type : Option Char :=
        if lettered then some type
        else h[regs]?.map (fun r => if r.real_mode then 'R' else 'V')
      match type with
      | none => ⟨h, m.mainstor, [], some .crashed⟩
      | some type =>
        match parse_range (some opnd) (maxadr arch) false with
        | .error e => ⟨h, m.mainstor, [e.msg], some .returned⟩
        | .ok _ saddr eaddr _ =>
          match h[regs]? with
          | none => ⟨h, m.mainstor, [], some .crashed⟩
          | some r =>
            if r.mainlim = 0 then ⟨h, m.mainstor, [.HHC02289_not_valid], some .returned⟩
            else
              let eaddr := LIMIT_RANGE saddr eaddr _64_KILOBYTE
              let d := disasm_loop arch K walk malloc_ok regs type m eaddr fuel saddr (-1) h
              ⟨d.heap, d.mainstor, d.out, some (d.exit.getD .returned)⟩

/-! ## `PIC2Name` -/

/-- The table `pgmintname` of `PIC2Name`: the names of the program interruption
codes from `0x01` on, in order. -/
def pgmintname : List String :=
  ["Operation exception", "Privileged-operation exception", "Execute exception",
   "Protection exception", "Addressing exception", "Specification exception",
   "Data exception", "Fixed-point-overflow exception", "Fixed-point-divide exception",
   "Decimal-overflow exception", "Decimal-divide exception",
   "HFP-exponent-overflow exception", "HFP-exponent-underflow exception",
   "HFP-significance exception", "HFP-floating-point-divide exception",
   "Segment-translation exception", "Page-translation exception",
   "Translation-specification exception", "Special-operation exception",
   "Pseudo-page-fault exception", "Operand exception", "Trace-table exception",
   "ASN-translation exception", "Transaction constraint exception",
   "Vector/Crypto operation exception", "Page state exception",
   "Vector processing exception", "Space-switch event", "Square-root exception",
   "Unnormalized-operand exception", "PC-translation specification exception",
   "AFX-translation exception", "ASX-translation exception", "LX-translation exception",
   "EX-translation exception", "Primary-authority exception",
   "Secondary-authority exception", "LFX-translation exception",
   "LSX-translation exception", "ALET-specification exception",
   "ALEN-translation exception", "ALE-sequence exception", "ASTE-validity exception",
   "ASTE-sequence exception", "Extended-authority exception", "LSTE-sequence exception",
   "ASTE-instance exception", "Stack-full exception", "Stack-empty exception",
   "Stack-specification exception", "Stack-type exception", "Stack-operation exception",
   "Unassigned exception", "Unassigned exception", "Unassigned exception",
   "ASCE-type exception", "Region-first-translation exception",
   "Region-second-translation exception", "Region-third-translation exception",
   "Unassigned exception", "Unassigned exception", "Unassigned exception",
   "Unassigned exception", "Monitor event"]

/-- The function `PIC2Name (pcode)`. An `int` is a 32-bit value in two's
complement, so `pcode & 0xFF` is taken on `pcode` modulo `2 ^ 32`;
`_countof (pgmintname)` is the number of entries of the table. The result is
`none` when the function reads outside the table. -/
def PIC2Name (pcode : Int) : Option String :=
  let code := (pcode % 2 ^ 32).toNat &&& 0xFF
  if code < 1 ∨ code > pgmintname.length then some "Unassigned exception"
  else
    let ndx := (code - 1) &&& 0x3F
    if 0 ≤ ndx ∧ ndx < pgmintname.length then pgmintname[ndx]?
    else some "Unassigned exception"

/-! ## `display_real` -/

/-- What `display_real` puts into the buffer after the header and the real
address. -/
inductive RealBody
  /-- The text `A:aaddr Guest real address is not valid`. -/
  | guest_not_valid (aaddr : Nat)
  /-- The text ` Real address is not valid`. -/
  | not_valid
  /-- The storage key and the bytes of storage: `absolute` is the address of the
  text `A:aaddr:` written for an SIE guest, `read` the absolute addresses read
  from `regs->mainstor`, in order, and `bytes` their content, which is
  formatted in hexadecimal and as characters. -/
  | storage (absolute : Option Nat) (key : Nat) (read : List Nat) (bytes : List Nat)
deriving DecidableEq, Repr

/-- The content of the buffer of `display_real`: the header `hdr`, the real
address when `draflag` is set, and the body. The number of characters, which
the function returns, is outside the embedding. -/
structure RealDisplay where
  hdr : String
  real : Option Nat
  body : RealBody
deriving DecidableEq, Repr

/-- The loop `for (i = 0, j = 0; i < 16; i++)` of `display_real`, with the given
number of iterations left and value of `aaddr`: the absolute addresses it
reads, in order. -/
def display_real_loop (arch : Arch) : Nat → Nat → List Nat
  | 0, _ => []
  | left + 1, aaddr =>
    let next := add64 aaddr 1
    aaddr :: (if next &&& PAGEFRAME_BYTEMASK arch = 0 then []
              else display_real_loop arch left next)

/-- The function `display_real (regs, raddr, buf, bufl, draflag, hdr)`.
`hostregs` is the context `HOSTREGS` designates. The store of the interval
timer (`ITIMER_ACCESS`) is outside the embedding. -/
def display_real (arch : Arch) (regs hostregs : REGS) (m : Machine) (raddr : Nat)
    (draflag : Int) (hdr : String) : RealDisplay :=
  let real := if draflag ≠ 0 then some raddr else none
  let aaddr := APPLY_PREFIXING arch raddr regs.PX
  let read := display_real_loop arch 16 aaddr
  if regs.sie_mode then
    if hostregs.mainlim = 0 ∨ aaddr > hostregs.mainlim then
      ⟨hdr, real, .guest_not_valid aaddr⟩
    else ⟨hdr, real, .storage (some aaddr) (m.storkey aaddr) read (read.map m.mainstor)⟩
  else if regs.mainlim = 0 ∨ aaddr > regs.mainlim then ⟨hdr, real, .not_valid⟩
  else ⟨hdr, real, .storage none (m.storkey aaddr) read (read.map m.mainstor)⟩

/-! ## The chunks of a display -/

/-- The chunks that were dumped: for each page dump among some messages, in
order, the cosmetic address of its first byte and the number of its bytes. -/
def chunks : List Msg → List (Nat × Nat)
  | [] => []
  | .dump _ d :: ms => (d.adr + d.skip, d.data.length) :: chunks ms
  | _ :: ms => chunks ms

/-- Chunks that are consecutive from the address `start`, each of at least one
byte and within a single page, and that hold `total` bytes together. -/
def chunks_cover (arch : Arch) : List (Nat × Nat) → Nat → Nat → Prop
  | [], _, total => total = 0
  | (adr, amt) :: cs, start, total =>
    adr = start ∧ 1 ≤ amt ∧ amt ≤ total ∧
    adr % PAGEFRAME_PAGESIZE arch + amt ≤ PAGEFRAME_PAGESIZE arch ∧
    chunks_cover arch cs (start + amt) (total - amt)

instance chunks_cover_decidable (arch : Arch) :
    ∀ (cs : List (Nat × Nat)) (start total : Nat), Decidable (chunks_cover arch cs start total)
  | [], _, total => inferInstanceAs (Decidable (total = 0))
  | (adr, amt) :: cs, start, total =>
    have := chunks_cover_decidable arch cs (start + amt) (total - amt)
    inferInstanceAs (Decidable (adr = start ∧ 1 ≤ amt ∧ amt ≤ total ∧
      adr % PAGEFRAME_PAGESIZE arch + amt ≤ PAGEFRAME_PAGESIZE arch ∧
      chunks_cover arch cs (start + amt) (total - amt)))

/-! ## Example states -/

/-- An ESA/390 context with 64K of main storage and the prefix `0x5000`. -/
def example_regs : REGS :=
  { real_mode := true, sie_mode := false, sie_active := false, ghostregs := false,
    tlbID := 0, tlb_vaddr := [], hostregs := some 0, guestregs := none,
    PX := 0x5000, mainlim := 0xFFFF, dat_stid := 0, dat_raddr := 0, tea := 0,
    progjmp := 0, gr := [] }

/-- A context without main storage: `mainlim` is zero. -/
def example_regs_no_storage : REGS := { example_regs with PX := 0, mainlim := 0 }

/-- An ESA/390 system whose main storage holds zeros. -/
def example_machine : Machine :=
  { mainstor := fun _ => 0, storkey := fun _ => 6, arch_mode := .s390 }

/-- Values for the constants of the headers. -/
def example_consts : Consts :=
  { ACCTYPE_INSTFETCH := 1, USE_INST_SPACE := 20, TEA_ST_PRIMARY := 0, TEA_ST_SECNDRY := 2,
    TEA_ST_HOME := 3 }

/-- A table walk in which every page-table entry is invalid: it records the
address in the translation exception address and in `dat.raddr` of the
context it is given, marks the host context, and raises a page-translation
exception (`0x0011`). -/
def example_walk : TableWalk := fun vaddr _ _ regs host =>
  { regs := { regs with tea := vaddr, dat_raddr := 0, dat_stid := 3 }
    hostregs := host.map (fun hr => { hr with tea := vaddr, dat_stid := 3 })
    icode := 0x11
    fetched := [vaddr / 4096] }

/-- A host context with DAT on, at index 0 of `example_heap`. -/
def example_host : REGS := { example_regs with real_mode := false, sie_active := true,
                                               guestregs := some 1 }

/-- An SIE guest context with DAT on, at index 1 of `example_heap`. -/
def example_guest : REGS := { example_regs with real_mode := false, sie_mode := true,
                                                hostregs := some 0, guestregs := some 1 }

/-- A heap with a host context and its SIE guest. -/
def example_heap : Heap := [example_host, example_guest]

/-- Values for the constants of the headers the commands use. -/
def example_command_consts : CommandConsts :=
  { example_consts with ACCTYPE_HW := 5, USE_PRIMARY_SPACE := 17, USE_SECONDARY_SPACE := 18,
                        USE_HOME_SPACE := 19 }

/-- A context with DAT on, 64K of main storage and the prefix `0x5000`. -/
def example_dat_regs : REGS := { example_regs with real_mode := false }

/-- A table walk in which the page at `0x1000` is invalid (page-translation
exception `0x0011`) and every other virtual address is its own real address,
in the primary space. -/
def example_walk_hole : StorageWalk := fun _ vaddr _ _ regs host =>
  if vaddr / 4096 = 1 then
    { regs := { regs with tea := vaddr, dat_stid := 0 }, hostregs := host, icode := 0x11,
      fetched := [vaddr / 4096] }
  else
    { regs := { regs with dat_raddr := vaddr, dat_stid := 0 }, hostregs := host, icode := 0,
      fetched := [vaddr / 4096] }

/-- A table walk that maps every virtual page to the page frame at `0x2000`, in
the primary space. -/
def example_walk_frame : StorageWalk := fun _ vaddr _ _ regs host =>
  { regs := { regs with dat_raddr := 0x2000 + vaddr % 4096, dat_stid := 0 }, hostregs := host,
    icode := 0, fetched := [vaddr / 4096] }

/-- A z/Architecture context with DAT on, 64K of main storage and the prefix
`0`. -/
def example_z900_regs : REGS := { example_regs with real_mode := false, PX := 0 }

/-- An SIE guest context whose own `mainlim` is zero; its host context
`example_host` has 64K of main storage. -/
def example_guest_no_storage : REGS := { example_guest with mainlim := 0 }

/-! # Properties -/

/-! ## Characters, numerals and the scan of an operand -/

theorem isxdigit_iff (c : Char) :
    isxdigit c = true ↔ (48 ≤ c.toNat ∧ c.toNat ≤ 57) ∨ (65 ≤ c.toNat ∧ c.toNat ≤ 70)
      ∨ (97 ≤ c.toNat ∧ c.toNat ≤ 102) := by
  simp only [isxdigit, hexdigit, toupper, decide_eq_true_eq]
  split_ifs <;> omega

theorem isxdigit_not_special (c : Char) (h : isxdigit c = true) :
    isspace c = false ∧ c ≠ '-' ∧ c ≠ '+' ∧ c ≠ 'x' ∧ c ≠ 'X' ∧ c ≠ '#' ∧ c ≠ ' '
      ∧ c ≠ '\t' ∧ c ≠ '=' ∧ c ≠ Char.ofNat 0 := by
  rw [isxdigit_iff] at h
  refine ⟨?_, ?_, ?_, ?_, ?_, ?_, ?_, ?_, ?_, ?_⟩
  · simp only [isspace, Bool.or_eq_false_iff, Bool.and_eq_false_iff, beq_eq_false_iff_ne,
      decide_eq_false_iff_not]
    constructor
    · rintro rfl; revert h; decide
    · omega
  all_goals (rintro rfl; revert h; decide)

theorem hexvalue_append (xs : List Char) (c : Char) :
    hexvalue (xs ++ [c]) = 16 * hexvalue xs + (hexdigit c).toNat := by
  simp [hexvalue, List.foldl_append]

theorem hexvalue_cons_zero (xs : List Char) : hexvalue ('0' :: xs) = hexvalue xs := by
  simp [hexvalue, List.foldl_cons]
  rfl

theorem hexdigit_hexchar (d : Nat) (h : d < 16) :
    hexdigit (hexchar d) = d ∧ isxdigit (hexchar d) = true := by
  interval_cases d <;> decide

theorem hexvalue_replicate_zero (k : Nat) (xs : List Char) :
    hexvalue (List.replicate k '0' ++ xs) = hexvalue xs := by
  induction k with
  | zero => rfl
  | succ k ih => rw [List.replicate_succ, List.cons_append, hexvalue_cons_zero, ih]

theorem hexvalue_map_hexchar (L : List Nat) (h : ∀ d ∈ L, d < 16) :
    hexvalue (L.reverse.map hexchar) = Nat.ofDigits 16 L := by
  induction L with
  | nil => rfl
  | cons d L ih =>
    rw [List.reverse_cons, List.map_append, List.map_singleton, hexvalue_append,
      ih (fun x hx => h x (List.mem_cons_of_mem _ hx)), Nat.ofDigits_cons,
      (hexdigit_hexchar d (h d (List.mem_cons_self _ _))).1]
    simp
    ring

theorem hexvalue_hexstr (w n : Nat) : hexvalue (hexstr w n) = n := by
  unfold hexstr
  simp only []
  rw [hexvalue_replicate_zero]
  split_ifs with h0
  · simp only [List.map_eq_nil_iff, List.reverse_eq_nil_iff] at h0
    rw [Nat.digits_eq_nil_iff_eq_zero] at h0
    subst h0; rfl
  · rw [hexvalue_map_hexchar _ (fun d hd => Nat.digits_lt_base (by norm_num) hd),
      Nat.ofDigits_digits]

theorem hexstr_isxdigit (w n : Nat) : ∀ c ∈ hexstr w n, isxdigit c = true := by
  intro c hc
  unfold hexstr at hc
  simp only [List.mem_append, List.mem_replicate] at hc
  rcases hc with ⟨_, rfl⟩ | hc
  · decide
  · split_ifs at hc with h0
    · simp only [List.mem_singleton] at hc
      subst hc; decide
    · simp only [List.mem_map, List.mem_reverse] at hc
      obtain ⟨d, hd, rfl⟩ := hc
      exact (hexdigit_hexchar d (Nat.digits_lt_base (by norm_num) hd)).2

theorem hexstr_ne_nil (w n : Nat) : hexstr w n ≠ [] := by
  unfold hexstr
  simp only []
  split_ifs with h0
  · exact List.append_ne_nil_of_right_ne_nil _ (by simp)
  · exact List.append_ne_nil_of_right_ne_nil _ h0

theorem takeWhile_append_stop {p : Char → Bool} (ds rest : List Char)
    (hds : ∀ c ∈ ds, p c = true) (hr : ∀ c, rest.head? = some c → p c = false) :
    (ds ++ rest).takeWhile p = ds ∧ (ds ++ rest).dropWhile p = rest := by
  induction ds with
  | nil =>
    cases rest with
    | nil => exact ⟨rfl, rfl⟩
    | cons c t =>
      have := hr c rfl
      simp [List.takeWhile_cons, List.dropWhile_cons, this]
  | cons d ds ih =>
    have hd := hds d (List.mem_cons_self _ _)
    have := ih (fun c hc => hds c (List.mem_cons_of_mem _ hc))
    simp [List.takeWhile_cons, List.dropWhile_cons, hd, this]

/-- Scanning a number that starts with a digit and is not followed by `x`. -/
theorem scan_llx_digit (h : Char) (t : List Char) (hh : isxdigit h = true)
    (hx : ∀ x, t.head? = some x → x ≠ 'x' ∧ x ≠ 'X') :
    scan_llx (h :: t) =
      some (if 2 ^ 64 ≤ hexvalue ((h :: t).takeWhile isxdigit) then 2 ^ 64 - 1
            else hexvalue ((h :: t).takeWhile isxdigit), (h :: t).dropWhile isxdigit) := by
  obtain ⟨hsp, hm, hp, -⟩ := isxdigit_not_special h hh
  have h1 : (h :: t).dropWhile isspace = h :: t := by simp [List.dropWhile_cons, hsp]
  have h3 : (match (h :: t) with
      | '0' :: x :: t2 => if x = 'x' ∨ x = 'X' then '0' :: t2 else (h :: t)
      | _ => (h :: t)) = h :: t := by
    split
    · next x t2 heq =>
      simp only [List.cons.injEq] at heq
      have := hx x (by rw [heq.2]; rfl)
      simp [this.1, this.2]
    · rfl
  unfold scan_llx
  simp only [h1, List.head?_cons, Option.some.injEq, hm, hp, or_self, if_false, h3,
    decide_False]
  have hne : (h :: t).takeWhile isxdigit ≠ [] := by simp [List.takeWhile_cons, hh]
  simp [hne]

theorem scan_llx_digits (ds rest : List Char) (hne : ds ≠ [])
    (hds : ∀ c ∈ ds, isxdigit c = true)
    (hr : ∀ c, rest.head? = some c → isxdigit c = false ∧ c ≠ 'x' ∧ c ≠ 'X') :
    scan_llx (ds ++ rest) =
      some (if 2 ^ 64 ≤ hexvalue ds then 2 ^ 64 - 1 else hexvalue ds, rest) := by
  obtain ⟨tw, dw⟩ := takeWhile_append_stop ds rest hds (fun c hc => (hr c hc).1)
  cases ds with
  | nil => exact absurd rfl hne
  | cons h t =>
    have hx : ∀ x, (t ++ rest).head? = some x → x ≠ 'x' ∧ x ≠ 'X' := by
      intro x hxx
      cases t with
      | nil => exact (hr x hxx).2
      | cons y t2 =>
        simp only [List.cons_append, List.head?_cons, Option.some.injEq] at hxx
        subst hxx
        have := isxdigit_not_special y (hds y (by simp))
        exact ⟨this.2.2.2.1, this.2.2.2.2.1⟩
    rw [List.cons_append, scan_llx_digit h (t ++ rest) (hds h (List.mem_cons_self _ _)) hx,
      ← List.cons_append, tw, dw]

theorem scan_llx_hexstr (w n : Nat) (rest : List Char) (hn : n < 2 ^ 64)
    (hr : ∀ c, rest.head? = some c → isxdigit c = false ∧ c ≠ 'x' ∧ c ≠ 'X') :
    scan_llx (hexstr w n ++ rest) = some (n, rest) := by
  rw [scan_llx_digits _ _ (hexstr_ne_nil w n) (hexstr_isxdigit w n) hr, hexvalue_hexstr,
    if_neg (by omega)]

theorem cstr_append (a b : List Char) (ha : ∀ c ∈ a, c ≠ Char.ofNat 0) :
    cstr (a ++ b) = a ++ cstr b := by
  unfold cstr
  induction a with
  | nil => rfl
  | cons x a ih =>
    have hx : (x != Char.ofNat 0) = true := by simpa using ha x (List.mem_cons_self _ _)
    rw [List.cons_append, List.takeWhile_cons, hx]
    simp only [if_true, List.cons_append, List.cons.injEq, true_and]
    exact ih (fun c hc => ha c (List.mem_cons_of_mem _ hc))

theorem cstr_of_no_nul (a : List Char) (ha : ∀ c ∈ a, c ≠ Char.ofNat 0) : cstr a = a := by
  have := cstr_append a [] ha
  simpa [cstr] using this

theorem hexstr_no (w n : Nat) (ch : Char) (hch : isxdigit ch = false) :
    ∀ c ∈ hexstr w n, c ≠ ch := by
  rintro c hc rfl
  rw [hexstr_isxdigit w n c hc] at hch
  exact absurd hch (by decide)

theorem scan_llx_skip (bl s : List Char) (hbl : ∀ c ∈ bl, isspace c = true) :
    scan_llx (bl ++ s) = scan_llx s := by
  have : (bl ++ s).dropWhile isspace = s.dropWhile isspace := by
    induction bl with
    | nil => rfl
    | cons x bl ih =>
      rw [List.cons_append, List.dropWhile_cons, hbl x (List.mem_cons_self _ _)]
      exact ih (fun c hc => hbl c (List.mem_cons_of_mem _ hc))
  unfold scan_llx
  rw [this]

theorem after_strchr_append (a b : List Char) (ch : Char) (ha : ∀ c ∈ a, c ≠ ch) :
    after_strchr (a ++ ch :: b) ch = b := by
  unfold after_strchr
  have : (a ++ ch :: b).dropWhile (fun c => c != ch) = ch :: b := by
    induction a with
    | nil => simp [List.dropWhile_cons]
    | cons x a ih =>
      have hx : (x != ch) = true := by simpa using ha x (List.mem_cons_self _ _)
      rw [List.cons_append, List.dropWhile_cons, hx]
      exact ih (fun c hc => ha c (List.mem_cons_of_mem _ hc))
  rw [this]; rfl

/-- The scan of an operand that starts with a formatted address and a delimiter. -/
theorem sscanf_range_hexstr_delim (w n : Nat) (d : Char) (r : List Char) (hn : n < 2 ^ 64)
    (hd : isxdigit d = false ∧ d ≠ 'x' ∧ d ≠ 'X') :
    sscanf_range (hexstr w n ++ d :: r) =
      match scan_llx r with
      | none => ⟨2, n, d, 0, Char.ofNat 0⟩
      | some (v2, r3) =>
        match r3 with
        | [] => ⟨3, n, d, v2, Char.ofNat 0⟩
        | c :: _ => ⟨4, n, d, v2, c⟩ := by
  unfold sscanf_range
  rw [scan_llx_hexstr w n (d :: r) hn (by
    intro c hc
    simp only [List.head?_cons, Option.some.injEq] at hc
    subst hc; exact hd)]

theorem sscanf_range_hexstr (w n : Nat) (hn : n < 2 ^ 64) :
    sscanf_range (hexstr w n) = ⟨1, n, Char.ofNat 0, 0, Char.ofNat 0⟩ := by
  have := scan_llx_hexstr w n [] hn (by simp)
  rw [List.append_nil] at this
  unfold sscanf_range
  rw [this]

theorem sscanf_range_two (w1 w2 a b : Nat) (d : Char) (ha : a < 2 ^ 64) (hb : b < 2 ^ 64)
    (hd : isxdigit d = false ∧ d ≠ 'x' ∧ d ≠ 'X') :
    sscanf_range (hexstr w1 a ++ d :: hexstr w2 b) = ⟨3, a, d, b, Char.ofNat 0⟩ := by
  rw [sscanf_range_hexstr_delim w1 a d _ ha hd]
  have := scan_llx_hexstr w2 b [] hb (by simp)
  rw [List.append_nil] at this
  rw [this]

/-! ## Range operands -/

theorem hexstr_no_nul (w n : Nat) : ∀ c ∈ hexstr w n, c ≠ Char.ofNat 0 :=
  hexstr_no w n _ (by decide)

theorem cstr_two (w1 w2 a b : Nat) (d : Char) (hd : d ≠ Char.ofNat 0) :
    cstr (hexstr w1 a ++ d :: hexstr w2 b) = hexstr w1 a ++ d :: hexstr w2 b := by
  apply cstr_of_no_nul
  intro c hc
  simp only [List.mem_append, List.mem_cons] at hc
  rcases hc with hc | rfl | hc
  · exact hexstr_no_nul w1 a c hc
  · exact hd
  · exact hexstr_no_nul w2 b c hc

/-- What `parse_range` computes for an operand `ADDR-ADDR2`. -/
theorem parse_range_dash (w1 w2 a b maxadr : Nat) (alter : Bool)
    (ha : a < 2 ^ 64) (hb : b < 2 ^ 64) :
    parse_range (some (hexstr w1 a ++ '-' :: hexstr w2 b)) maxadr alter =
      if a > maxadr ∨ b > maxadr ∨ b < a then .error .invalid_range else .ok 0 a b [] := by
  unfold parse_range
  simp only [cstr_two w1 w2 a b '-' (by decide),
    sscanf_range_two w1 w2 a b '-' ha hb (by decide)]
  simp

/-- What `parse_range` computes for an operand `ADDR.LENGTH`. -/
theorem parse_range_dot (w1 w2 a l maxadr : Nat) (alter : Bool)
    (ha : a < 2 ^ 64) (hl : l < 2 ^ 64) :
    parse_range (some (hexstr w1 a ++ '.' :: hexstr w2 l)) maxadr alter =
      if a > maxadr ∨ sub64 (add64 a l) 1 > maxadr ∨ sub64 (add64 a l) 1 < a
      then .error .invalid_range else .ok 0 a (sub64 (add64 a l) 1) [] := by
  unfold parse_range
  simp only [cstr_two w1 w2 a l '.' (by decide),
    sscanf_range_two w1 w2 a l '.' ha hl (by decide)]
  simp

/-- What `parse_range` computes for an operand `ADDR`. -/
theorem parse_range_single (w a maxadr : Nat) (alter : Bool) (ha : a < 2 ^ 64) :
    parse_range (some (hexstr w a)) maxadr alter =
      if a > maxadr ∨ (if add64 a 0x3F > maxadr then maxadr else add64 a 0x3F) > maxadr
          ∨ (if add64 a 0x3F > maxadr then maxadr else add64 a 0x3F) < a
      then .error .invalid_range
      else .ok 0 a (if add64 a 0x3F > maxadr then maxadr else add64 a 0x3F) [] := by
  unfold parse_range
  simp only [cstr_of_no_nul _ (hexstr_no_nul w a), sscanf_range_hexstr w a ha]
  simp


/-! ## Alteration operands -/

theorem hexdigit_lt (c : Char) : hexdigit c < 16 := by
  simp only [hexdigit, toupper]
  split_ifs <;> omega

theorem nibbles_byte (a b : Nat) (ha : a < 16) (hb : b < 16) :
    ((a <<< 4) ||| b) % 256 = a * 16 + b := by
  interval_cases a <;> interval_cases b <;> rfl

theorem HexPair.byte_eq (p : HexPair) :
    (((hexdigit p.hi).toNat <<< 4) ||| (hexdigit p.lo).toNat) % 256 = p.byte := by
  have h1 := hexdigit_lt p.hi
  have h2 := hexdigit_lt p.lo
  exact nibbles_byte _ _ (by omega) (by omega)

theorem parse_hexstring_cons (h1 : Char) (s : List Char) (newval : List Nat) :
    parse_hexstring (h1 :: s) newval =
      if h1 = '#' then .ok newval
      else if h1 = ' ' ∨ h1 = '\t' then parse_hexstring s newval
      else if hexdigit h1 < 0 then .error .invalid_hex_digit
      else
        match s with
        | [] => .error .invalid_hex_pair
        | h2 :: s2 =>
          if hexdigit h2 < 0 then .error .invalid_hex_pair
          else if newval.length ≥ 32 then .error .too_many_bytes
          else
            parse_hexstring s2
              (newval ++ [(((hexdigit h1).toNat <<< 4) ||| (hexdigit h2).toNat) % 256]) := by
  rw [parse_hexstring.eq_def]

theorem parse_hexstring_blanks (bl s : List Char) (acc : List Nat)
    (hbl : ∀ c ∈ bl, c = ' ' ∨ c = '\t') :
    parse_hexstring (bl ++ s) acc = parse_hexstring s acc := by
  induction bl with
  | nil => rfl
  | cons x bl ih =>
    have hx := hbl x (List.mem_cons_self _ _)
    have hne : x ≠ '#' := by rcases hx with rfl | rfl <;> decide
    rw [List.cons_append, parse_hexstring_cons, if_neg hne, if_pos hx]
    exact ih (fun c hc => hbl c (List.mem_cons_of_mem _ hc))

theorem parse_hexstring_pair (p : HexPair) (s : List Char) (acc : List Nat) (hp : p.valid) :
    parse_hexstring (p.blanks ++ p.hi :: p.lo :: s) acc =
      if acc.length ≥ 32 then .error .too_many_bytes
      else parse_hexstring s (acc ++ [p.byte]) := by
  obtain ⟨hb, hhi, hlo⟩ := hp
  have s1 := isxdigit_not_special p.hi hhi
  have d1 : ¬ hexdigit p.hi < 0 := by simpa [isxdigit] using hhi
  have d2 : ¬ hexdigit p.lo < 0 := by simpa [isxdigit] using hlo
  rw [parse_hexstring_blanks _ _ _ hb, parse_hexstring_cons, if_neg s1.2.2.2.2.2.1,
    if_neg (by simp [s1.2.2.2.2.2.2.1, s1.2.2.2.2.2.2.2.1]), if_neg d1]
  simp only [if_neg d2, HexPair.byte_eq p]

theorem parse_hexstring_end (bl cm : List Char) (acc : List Nat)
    (hbl : ∀ c ∈ bl, c = ' ' ∨ c = '\t') (hcm : cm = [] ∨ cm.head? = some '#') :
    parse_hexstring (bl ++ cm) acc = .ok acc := by
  rw [parse_hexstring_blanks _ _ _ hbl]
  rcases hcm with rfl | hcm
  · rfl
  · cases cm with
    | nil => rfl
    | cons c t =>
      simp only [List.head?_cons, Option.some.injEq] at hcm
      subst hcm
      rw [parse_hexstring_cons, if_pos rfl]

theorem parse_hexstring_ok (ps : List HexPair) (rest : List Char) (acc : List Nat)
    (hps : ∀ p ∈ ps, p.valid) (hlen : acc.length + ps.length ≤ 32) :
    parse_hexstring (hexstring ps ++ rest) acc =
      parse_hexstring rest (acc ++ ps.map HexPair.byte) := by
  induction ps generalizing acc with
  | nil => simp [hexstring]
  | cons p ps ih =>
    simp only [List.length_cons] at hlen
    rw [hexstring, List.append_assoc, List.cons_append, List.cons_append,
      parse_hexstring_pair p _ acc (hps p (List.mem_cons_self _ _)), if_neg (by omega),
      ih _ (fun q hq => hps q (List.mem_cons_of_mem _ hq))
        (by simp only [List.length_append, List.length_singleton]; omega)]
    simp

theorem parse_hexstring_too_many (ps : List HexPair) (rest : List Char) (acc : List Nat)
    (hps : ∀ p ∈ ps, p.valid) (hlen : 32 < acc.length + ps.length) (hacc : acc.length ≤ 32) :
    parse_hexstring (hexstring ps ++ rest) acc = .error .too_many_bytes := by
  induction ps generalizing acc with
  | nil => simp at hlen; omega
  | cons p ps ih =>
    simp only [List.length_cons] at hlen
    rw [hexstring, List.append_assoc, List.cons_append, List.cons_append,
      parse_hexstring_pair p _ acc (hps p (List.mem_cons_self _ _))]
    by_cases h32 : acc.length ≥ 32
    · rw [if_pos h32]
    · rw [if_neg h32]
      exact ih _ (fun q hq => hps q (List.mem_cons_of_mem _ hq))
        (by simp only [List.length_append, List.length_singleton]; omega)
        (by simp only [List.length_append, List.length_singleton]; omega)

theorem blank_props (c : Char) (h : c = ' ' ∨ c = '\t') :
    isspace c = true ∧ c ≠ Char.ofNat 0 ∧ c ≠ '=' := by
  rcases h with rfl | rfl <;> decide

theorem hexstring_no_nul (ps : List HexPair) (hps : ∀ p ∈ ps, p.valid) :
    ∀ c ∈ hexstring ps, c ≠ Char.ofNat 0 := by
  induction ps with
  | nil => intro c hc; simp [hexstring] at hc
  | cons p ps ih =>
    intro c hc
    obtain ⟨hb, hhi, hlo⟩ := hps p (List.mem_cons_self _ _)
    simp only [hexstring, List.mem_append, List.mem_cons] at hc
    rcases hc with hc | rfl | rfl | hc
    · exact (blank_props c (hb c hc)).2.1
    · exact (isxdigit_not_special _ hhi).2.2.2.2.2.2.2.2.2
    · exact (isxdigit_not_special _ hlo).2.2.2.2.2.2.2.2.2
    · exact ih (fun q hq => hps q (List.mem_cons_of_mem _ hq)) c hc

/-- The scan of an alteration operand: at least three conversions are done,
the delimiter is the equal sign and the first value is the address. -/
theorem sscanf_range_alteration (w a : Nat) (ps : List HexPair) (rest : List Char)
    (ha : a < 2 ^ 64) (hps : ∀ p ∈ ps, p.valid) (hne : ps ≠ []) :
    (sscanf_range (hexstr w a ++ '=' :: (hexstring ps ++ rest))).rc > 2 ∧
    (sscanf_range (hexstr w a ++ '=' :: (hexstring ps ++ rest))).delim = '=' ∧
    (sscanf_range (hexstr w a ++ '=' :: (hexstring ps ++ rest))).opnd1 = a := by
  rw [sscanf_range_hexstr_delim w a '=' _ ha (by decide)]
  cases ps with
  | nil => exact absurd rfl hne
  | cons p ps =>
    obtain ⟨hb, hhi, hlo⟩ := hps p (List.mem_cons_self _ _)
    rw [hexstring, List.append_assoc, scan_llx_skip _ _ (fun c hc => (blank_props c (hb c hc)).1),
      List.cons_append, List.cons_append, scan_llx_digit p.hi _ hhi (by
        intro x hx
        simp only [List.head?_cons, Option.some.injEq] at hx
        subst hx
        have := isxdigit_not_special _ hlo
        exact ⟨this.2.2.2.1, this.2.2.2.2.1⟩)]
    simp only []
    split <;> simp

/-- What `parse_range` computes for an alteration operand. -/
theorem parse_range_alter_eq (w a maxadr : Nat) (ps : List HexPair) (rest : List Char)
    (ha : a < 2 ^ 64) (hps : ∀ p ∈ ps, p.valid) (hne : ps ≠ []) :
    parse_range (some (hexstr w a ++ '=' :: (hexstring ps ++ rest))) maxadr true =
      match parse_hexstring (hexstring ps ++ cstr rest) [] with
      | .error e => .error e
      | .ok newval =>
        if a > maxadr ∨ sub64 (add64 a newval.length) 1 > maxadr
            ∨ sub64 (add64 a newval.length) 1 < a
        then .error .invalid_range
        else .ok newval.length a (sub64 (add64 a newval.length) 1) newval := by
  have hc : cstr (hexstr w a ++ '=' :: (hexstring ps ++ rest))
      = hexstr w a ++ '=' :: (hexstring ps ++ cstr rest) := by
    rw [cstr_append _ _ (hexstr_no_nul w a)]
    have : cstr ('=' :: (hexstring ps ++ rest)) = '=' :: cstr (hexstring ps ++ rest) := by
      simp [cstr, List.takeWhile_cons]
    rw [this, cstr_append _ _ (hexstring_no_nul ps hps)]
  obtain ⟨h1, h2, h3⟩ := sscanf_range_alteration w a ps (cstr rest) ha hps hne
  unfold parse_range
  simp only [hc, h1, h2, h3, after_strchr_append _ _ '=' (hexstr_no w a '=' (by decide)),
    and_self, if_true]

/-- An alteration operand given where no alteration is accepted is an error. -/
theorem parse_range_alter_refused (w a maxadr : Nat) (ps : List HexPair) (rest : List Char)
    (ha : a < 2 ^ 64) (hps : ∀ p ∈ ps, p.valid) (hne : ps ≠ []) :
    parse_range (some (hexstr w a ++ '=' :: (hexstring ps ++ rest))) maxadr false =
      .error .invalid_operand := by
  have hc : cstr (hexstr w a ++ '=' :: (hexstring ps ++ rest))
      = hexstr w a ++ '=' :: (hexstring ps ++ cstr rest) := by
    rw [cstr_append _ _ (hexstr_no_nul w a)]
    have : cstr ('=' :: (hexstring ps ++ rest)) = '=' :: cstr (hexstring ps ++ rest) := by
      simp [cstr, List.takeWhile_cons]
    rw [this, cstr_append _ _ (hexstring_no_nul ps hps)]
  obtain ⟨h1, h2, h3⟩ := sscanf_range_alteration w a ps (cstr rest) ha hps hne
  unfold parse_range
  simp only [hc, h2]
  have : (sscanf_range (hexstr w a ++ '=' :: (hexstring ps ++ cstr rest))).rc ≠ 1 := by omega
  simp [this]

theorem cstr_trailer (bl cm : List Char) (hbl : ∀ c ∈ bl, c = ' ' ∨ c = '\t')
    (hcm : cm = [] ∨ cm.head? = some '#') :
    cstr (bl ++ cm) = bl ++ cstr cm ∧ (cstr cm = [] ∨ (cstr cm).head? = some '#') := by
  refine ⟨cstr_append _ _ (fun c hc => (blank_props c (hbl c hc)).2.1), ?_⟩
  rcases hcm with rfl | hcm
  · left; rfl
  · cases cm with
    | nil => left; rfl
    | cons c t =>
      simp only [List.head?_cons, Option.some.injEq] at hcm
      subst hcm
      right
      simp [cstr, List.takeWhile_cons]

theorem sub64_add64_pred (a n maxadr : Nat) (hn : 1 ≤ n) (hmax : maxadr < 2 ^ 64)
    (hr : a + n - 1 ≤ maxadr) : sub64 (add64 a n) 1 = a + n - 1 := by
  unfold sub64 add64
  omega

/-- What `parse_range` computes for a well-formed alteration operand of at most
32 bytes: the range check decides between the error and the result. -/
theorem parse_range_alter_value (w a maxadr : Nat) (ps : List HexPair) (bl cm : List Char)
    (ha : a < 2 ^ 64) (hps : ∀ p ∈ ps, p.valid) (hk1 : 1 ≤ ps.length) (hk : ps.length ≤ 32)
    (hbl : ∀ c ∈ bl, c = ' ' ∨ c = '\t') (hcm : cm = [] ∨ cm.head? = some '#') :
    parse_range (some (hexstr w a ++ '=' :: (hexstring ps ++ (bl ++ cm)))) maxadr true =
      if a > maxadr ∨ sub64 (add64 a ps.length) 1 > maxadr ∨ sub64 (add64 a ps.length) 1 < a
      then .error .invalid_range
      else .ok ps.length a (sub64 (add64 a ps.length) 1) (ps.map HexPair.byte) := by
  have hne : ps ≠ [] := by rintro rfl; simp at hk1
  obtain ⟨ht, hcm2⟩ := cstr_trailer bl cm hbl hcm
  rw [parse_range_alter_eq w a maxadr ps _ ha hps hne, ht,
    parse_hexstring_ok ps _ [] hps (by simpa using hk), parse_hexstring_end _ _ _ hbl hcm2]
  simp only [List.nil_append, List.length_map]

/-- Claim C6: for every operand `ADDR=HEXBYTES` made of `k` hex-digit pairs
(`1 ≤ k ≤ 32`, with optional blanks before each pair and after the last one,
optionally followed by `#` and a comment) whose range passes validation,
`parse_range` called with a non-null `newval` returns `k`, sets
`start = ADDR` and `end = ADDR + k - 1`, and stores in `newval[0..k-1]` the `k`
bytes in operand order, each being first digit times sixteen plus second
digit. -/
theorem parse_range_alteration (w a maxadr : Nat) (ps : List HexPair) (bl cm : List Char)
    (hps : ∀ p ∈ ps, p.valid) (hk1 : 1 ≤ ps.length) (hk : ps.length ≤ 32)
    (hbl : ∀ c ∈ bl, c = ' ' ∨ c = '\t') (hcm : cm = [] ∨ cm.head? = some '#')
    (hmax : maxadr < 2 ^ 64) (hrange : a + ps.length - 1 ≤ maxadr) :
    parse_range (some (hexstr w a ++ '=' :: (hexstring ps ++ (bl ++ cm)))) maxadr true
      = .ok ps.length a (a + ps.length - 1) (ps.map HexPair.byte) := by
  rw [parse_range_alter_value w a maxadr ps bl cm (by omega) hps hk1 hk hbl hcm,
    sub64_add64_pred a ps.length maxadr hk1 hmax hrange, if_neg (by omega)]

/-- The operand `1000=AABBCC` gives start `0x1000`, end `0x1002` and the bytes
`AA`, `BB`, `CC`. -/
theorem parse_range_alteration_witness :
    parse_range (some (hexstr 0 0x1000 ++ '=' ::
        (hexstring [⟨[], 'A', 'A'⟩, ⟨[], 'B', 'B'⟩, ⟨[], 'C', 'C'⟩] ++ ([] ++ []))))
      0x7FFFFFFF true = .ok 3 0x1000 0x1002 [0xAA, 0xBB, 0xCC] :=
  parse_range_alteration 0 0x1000 0x7FFFFFFF
    [⟨[], 'A', 'A'⟩, ⟨[], 'B', 'B'⟩, ⟨[], 'C', 'C'⟩] [] []
    (by decide) (by decide) (by decide) (by simp) (Or.inl rfl) (by decide) (by decide)

/-- Claim C10: `parse_range` accepts every otherwise valid alteration operand with
exactly 32 hex-digit pairs, returning 32, and returns `-1` for every operand
whose alteration value starts with 33 or more pairs, whatever follows them and
whether or not an alteration is accepted. -/
theorem parse_range_byte_limit (w a maxadr : Nat) (ps : List HexPair)
    (ha : a < 2 ^ 64) (hps : ∀ p ∈ ps, p.valid) :
    (ps.length = 32 → maxadr < 2 ^ 64 → a + 31 ≤ maxadr →
      ∀ bl cm : List Char, (∀ c ∈ bl, c = ' ' ∨ c = '\t') → (cm = [] ∨ cm.head? = some '#') →
        (parse_range (some (hexstr w a ++ '=' :: (hexstring ps ++ (bl ++ cm)))) maxadr true).rc
          = 32) ∧
    (33 ≤ ps.length → ∀ (rest : List Char) (alter : Bool),
        (parse_range (some (hexstr w a ++ '=' :: (hexstring ps ++ rest))) maxadr alter).rc
          = -1) := by
  constructor
  · intro h32 hmax hr bl cm hbl hcm
    rw [parse_range_alter_value w a maxadr ps bl cm ha hps (by omega) (by omega) hbl hcm,
      h32, sub64_add64_pred a 32 maxadr (by omega) hmax (by omega), if_neg (by omega)]
    rfl
  · intro h33 rest alter
    have hne : ps ≠ [] := by rintro rfl; simp at h33
    cases alter with
    | false => rw [parse_range_alter_refused w a maxadr ps rest ha hps hne]; rfl
    | true =>
      rw [parse_range_alter_eq w a maxadr ps rest ha hps hne,
        parse_hexstring_too_many ps _ [] hps (by simpa using h33) (by simp)]
      rfl

theorem parse_range_byte_limit_witness :
    ((parse_range (some (hexstr 8 0x2000 ++ '=' ::
        (hexstring (List.replicate 32 ⟨[' '], 'F', 'f'⟩) ++ ([' '] ++ ['#', 'x']))))
        0x7FFFFFFF true).rc = 32) ∧
    ((parse_range (some (hexstr 8 0x2000 ++ '=' ::
        (hexstring (List.replicate 33 ⟨[' '], 'F', 'f'⟩) ++ []))) 0x7FFFFFFF true).rc = -1) :=
  ⟨(parse_range_byte_limit 8 0x2000 0x7FFFFFFF (List.replicate 32 ⟨[' '], 'F', 'f'⟩)
      (by decide) (by decide)).1 (by decide) (by decide) (by decide) [' '] ['#', 'x']
      (by decide) (by decide),
   (parse_range_byte_limit 8 0x2000 0x7FFFFFFF (List.replicate 33 ⟨[' '], 'F', 'f'⟩)
      (by decide) (by decide)).2 (by decide) [] true⟩

/-! ## Range operands: round trip, length and default length -/

/-- Claim C9: for every pair of addresses with `start ≤ end ≤ maxadr`, writing
the two bounds in hexadecimal (with any minimum number of digits) and joining
them with `-` gives an operand on which `parse_range` returns `0` with exactly
those two bounds, whether or not an alteration is accepted. -/
theorem parse_range_round_trip (w1 w2 s e maxadr : Nat) (alter : Bool)
    (hse : s ≤ e) (hem : e ≤ maxadr) (hm : maxadr < 2 ^ 64) :
    parse_range (some (hexstr w1 s ++ '-' :: hexstr w2 e)) maxadr alter = .ok 0 s e [] := by
  rw [parse_range_dash w1 w2 s e maxadr alter (by omega) (by omega), if_neg (by omega)]

/-- The operand made of the bounds `0x1000` and `0x2FFF`, each written with
eight digits, parses to these bounds. -/
theorem parse_range_round_trip_witness :
    (0x1000 : Nat) ≤ 0x2FFF ∧ (0x2FFF : Nat) ≤ 0x7FFFFFFF ∧ (0x7FFFFFFF : Nat) < 2 ^ 64 ∧
    parse_range (some (hexstr 8 0x1000 ++ '-' :: hexstr 8 0x2FFF)) 0x7FFFFFFF true
      = .ok 0 0x1000 0x2FFF [] :=
  ⟨by decide, by decide, by decide,
    parse_range_round_trip 8 8 0x1000 0x2FFF 0x7FFFFFFF true (by decide) (by decide) (by decide)⟩

/-- Apart from a zero length at address zero, `parse_range` accepts an operand
`ADDR.LENGTH` exactly when `LENGTH ≥ 1` and `ADDR + LENGTH - 1 ≤ maxadr` over the
integers, and then returns `0` with the bounds `ADDR` and `ADDR + LENGTH - 1`. -/
theorem parse_range_length (w1 w2 a l maxadr : Nat) (alter : Bool)
    (ha : a < 2 ^ 64) (hl : l < 2 ^ 64) (hm : maxadr < 2 ^ 64) (h0 : ¬ (a = 0 ∧ l = 0)) :
    parse_range (some (hexstr w1 a ++ '.' :: hexstr w2 l)) maxadr alter =
      if 1 ≤ l ∧ a + l - 1 ≤ maxadr then .ok 0 a (a + l - 1) [] else .error .invalid_range := by
  rw [parse_range_dot w1 w2 a l maxadr alter ha hl]
  by_cases h : 1 ≤ l ∧ a + l - 1 ≤ maxadr
  · have : sub64 (add64 a l) 1 = a + l - 1 := sub64_add64_pred a l maxadr h.1 hm h.2
    rw [this, if_neg (by omega), if_pos h]
  · rw [if_neg h, if_pos]
    unfold sub64 add64
    omega

/-- Claim C7, at the operand `0.0` with `maxadr = 0xFFFFFFFFFFFFFFFF`: the
length is zero, so `ADDR ≤ ADDR + LENGTH - 1` fails over the integers, yet
`parse_range` returns `0` with the bounds `0` and `0xFFFFFFFFFFFFFFFF`, because
`0 + 0 - 1` wraps around in 64 bits. -/
theorem parse_range_zero_length_at_zero :
    parse_range (some ['0', '.', '0']) 0xFFFFFFFFFFFFFFFF false
        = .ok 0 0 0xFFFFFFFFFFFFFFFF [] ∧
      ¬ ((0 : Int) ≤ 0 + 0 - 1) := by
  decide

/-- While `ADDR + 0x3F` does not wrap around, `parse_range` on a single address
`ADDR ≤ maxadr` returns `0` with `start = ADDR` and
`end = min (ADDR + 0x3F, maxadr)`. -/
theorem parse_range_default_length (w a maxadr : Nat) (alter : Bool)
    (ha : a + 0x3F < 2 ^ 64) (ham : a ≤ maxadr) :
    parse_range (some (hexstr w a)) maxadr alter = .ok 0 a (min (a + 0x3F) maxadr) [] := by
  rw [parse_range_single w a maxadr alter (by omega)]
  have : add64 a 0x3F = a + 0x3F := by unfold add64; omega
  rw [this]
  by_cases h : a + 0x3F > maxadr
  · rw [if_pos h, if_neg (by omega), Nat.min_eq_right (by omega)]
  · rw [if_neg h, if_neg (by omega), Nat.min_eq_left (by omega)]

/-- Claim C8, at the operand `FFFFFFFFFFFFFFF0` with
`maxadr = 0xFFFFFFFFFFFFFFFF`: the address does not exceed `maxadr` and
`min (ADDR + 0x3F, maxadr)` is `maxadr`, yet `parse_range` returns `-1`
(invalid range), because `ADDR + 0x3F` wraps around to `0x2F` before it is
compared with `maxadr`. -/
theorem parse_range_default_length_wraps :
    parse_range (some ['F', 'F', 'F', 'F', 'F', 'F', 'F', 'F', 'F', 'F', 'F', 'F', 'F', 'F',
        'F', '0']) 0xFFFFFFFFFFFFFFFF false = .error .invalid_range ∧
      (0xFFFFFFFFFFFFFFF0 : Nat) ≤ 0xFFFFFFFFFFFFFFFF ∧
      min (0xFFFFFFFFFFFFFFF0 + 0x3F) 0xFFFFFFFFFFFFFFFF = 0xFFFFFFFFFFFFFFFF := by
  decide

/-! ## Prefixing and page masks in arithmetic -/

/-- The bits of a mask `2 ^ w - 2 ^ k`. -/
theorem testBit_mask (k w j : Nat) (hkw : k ≤ w) :
    (2 ^ w - 2 ^ k).testBit j = (decide (k ≤ j) && decide (j < w)) := by
  have h : 2 ^ w - 2 ^ k = 2 ^ k * (2 ^ (w - k) - 1) := by
    rw [Nat.mul_sub, ← pow_add, Nat.add_sub_cancel' hkw, Nat.mul_one]
  rw [h, Nat.testBit_mul_pow_two, Nat.testBit_two_pow_sub_one]
  by_cases h1 : k ≤ j <;> by_cases h2 : j < w <;> simp [h1, h2] <;> omega

theorem land_mask (a k w : Nat) (hkw : k ≤ w) (ha : a < 2 ^ w) :
    a &&& (2 ^ w - 2 ^ k) = a / 2 ^ k * 2 ^ k := by
  apply Nat.eq_of_testBit_eq
  intro j
  rw [Nat.testBit_and, testBit_mask k w j hkw, Nat.mul_comm, Nat.testBit_mul_pow_two,
    ← Nat.shiftRight_eq_div_pow, Nat.testBit_shiftRight]
  by_cases h1 : k ≤ j
  · by_cases h2 : j < w
    · simp [h1, h2, Nat.add_sub_cancel' h1]
    · have : a.testBit j = false :=
        Nat.testBit_lt_two_pow (lt_of_lt_of_le ha (Nat.pow_le_pow_right (by norm_num) (by omega)))
      simp [h1, h2, this, Nat.add_sub_cancel' h1]
  · simp [h1]

theorem xor_low (q r k : Nat) (hr : r < 2 ^ k) : r ^^^ (2 ^ k * q) = 2 ^ k * q + r := by
  apply Nat.eq_of_testBit_eq
  intro j
  rw [Nat.testBit_xor, Nat.testBit_mul_pow_two_add q hr, Nat.testBit_mul_pow_two]
  by_cases h1 : j < k
  · simp [h1, Nat.not_le.mpr h1]
  · have : r.testBit j = false :=
      Nat.testBit_lt_two_pow (lt_of_lt_of_le hr (Nat.pow_le_pow_right (by norm_num) (by omega)))
    simp [h1, this, Nat.not_lt.mp h1]

theorem xor_high (q r k : Nat) (hr : r < 2 ^ k) : (2 ^ k * q + r) ^^^ (2 ^ k * q) = r := by
  apply Nat.eq_of_testBit_eq
  intro j
  rw [Nat.testBit_xor, Nat.testBit_mul_pow_two_add q hr, Nat.testBit_mul_pow_two]
  by_cases h1 : j < k
  · simp [h1, Nat.not_le.mpr h1]
  · have : r.testBit j = false :=
      Nat.testBit_lt_two_pow (lt_of_lt_of_le hr (Nat.pow_le_pow_right (by norm_num) (by omega)))
    simp [h1, this, Nat.not_lt.mp h1]

theorem land_PREFIXING_MASK (arch : Arch) (a : Nat) (ha : a ≤ maxadr arch) :
    a &&& PREFIXING_MASK arch = a / PREFIXING_FRAME arch * PREFIXING_FRAME arch := by
  cases arch
  · have := land_mask a 12 31 (by decide) (by simp [maxadr] at ha; omega)
    simpa [PREFIXING_MASK, PREFIXING_FRAME] using this
  · have := land_mask a 12 31 (by decide) (by simp [maxadr] at ha; omega)
    simpa [PREFIXING_MASK, PREFIXING_FRAME] using this
  · have := land_mask a 13 64 (by decide) (by simp [maxadr] at ha; omega)
    simpa [PREFIXING_MASK, PREFIXING_FRAME] using this

theorem land_PAGEFRAME_PAGEMASK (arch : Arch) (a : Nat) (ha : a ≤ maxadr arch) :
    a &&& PAGEFRAME_PAGEMASK arch = a / PAGEFRAME_PAGESIZE arch * PAGEFRAME_PAGESIZE arch := by
  cases arch
  · have := land_mask a 11 31 (by decide) (by simp [maxadr] at ha; omega)
    simpa [PAGEFRAME_PAGEMASK, PAGEFRAME_PAGESIZE] using this
  · have := land_mask a 12 31 (by decide) (by simp [maxadr] at ha; omega)
    simpa [PAGEFRAME_PAGEMASK, PAGEFRAME_PAGESIZE] using this
  · have := land_mask a 12 64 (by decide) (by simp [maxadr] at ha; omega)
    simpa [PAGEFRAME_PAGEMASK, PAGEFRAME_PAGESIZE] using this

theorem land_PAGEFRAME_BYTEMASK (arch : Arch) (a : Nat) :
    a &&& PAGEFRAME_BYTEMASK arch = a % PAGEFRAME_PAGESIZE arch := by
  cases arch
  · exact Nat.and_pow_two_sub_one_eq_mod a 11
  · exact Nat.and_pow_two_sub_one_eq_mod a 12
  · exact Nat.and_pow_two_sub_one_eq_mod a 12

theorem PREFIXING_FRAME_eq (arch : Arch) :
    ∃ k, PREFIXING_FRAME arch = 2 ^ k ∧ PAGEFRAME_PAGESIZE arch ∣ 2 ^ k := by
  cases arch
  · exact ⟨12, rfl, ⟨2, rfl⟩⟩
  · exact ⟨12, rfl, ⟨1, rfl⟩⟩
  · exact ⟨13, rfl, ⟨2, rfl⟩⟩

theorem prefix_value_props (arch : Arch) (px : Nat) (hpx : is_prefix_value arch px) :
    px ≤ maxadr arch ∧ px / PREFIXING_FRAME arch * PREFIXING_FRAME arch = px := by
  have hle : px ≤ maxadr arch := by
    have h1 : px &&& PREFIXING_MASK arch ≤ PREFIXING_MASK arch := Nat.and_le_right
    rw [hpx] at h1
    have h2 : PREFIXING_MASK arch ≤ maxadr arch := by cases arch <;> decide
    exact le_trans h1 h2
  refine ⟨hle, ?_⟩
  rw [← land_PREFIXING_MASK arch px hle]
  exact hpx

/-- The prefixing transform in arithmetic: frame zero and the frame of the
prefix are exchanged, every other address is unchanged. -/
theorem APPLY_PREFIXING_eq (arch : Arch) (a px : Nat) (ha : a ≤ maxadr arch)
    (hpx : is_prefix_value arch px) :
    APPLY_PREFIXING arch a px =
      if a < PREFIXING_FRAME arch then px + a
      else if a / PREFIXING_FRAME arch * PREFIXING_FRAME arch = px then a - px
      else a := by
  obtain ⟨hple, hpf⟩ := prefix_value_props arch px hpx
  have hm := land_PREFIXING_MASK arch a ha
  obtain ⟨k, hk, -⟩ := PREFIXING_FRAME_eq arch
  have hmod : a % 2 ^ 32 = a ∨ arch = .z900 := by
    cases arch
    · left; simp [maxadr] at ha; omega
    · left; simp [maxadr] at ha; omega
    · right; rfl
  have hdef : APPLY_PREFIXING arch a px =
      if a &&& PREFIXING_MASK arch = 0 ∨ a &&& PREFIXING_MASK arch = px then a ^^^ px else a := by
    cases arch
    · simp only [APPLY_PREFIXING]
      rw [show a % 2 ^ 32 = a by simpa using hmod]
    · simp only [APPLY_PREFIXING]
      rw [show a % 2 ^ 32 = a by simpa using hmod]
    · simp only [APPLY_PREFIXING]
  rw [hdef, hm]
  have hFpos : 0 < PREFIXING_FRAME arch := by rw [hk]; positivity
  by_cases h1 : a < PREFIXING_FRAME arch
  · have hz : a / PREFIXING_FRAME arch = 0 := Nat.div_eq_of_lt h1
    rw [if_pos (Or.inl (by rw [hz, Nat.zero_mul])), if_pos h1]
    have := xor_low (px / 2 ^ k) a k (by rw [← hk]; exact h1)
    rw [← hk, Nat.mul_comm, hpf] at this
    exact this
  · rw [if_neg h1]
    have hnz : a / PREFIXING_FRAME arch * PREFIXING_FRAME arch ≠ 0 := by
      have : 1 ≤ a / PREFIXING_FRAME arch := (Nat.one_le_div_iff hFpos).mpr (Nat.not_lt.mp h1)
      exact Nat.mul_ne_zero (by omega) (by omega)
    by_cases h2 : a / PREFIXING_FRAME arch * PREFIXING_FRAME arch = px
    · rw [if_pos (Or.inr h2), if_pos h2]
      have hdm := Nat.div_add_mod a (PREFIXING_FRAME arch)
      have hx := xor_high (a / 2 ^ k) (a % 2 ^ k) k (Nat.mod_lt _ (by positivity))
      rw [← hk] at hx
      rw [hdm, Nat.mul_comm, h2] at hx
      rw [hx]
      rw [Nat.mul_comm, h2] at hdm
      omega
    · rw [if_neg (by tauto), if_neg h2]

/-- Prefixing maps a page onto a page: the bytes of a page keep their
offsets. -/
theorem to_absolute_page (arch : Arch) (regs : REGS) (c : Char) (P off : Nat)
    (hpx : is_prefix_value arch regs.PX) (hP : P % PAGEFRAME_PAGESIZE arch = 0)
    (hoff : off < PAGEFRAME_PAGESIZE arch) (hmax : P + off ≤ maxadr arch) :
    to_absolute arch regs c (P + off) = to_absolute arch regs c P + off := by
  unfold to_absolute
  split_ifs
  · obtain ⟨hple, hpf⟩ := prefix_value_props arch regs.PX hpx
    rw [APPLY_PREFIXING_eq arch _ _ hmax hpx, APPLY_PREFIXING_eq arch _ _ (by omega) hpx]
    cases arch <;> simp only [PREFIXING_FRAME, PAGEFRAME_PAGESIZE] at * <;> split_ifs <;> omega
  · rfl

/-- Prefixing maps different addresses to different addresses. -/
theorem to_absolute_inj (arch : Arch) (regs : REGS) (c : Char) (a b : Nat)
    (hpx : is_prefix_value arch regs.PX) (ha : a ≤ maxadr arch) (hb : b ≤ maxadr arch)
    (h : to_absolute arch regs c a = to_absolute arch regs c b) : a = b := by
  unfold to_absolute at h
  split_ifs at h
  · obtain ⟨hple, hpf⟩ := prefix_value_props arch regs.PX hpx
    rw [APPLY_PREFIXING_eq arch _ _ ha hpx, APPLY_PREFIXING_eq arch _ _ hb hpx] at h
    cases arch <;> simp only [PREFIXING_FRAME] at * <;> split_ifs at h <;> omega
  · exact h

/-! ## The values `parse_range` returns -/

theorem parse_hexstring_length_aux (n : Nat) : ∀ (s : List Char) (acc r : List Nat),
    s.length ≤ n → parse_hexstring s acc = .ok r → acc.length ≤ 32 →
    r.length ≤ 32 ∧ acc.length ≤ r.length := by
  induction n with
  | zero =>
    intro s acc r hs h hacc
    have : s = [] := List.length_eq_zero.mp (by omega)
    subst this
    simp only [parse_hexstring, Except.ok.injEq] at h
    subst h; exact ⟨hacc, le_refl _⟩
  | succ n ih =>
    intro s acc r hs h hacc
    cases s with
    | nil =>
      simp only [parse_hexstring, Except.ok.injEq] at h
      subst h; exact ⟨hacc, le_refl _⟩
    | cons h1 s =>
      rw [parse_hexstring_cons] at h
      simp only [List.length_cons] at hs
      by_cases c1 : h1 = '#'
      · rw [if_pos c1] at h
        simp only [Except.ok.injEq] at h
        subst h; exact ⟨hacc, le_refl _⟩
      · rw [if_neg c1] at h
        by_cases c2 : h1 = ' ' ∨ h1 = '\t'
        · rw [if_pos c2] at h
          exact ih s acc r (by omega) h hacc
        · rw [if_neg c2] at h
          by_cases c3 : hexdigit h1 < 0
          · rw [if_pos c3] at h; simp at h
          · rw [if_neg c3] at h
            cases s with
            | nil => simp at h
            | cons h2 s2 =>
              simp only [] at h
              simp only [List.length_cons] at hs
              split_ifs at h with c4 c5
              have := ih s2 _ r (by omega) h
                (by simp only [List.length_append, List.length_singleton]; omega)
              simp only [List.length_append, List.length_singleton] at this
              omega

theorem parse_hexstring_length (s : List Char) (r : List Nat)
    (h : parse_hexstring s [] = .ok r) : r.length ≤ 32 :=
  (parse_hexstring_length_aux s.length s [] r (le_refl _) h (by simp)).1

/-- The `x` of a `0x` is read even when no hexadecimal digit follows: the
operands `0x.10`, `0x` and `0-0x` are the ranges `0.10`, `0` and `0-0`, and
`0x=AA` is the alteration `0=AA`. -/
theorem parse_range_bare_0x :
    parse_range (some "0x.10".toList) (maxadr .s390) false = .ok 0 0 0xF [] ∧
    parse_range (some "0x".toList) (maxadr .s390) false = .ok 0 0 0x3F [] ∧
    parse_range (some "0-0x".toList) (maxadr .s390) false = .ok 0 0 0 [] ∧
    parse_range (some "0x=AA".toList) (maxadr .s390) true = .ok 1 0 0 [0xAA] ∧
    sscanf_range "0xG".toList = ⟨2, 0, 'G', 0, Char.ofNat 0⟩ ∧
    sscanf_range "-0x".toList = ⟨1, 0, Char.ofNat 0, 0, Char.ofNat 0⟩ ∧
    sscanf_range "0x1F.0X2".toList = ⟨3, 0x1F, '.', 2, Char.ofNat 0⟩ := by
  refine ⟨?_, ?_, ?_, ?_, ?_, ?_, ?_⟩ <;> decide

theorem scan_llx_lt (s : List Char) (v : Nat) (r : List Char) (h : scan_llx s = some (v, r)) :
    v < 2 ^ 64 := by
  unfold scan_llx at h
  simp only [] at h
  split_ifs at h <;> simp only [Option.some.injEq, Prod.mk.injEq] at h <;>
    obtain ⟨rfl, -⟩ := h <;> first | omega | (unfold sub64; omega)

theorem sscanf_range_opnd1_lt (s : List Char) : (sscanf_range s).opnd1 < 2 ^ 64 := by
  unfold sscanf_range
  split
  · norm_num
  · next v1 r1 h1 =>
    have := scan_llx_lt s v1 r1 h1
    split
    · exact this
    · split
      · exact this
      · split <;> exact this

/-- The values `parse_range` returns: the number of bytes is the number of
values stored, at most 32, and the bounds satisfy `start ≤ end ≤ maxadr`; for
an alteration the end is the start plus the number of bytes minus one. -/
theorem parse_range_ok (operand : Option (List Char)) (maxadr : Nat) (alter : Bool)
    (n saddr eaddr : Nat) (newval : List Nat)
    (h : parse_range operand maxadr alter = .ok n saddr eaddr newval) :
    newval.length = n ∧ n ≤ 32 ∧ saddr ≤ eaddr ∧ eaddr ≤ maxadr ∧ saddr < 2 ^ 64 ∧
      (0 < n → eaddr = saddr + n - 1) := by
  unfold parse_range at h
  cases operand with
  | none => simp at h
  | some str =>
    simp only [] at h
    have hlt := sscanf_range_opnd1_lt (cstr str)
    split_ifs at h with c1 c2 c3 c4 c5
    · split at h
      · simp at h
      · next nv hnv =>
        have hlen := parse_hexstring_length _ _ hnv
        split_ifs at h with c6
        simp only [Parsed.ok.injEq] at h
        obtain ⟨rfl, rfl, rfl, rfl⟩ := h
        refine ⟨rfl, hlen, by omega, by omega, hlt, ?_⟩
        intro hn
        unfold sub64 add64 at c6 ⊢
        omega
    all_goals
      simp only [Parsed.ok.injEq] at h
      obtain ⟨rfl, rfl, rfl, rfl⟩ := h
      exact ⟨rfl, by omega, by omega, by omega, hlt, by omega⟩

/-! ## The alteration loop and the display loop -/

/-- The alteration loop writes the bytes before the first one whose absolute
address is beyond `mainlim` (`k` of them), each at its own absolute address,
changes no other byte, and stops with an addressing exception at that byte,
or ends after the last byte. -/
theorem alter_loop_spec (arch : Arch) (regs : REGS) (c : Char) (saddr : Nat)
    (hpx : is_prefix_value arch regs.PX) :
    ∀ (bs : List Nat) (i k : Nat) (stor : Nat → Nat),
      k ≤ bs.length →
      (∀ j, j < bs.length → saddr + i + j ≤ maxadr arch) →
      (∀ j, j < k → to_absolute arch regs c (saddr + i + j) ≤ regs.mainlim) →
      (k < bs.length → to_absolute arch regs c (saddr + i + k) > regs.mainlim) →
      (alter_loop arch regs c saddr i bs stor).2 =
          (if k < bs.length then
            some (Msg.HHC02328 'A' (to_absolute arch regs c (saddr + i + k))) else none) ∧
      (∀ j, j < k → (alter_loop arch regs c saddr i bs stor).1
          (to_absolute arch regs c (saddr + i + j)) = bs.getD j 0) ∧
      (∀ x, (∀ j, j < k → x ≠ to_absolute arch regs c (saddr + i + j)) →
          (alter_loop arch regs c saddr i bs stor).1 x = stor x) := by
  intro bs
  induction bs with
  | nil =>
    intro i k stor hk _ _ _
    simp only [List.length_nil, Nat.le_zero] at hk
    subst hk
    simp [alter_loop]
  | cons b bs ih =>
    intro i k stor hk hmax hlim hstop
    simp only [List.length_cons] at hk hmax hstop
    have hm0 : saddr + i ≤ maxadr arch := by have := hmax 0 (by omega); omega
    have h64 : maxadr arch < 2 ^ 64 := by cases arch <;> decide
    have hadd : add64 saddr i = saddr + i := by unfold add64; omega
    unfold alter_loop
    simp only [hadd]
    cases k with
    | zero =>
      have := hstop (by omega)
      simp only [Nat.add_zero] at this
      rw [if_pos this]
      simp
    | succ k =>
      have h0 := hlim 0 (by omega)
      simp only [Nat.add_zero] at h0
      rw [if_neg (by omega)]
      obtain ⟨r1, r2, r3⟩ := ih (i + 1) k
        (Function.update stor (to_absolute arch regs c (saddr + i)) b) (by omega)
        (fun j hj => by have := hmax (j + 1) (by omega); omega)
        (fun j hj => by
          have := hlim (j + 1) (by omega)
          rw [show saddr + (i + 1) + j = saddr + i + (j + 1) by omega]; exact this)
        (fun hk2 => by
          have := hstop (by omega)
          rw [show saddr + (i + 1) + k = saddr + i + (k + 1) by omega]; exact this)
      refine ⟨?_, ?_, ?_⟩
      · rw [r1, show saddr + (i + 1) + k = saddr + i + (k + 1) by omega]
        simp only [List.length_cons, Nat.add_lt_add_iff_right]
      · intro j hj
        cases j with
        | zero =>
          simp only [Nat.add_zero]
          rw [r3 _ (fun j hj2 heq => by
            have := to_absolute_inj arch regs c _ _ hpx hm0
              (by have := hmax (j + 1) (by omega); omega) heq
            omega), Function.update_same]
          rfl
        | succ j =>
          have := r2 j (by omega)
          rw [show saddr + (i + 1) + j = saddr + i + (j + 1) by omega] at this
          rw [this]
          rfl
      · intro x hx
        rw [r3 x (fun j hj => by
          have := hx (j + 1) (by omega)
          rw [show saddr + (i + 1) + j = saddr + i + (j + 1) by omega]; exact this)]
        have := hx 0 (by omega)
        rw [Nat.add_zero] at this
        exact Function.update_noteq this _ _

/-- Prefixing maps the start of a page to the start of a page. -/
theorem to_absolute_aligned (arch : Arch) (regs : REGS) (c : Char) (P : Nat)
    (hpx : is_prefix_value arch regs.PX) (hP : P % PAGEFRAME_PAGESIZE arch = 0)
    (hmax : P ≤ maxadr arch) :
    to_absolute arch regs c P % PAGEFRAME_PAGESIZE arch = 0 := by
  unfold to_absolute
  split_ifs
  · obtain ⟨hple, hpf⟩ := prefix_value_props arch regs.PX hpx
    rw [APPLY_PREFIXING_eq arch _ _ hmax hpx]
    cases arch <;> simp only [PREFIXING_FRAME, PAGEFRAME_PAGESIZE] at * <;> split_ifs <;> omega
  · exact hP

/-- A call of `dump_abs_page` with valid parameters for a page within main
storage dumps the `amt` bytes that start at `aaddr + offset`. -/
theorem dump_abs_page_ok (arch : Arch) (regs : REGS) (m : Machine)
    (aaddr adr offset amt : Nat) (vra : Char) (wid : Nat)
    (ha : aaddr % PAGEFRAME_PAGESIZE arch = 0) (hadr : adr % PAGEFRAME_PAGESIZE arch = 0)
    (hoff : offset < PAGEFRAME_PAGESIZE arch) (hamt : amt ≤ PAGEFRAME_PAGESIZE arch - offset)
    (hwid : wid = 32 ∨ wid = 64) (hlim : aaddr ≤ regs.mainlim) :
    dump_abs_page arch regs m aaddr adr offset amt vra wid =
      (0, [.dump vra
        { first := aaddr + offset
          data := (List.range amt).map (fun i => m.mainstor (aaddr + offset + i))
          skip := offset &&& 0xF, adr := add64 adr offset &&& 0xFFFFFFFFFFFFFFF0
          wid := wid, bpg := 4, gpl := 4 }]) := by
  unfold dump_abs_page
  rw [land_PAGEFRAME_BYTEMASK, land_PAGEFRAME_BYTEMASK, if_neg, if_neg (by omega)]
  rcases hwid with h | h <;> simp [ha, hadr, h] <;> omega

theorem display_loop_spec (arch : Arch) (regs : REGS) (m : Machine) (c : Char) (addrwid : Nat)
    (hpx : is_prefix_value arch regs.PX) (hwid : addrwid = 32 ∨ addrwid = 64) :
    ∀ (fuel totamt pageadr pageoff : Nat),
      pageadr % PAGEFRAME_PAGESIZE arch = 0 → pageoff < PAGEFRAME_PAGESIZE arch →
      1 ≤ totamt → totamt ≤ fuel → pageadr + pageoff + totamt - 1 ≤ maxadr arch →
      (∀ j, j < totamt → to_absolute arch regs c (pageadr + pageoff + j) ≤ regs.mainlim) →
      ∃ out, display_loop arch regs m c addrwid fuel totamt pageadr pageoff
            (PAGEFRAME_PAGESIZE arch - pageoff) = some out ∧
        dumped out = (List.range totamt).map
          (fun j => m.mainstor (to_absolute arch regs c (pageadr + pageoff + j))) ∧
        ∀ x ∈ out, x.is_display = true := by
  intro fuel
  induction fuel with
  | zero => intro totamt _ _ _ _ h1 h2; omega
  | succ fuel ih =>
    intro totamt pageadr pageoff hP hoff ht hfuel hmax hlim
    have h64 : maxadr arch < 2 ^ 64 := by cases arch <;> decide
    have hS : 0 < PAGEFRAME_PAGESIZE arch := by cases arch <;> decide
    have hap := fun off h1 h2 => to_absolute_page arch regs c pageadr off hpx hP h1 h2
    have hal := to_absolute_aligned arch regs c pageadr hpx hP (by omega)
    have hl0 : to_absolute arch regs c pageadr ≤ regs.mainlim := by
      have := hlim 0 ht
      rw [Nat.add_zero, hap pageoff hoff (by omega)] at this
      omega
    unfold display_loop
    simp only []
    rw [if_neg (by omega)]
    by_cases hlast : PAGEFRAME_PAGESIZE arch - pageoff > totamt
    · -- the rest of the range lies within this page
      rw [if_pos hlast, dump_abs_page_ok arch regs m _ _ _ _ _ _ hal hP hoff (by omega) hwid hl0]
      simp only [Nat.sub_self, if_true]
      refine ⟨_, rfl, ?_, ?_⟩
      · simp only [dumped, List.append_nil]
        apply List.map_congr_left
        intro j hj
        rw [List.mem_range] at hj
        rw [Nat.add_assoc pageadr, hap (pageoff + j) (by omega) (by omega), Nat.add_assoc]
      · intro x hx
        simp only [List.mem_cons, List.mem_singleton, List.not_mem_nil, or_false] at hx
        rcases hx with rfl | rfl <;> rfl
    · rw [if_neg hlast,
        dump_abs_page_ok arch regs m _ _ _ _ _ _ hal hP hoff (le_refl _) hwid hl0]
      have hdata : (List.range (PAGEFRAME_PAGESIZE arch - pageoff)).map
            (fun i => m.mainstor (to_absolute arch regs c pageadr + pageoff + i))
          = (List.range (PAGEFRAME_PAGESIZE arch - pageoff)).map
            (fun j => m.mainstor (to_absolute arch regs c (pageadr + pageoff + j))) := by
        apply List.map_congr_left
        intro j hj
        rw [List.mem_range] at hj
        rw [Nat.add_assoc pageadr, hap (pageoff + j) (by omega) (by omega), Nat.add_assoc]
      by_cases hdone : totamt - (PAGEFRAME_PAGESIZE arch - pageoff) = 0
      · have hEq : PAGEFRAME_PAGESIZE arch - pageoff = totamt := by omega
        rw [if_pos hdone]
        refine ⟨_, rfl, ?_, ?_⟩
        · simp only [dumped, List.append_nil]
          rw [hdata, hEq]
        · intro x hx
          simp only [List.mem_cons, List.mem_singleton, List.not_mem_nil, or_false] at hx
          rcases hx with rfl | rfl <;> rfl
      · rw [if_neg hdone]
        have hnext : add64 pageadr (PAGEFRAME_PAGESIZE arch)
            = pageadr + PAGEFRAME_PAGESIZE arch := by unfold add64; omega
        rw [hnext]
        obtain ⟨rest, hr1, hr2, hr3⟩ := ih (totamt - (PAGEFRAME_PAGESIZE arch - pageoff))
          (pageadr + PAGEFRAME_PAGESIZE arch) 0
          (by rw [Nat.add_mod_right]; exact hP) hS (by omega) (by omega) (by omega)
          (fun j hj => by
            have := hlim (PAGEFRAME_PAGESIZE arch - pageoff + j) (by omega)
            rw [show pageadr + PAGEFRAME_PAGESIZE arch + 0 + j
              = pageadr + pageoff + (PAGEFRAME_PAGESIZE arch - pageoff + j) by omega]
            exact this)
        rw [Nat.sub_zero] at hr1
        rw [hr1]
        refine ⟨_, rfl, ?_, ?_⟩
        · simp only [dumped, List.cons_append, List.nil_append, List.append_eq]
          rw [hr2, hdata]
          have hsplit : totamt = (PAGEFRAME_PAGESIZE arch - pageoff)
              + (totamt - (PAGEFRAME_PAGESIZE arch - pageoff)) := by omega
          conv_rhs => rw [hsplit, List.range_add, List.map_append, List.map_map]
          congr 1
          apply List.map_congr_left
          intro j _
          simp only [Function.comp]
          congr 2
          omega
        · intro x hx
          simp only [List.cons_append, List.nil_append, List.mem_cons] at hx
          rcases hx with rfl | rfl | hx
          · rfl
          · rfl
          · exact hr3 x hx

theorem map_range_getD (b : List Nat) :
    (List.range b.length).map (fun j => b.getD j 0) = b := by
  apply List.ext_getElem
  · simp
  · intro i h1 h2
    simp only [List.getElem_map, List.getElem_range]
    rw [List.getD_eq_getElem?_getD, List.getElem?_eq_getElem h2]
    rfl

/-- Claim C1, amended: in `alter_display_real_or_abs` with `mainlim` not zero,
for every alteration of `n` bytes `newval[0..n-1]` (`1 ≤ n ≤ 32`) at address
`saddr` in which every target absolute address is within the storage limit,
the command returns, byte `i` is stored at the absolute address obtained by
resolving `saddr + i` individually (prefixing applied per byte for the real
variant, identity for the absolute variant), no other byte of storage changes,
and the display phase raises no exception and reads for the range
`[saddr, saddr + n - 1]` exactly the bytes `newval[0], ..., newval[n-1]` in
order. -/
theorem alter_then_display (arch : Arch) (regs : REGS) (m : Machine) (argv : List (List Char))
    (n saddr eaddr : Nat) (newval : List Nat)
    (hparse : parse_range argv[1]? (maxadr arch) true = .ok n saddr eaddr newval)
    (hn : 0 < n) (hlim0 : regs.mainlim ≠ 0) (hpx : is_prefix_value arch regs.PX)
    (hin : ∀ i, i < n →
      to_absolute arch regs (command_letter (argv.getD 0 [])) (saddr + i) ≤ regs.mainlim) :
    ∃ m2 out, arch_alter_display_real_or_abs arch regs m 2 argv = some (m2, out) ∧
      (∀ i, i < n → m2.mainstor
          (to_absolute arch regs (command_letter (argv.getD 0 [])) (saddr + i))
            = newval.getD i 0) ∧
      (∀ x, (∀ i, i < n →
          x ≠ to_absolute arch regs (command_letter (argv.getD 0 [])) (saddr + i)) →
          m2.mainstor x = m.mainstor x) ∧
      dumped out = newval ∧ (∀ x ∈ out, x.is_display = true) := by
  obtain ⟨hlen, h32, hse, hem, hs64, hE⟩ := parse_range_ok _ _ _ _ _ _ _ hparse
  have hE := hE hn
  have h64 : maxadr arch < 2 ^ 64 := by cases arch <;> decide
  obtain ⟨a1, a2, a3⟩ := alter_loop_spec arch regs (command_letter (argv.getD 0 [])) saddr hpx
    newval 0 n m.mainstor (by omega) (fun j hj => by omega)
    (fun j hj => by rw [Nat.add_zero]; exact hin j hj)
    (fun hk => by omega)
  simp only [Nat.add_zero] at a1 a2 a3
  rw [if_neg (by omega)] at a1
  unfold arch_alter_display_real_or_abs
  simp only [hparse, ne_eq, not_true_eq_false, if_false, hlim0]
  have htake : newval.take n = newval := by rw [← hlen]; exact List.take_length _
  rw [htake]
  generalize hres : alter_loop arch regs (command_letter (argv.getD 0 [])) saddr 0 newval
    m.mainstor = res at a1 a2 a3
  obtain ⟨stor, r2⟩ := res
  simp only at a1 a2 a3
  subst a1
  simp only []
  have hsub : sub64 eaddr saddr = n - 1 := by unfold sub64; omega
  have hlr : LIMIT_RANGE saddr eaddr _64_KILOBYTE = eaddr := by
    unfold LIMIT_RANGE _64_KILOBYTE
    rw [hsub, if_neg (by omega)]
  have htot : add64 (sub64 eaddr saddr) 1 = n := by rw [hsub]; unfold add64; omega
  rw [hlr, htot, if_pos hn, land_PAGEFRAME_PAGEMASK arch saddr (by omega)]
  have hS : 0 < PAGEFRAME_PAGESIZE arch := by cases arch <;> decide
  have hml := Nat.mod_lt saddr hS
  have hback : saddr / PAGEFRAME_PAGESIZE arch * PAGEFRAME_PAGESIZE arch
      + saddr % PAGEFRAME_PAGESIZE arch = saddr := Nat.div_add_mod' saddr _
  have hoff : sub64 saddr (saddr / PAGEFRAME_PAGESIZE arch * PAGEFRAME_PAGESIZE arch)
      = saddr % PAGEFRAME_PAGESIZE arch := by
    unfold sub64
    generalize saddr / PAGEFRAME_PAGESIZE arch * PAGEFRAME_PAGESIZE arch = q at hback ⊢
    omega
  rw [hoff]
  obtain ⟨out, d1, d2, d3⟩ := display_loop_spec arch regs { m with mainstor := stor }
    (command_letter (argv.getD 0 [])) (if Arch.z900 = m.arch_mode then 64 else 32) hpx
    (by split_ifs <;> simp)
    n n (saddr / PAGEFRAME_PAGESIZE arch * PAGEFRAME_PAGESIZE arch)
    (saddr % PAGEFRAME_PAGESIZE arch) (Nat.mul_mod_left _ _) hml hn (le_refl _)
    (by rw [hback]; omega)
    (fun j hj => by rw [hback]; exact hin j hj)
  rw [d1]
  refine ⟨_, _, rfl, a2, a3, ?_, d3⟩
  rw [d2, hback]
  simp only []
  have : (List.range n).map (fun j => stor (to_absolute arch regs
      (command_letter (argv.getD 0 [])) (saddr + j))) = (List.range n).map
        (fun j => newval.getD j 0) := by
    apply List.map_congr_left
    intro j hj
    rw [List.mem_range] at hj
    exact a2 j hj
  rw [this, ← hlen]
  exact map_range_getD newval

/-- The patch `FFE=AABBCCDD` of the command `r`, which crosses the end of the
prefixed first frame: the four bytes are displayed as they were written. -/
theorem alter_then_display_witness :
    ∃ m2 out, arch_alter_display_real_or_abs .s390 example_regs example_machine 2
        [['r'], ['F', 'F', 'E', '=', 'A', 'A', 'B', 'B', 'C', 'C', 'D', 'D']] = some (m2, out) ∧
      (∀ i, i < 4 → m2.mainstor (to_absolute .s390 example_regs
          (command_letter ([['r'], ['F', 'F', 'E', '=', 'A', 'A', 'B', 'B', 'C', 'C', 'D',
            'D']].getD 0 [])) (0xFFE + i)) = [0xAA, 0xBB, 0xCC, 0xDD].getD i 0) ∧
      (∀ x, (∀ i, i < 4 → x ≠ to_absolute .s390 example_regs
          (command_letter ([['r'], ['F', 'F', 'E', '=', 'A', 'A', 'B', 'B', 'C', 'C', 'D',
            'D']].getD 0 [])) (0xFFE + i)) → m2.mainstor x = example_machine.mainstor x) ∧
      dumped out = [0xAA, 0xBB, 0xCC, 0xDD] ∧ (∀ x ∈ out, x.is_display = true) :=
  alter_then_display .s390 example_regs example_machine
    [['r'], ['F', 'F', 'E', '=', 'A', 'A', 'B', 'B', 'C', 'C', 'D', 'D']]
    4 0xFFE 0x1001 [0xAA, 0xBB, 0xCC, 0xDD] (by decide) (by decide) (by decide) (by decide)
    (by decide)

/-- Claim C1 fails when `mainlim` is zero: the patch `0=AA` of the command `abs`
targets the absolute address `0`, which does not exceed `mainlim = 0`, yet the
command writes nothing and displays nothing; it reports that the storage
address is not valid. -/
theorem alter_then_display_no_storage :
    parse_range (some ['0', '=', 'A', 'A']) (maxadr .s390) true = .ok 1 0 0 [0xAA] ∧
    (∀ i, i < 1 → to_absolute .s390 example_regs_no_storage 'A' (0 + i)
        ≤ example_regs_no_storage.mainlim) ∧
    (arch_alter_display_real_or_abs .s390 example_regs_no_storage example_machine 2
        [['a', 'b', 's'], ['0', '=', 'A', 'A']]).map
          (fun r => (r.1.mainstor 0, dumped r.2, r.2))
      = some (0, [], [.HHC02327 'A' 0]) := by
  decide

/-- Claim C2, amended: if the absolute address of the first byte of an
alteration request exceeds `mainlim`, `alter_display_real_or_abs` returns with
every byte of main storage unchanged and one message: the addressing
exception HHC02328 for that absolute address when `mainlim` is not zero, and
HHC02327 (storage address is not valid) for the start address when `mainlim`
is zero. -/
theorem alter_first_byte_beyond_limit (arch : Arch) (regs : REGS) (m : Machine)
    (argv : List (List Char)) (n saddr eaddr : Nat) (newval : List Nat)
    (hparse : parse_range argv[1]? (maxadr arch) true = .ok n saddr eaddr newval)
    (hn : 0 < n)
    (hbeyond : to_absolute arch regs (command_letter (argv.getD 0 [])) saddr > regs.mainlim) :
    arch_alter_display_real_or_abs arch regs m 2 argv =
      some (m, [if regs.mainlim = 0 then .HHC02327 (command_letter (argv.getD 0 [])) saddr
                else .HHC02328 'A'
                  (to_absolute arch regs (command_letter (argv.getD 0 [])) saddr)]) := by
  obtain ⟨hlen, h32, hse, hem, hs64, hE⟩ := parse_range_ok _ _ _ _ _ _ _ hparse
  unfold arch_alter_display_real_or_abs
  simp only [hparse, ne_eq, not_true_eq_false, if_false]
  by_cases h0 : regs.mainlim = 0
  · rw [if_pos h0, if_pos h0]
  · rw [if_neg h0, if_neg h0]
    have htake : newval.take n = newval := by rw [← hlen]; exact List.take_length _
    rw [htake]
    cases newval with
    | nil => simp at hlen; omega
    | cons b bs =>
      have hadd : add64 saddr 0 = saddr := by unfold add64; omega
      unfold alter_loop
      simp only [hadd]
      rw [if_pos hbeyond]

/-- With the limit `0x0FFF`, the request to alter address `0x1000` is refused
with an addressing exception and storage is unchanged. -/
theorem alter_first_byte_beyond_limit_witness :
    arch_alter_display_real_or_abs .s390 { example_regs with mainlim := 0x0FFF }
        example_machine 2 [['a', 'b', 's'], ['1', '0', '0', '0', '=', 'A', 'A']] =
      some (example_machine, [.HHC02328 'A' 0x1000]) :=
  alter_first_byte_beyond_limit .s390 { example_regs with mainlim := 0x0FFF } example_machine
    [['a', 'b', 's'], ['1', '0', '0', '0', '=', 'A', 'A']] 1 0x1000 0x1000 [0xAA]
    (by decide) (by decide) (by decide)

/-- Claim C2 fails when `mainlim` is zero: the address `0x1000` exceeds the
limit, and the command reports HHC02327 (storage address is not valid), not an
addressing exception. -/
theorem alter_beyond_limit_no_storage :
    to_absolute .s390 example_regs_no_storage 'A' 0x1000 > example_regs_no_storage.mainlim ∧
    (arch_alter_display_real_or_abs .s390 example_regs_no_storage example_machine 2
        [['a', 'b', 's'], ['1', '0', '0', '0', '=', 'A', 'A']]).map (fun r => r.2)
      = some [.HHC02327 'A' 0x1000] := by
  decide

/-- Claim C3, amended: in `alter_display_real_or_abs` with `mainlim` not zero,
if byte `k` is the first byte of the patch whose absolute address exceeds
`mainlim`, then the command returns with the addressing exception for that
address as its only message (the display phase is not performed), bytes
`0..k-1` of the patch are present at their absolute addresses, and every other
byte of storage, the targets of bytes `k` and later among them, is
unchanged. -/
theorem alter_not_atomic (arch : Arch) (regs : REGS) (m : Machine)
    (argv : List (List Char)) (n saddr eaddr : Nat) (newval : List Nat) (k : Nat)
    (hparse : parse_range argv[1]? (maxadr arch) true = .ok n saddr eaddr newval)
    (hlim0 : regs.mainlim ≠ 0) (hpx : is_prefix_value arch regs.PX) (hk : k < n)
    (hbefore : ∀ i, i < k →
      to_absolute arch regs (command_letter (argv.getD 0 [])) (saddr + i) ≤ regs.mainlim)
    (hat : to_absolute arch regs (command_letter (argv.getD 0 [])) (saddr + k)
      > regs.mainlim) :
    ∃ m2 out, arch_alter_display_real_or_abs arch regs m 2 argv = some (m2, out) ∧
      out = [.HHC02328 'A' (to_absolute arch regs (command_letter (argv.getD 0 []))
        (saddr + k))] ∧
      (∀ x ∈ out, x.is_display = false) ∧
      (∀ i, i < k → m2.mainstor
          (to_absolute arch regs (command_letter (argv.getD 0 [])) (saddr + i))
            = newval.getD i 0) ∧
      (∀ j, k ≤ j → j < n → m2.mainstor
          (to_absolute arch regs (command_letter (argv.getD 0 [])) (saddr + j))
            = m.mainstor
              (to_absolute arch regs (command_letter (argv.getD 0 [])) (saddr + j))) ∧
      (∀ x, (∀ i, i < k →
          x ≠ to_absolute arch regs (command_letter (argv.getD 0 [])) (saddr + i)) →
          m2.mainstor x = m.mainstor x) := by
  obtain ⟨hlen, h32, hse, hem, hs64, hE⟩ := parse_range_ok _ _ _ _ _ _ _ hparse
  have hE := hE (by omega)
  obtain ⟨a1, a2, a3⟩ := alter_loop_spec arch regs (command_letter (argv.getD 0 [])) saddr hpx
    newval 0 k m.mainstor (by omega) (fun j hj => by omega)
    (fun j hj => by rw [Nat.add_zero]; exact hbefore j hj)
    (fun _ => by rw [Nat.add_zero]; exact hat)
  simp only [Nat.add_zero] at a1 a2 a3
  rw [if_pos (by omega)] at a1
  unfold arch_alter_display_real_or_abs
  simp only [hparse, ne_eq, not_true_eq_false, if_false, hlim0]
  have htake : newval.take n = newval := by rw [← hlen]; exact List.take_length _
  rw [htake]
  generalize hres : alter_loop arch regs (command_letter (argv.getD 0 [])) saddr 0 newval
    m.mainstor = res at a1 a2 a3
  obtain ⟨stor, r2⟩ := res
  simp only at a1 a2 a3
  subst a1
  refine ⟨_, _, rfl, rfl, ?_, a2, ?_, a3⟩
  · intro x hx
    simp only [List.mem_singleton] at hx
    subst hx; rfl
  · intro j hkj hjn
    apply a3
    intro i hi heq
    have := to_absolute_inj arch regs _ _ _ hpx (by omega) (by omega) heq
    omega

/-- The patch `FFFE=AABBCCDD` of the command `abs` with the limit `0xFFFF`: the
first two bytes are written, the third is refused. -/
theorem alter_not_atomic_witness :
    ∃ m2 out, arch_alter_display_real_or_abs .s390 example_regs example_machine 2
        [['a', 'b', 's'], ['F', 'F', 'F', 'E', '=', 'A', 'A', 'B', 'B', 'C', 'C', 'D', 'D']]
          = some (m2, out) ∧
      out = [.HHC02328 'A' 0x10000] ∧
      m2.mainstor 0xFFFE = 0xAA ∧ m2.mainstor 0xFFFF = 0xBB ∧
      m2.mainstor 0x10000 = 0 ∧ m2.mainstor 0x10001 = 0 := by
  obtain ⟨m2, out, h1, h2, -, h4, h5, -⟩ := alter_not_atomic .s390 example_regs example_machine
    [['a', 'b', 's'], ['F', 'F', 'F', 'E', '=', 'A', 'A', 'B', 'B', 'C', 'C', 'D', 'D']]
    4 0xFFFE 0x10001 [0xAA, 0xBB, 0xCC, 0xDD] 2
    (by decide) (by decide) (by decide) (by decide) (by decide) (by decide)
  exact ⟨m2, out, h1, h2, h4 0 (by decide), h4 1 (by decide), h5 2 (by decide) (by decide),
    h5 3 (by decide) (by decide)⟩

/-- Claim C3 fails when `mainlim` is zero: in the patch `0=AABB` of the command
`abs`, byte 1 is the first byte whose absolute address exceeds `mainlim = 0`,
yet byte 0 is not present at address `0` when the command returns. -/
theorem alter_not_atomic_no_storage :
    parse_range (some ['0', '=', 'A', 'A', 'B', 'B']) (maxadr .s390) true
      = .ok 2 0 1 [0xAA, 0xBB] ∧
    to_absolute .s390 example_regs_no_storage 'A' (0 + 0)
      ≤ example_regs_no_storage.mainlim ∧
    to_absolute .s390 example_regs_no_storage 'A' (0 + 1)
      > example_regs_no_storage.mainlim ∧
    (arch_alter_display_real_or_abs .s390 example_regs_no_storage example_machine 2
        [['a', 'b', 's'], ['0', '=', 'A', 'A', 'B', 'B']]).map
          (fun r => (r.1.mainstor 0, r.2))
      = some (0, [.HHC02327 'A' 0]) := by
  decide

/-! ## The heap of contexts: `copy_regs`, translation and `virt_to_real` -/

theorem take_set_ge {α : Type} (l : List α) (n i : Nat) (a : α) (h : n ≤ i) :
    (l.set i a).take n = l.take n := by
  apply List.ext_getElem?
  intro j
  rw [List.getElem?_take, List.getElem?_take]
  split_ifs with hj
  · rw [List.getElem?_set_ne (by omega)]
  · rfl

theorem getD_set_self {α : Type} (l : List α) (i : Nat) (a d : α) (h : i < l.length) :
    (l.set i a).getD i d = a := by
  rw [List.getD_eq_getElem?_getD, List.getElem?_set_self h]
  rfl

/-- The heap `copy_regs` leaves: the contexts that existed are unchanged, and a
copy that is returned is a new structure whose host pointer designates the
copy itself or the structure after it. -/
theorem copy_regs_spec (h : Heap) (regs : Nat) (malloc_ok : Bool) :
    (copy_regs h regs malloc_ok).heap.take h.length = h ∧
    ∀ p, (copy_regs h regs malloc_ok).ret = some (some p) →
      p = h.length ∧ ∃ r, (copy_regs h regs malloc_ok).heap[p]? = some r ∧
        (r.hostregs = some p ∨ r.hostregs = some (p + 1)) := by
  cases hr : h[regs]? with
  | none => simp [copy_regs, hr]
  | some r =>
    cases malloc_ok with
    | false => simp [copy_regs, hr]
    | true =>
      by_cases hs : r.sie_mode = true
      · simp [copy_regs, hr, hs]
        split <;> simp [List.getElem_append_right]
      · simp [copy_regs, hr, hs]
        split_ifs <;> simp [List.getElem_append_right]

/-- Translation writes only to the context it is given and to the host context
that context links to. -/
theorem logical_to_main_l_take (walk : TableWalk) (H : Heap) (vaddr : Nat) (arn : Int)
    (regs : Nat) (acctype : Int) (n : Nat) (hregs : n ≤ regs)
    (hhost : ∀ r, H[regs]? = some r → ∀ hp, r.hostregs = some hp → n ≤ hp) :
    (logical_to_main_l walk H vaddr arn regs acctype).heap.take n = H.take n := by
  unfold logical_to_main_l
  cases hr : H[regs]? with
  | none => rfl
  | some r =>
    have hge : n ≤ r.hostregs.getD regs := by
      cases hh : r.hostregs with
      | none => exact hregs
      | some hp => exact hhost r hr hp hh
    simp only []
    split_ifs
    · rw [take_set_ge _ _ _ _ hge, take_set_ge _ _ _ _ hregs]
    · rw [take_set_ge _ _ _ _ hregs]
    · simp only []
      split
      · rw [take_set_ge _ _ _ _ hregs]
      · rw [take_set_ge _ _ _ _ hge, take_set_ge _ _ _ _ hregs]

theorem virt_to_real_take (K : Consts) (walk : TableWalk) (h : Heap) (malloc_ok : Bool)
    (vaddr : Nat) (arn : Int) (iregs : Nat) (acctype : Int) :
    (virt_to_real K walk h malloc_ok vaddr arn iregs acctype).heap.take h.length = h ∧
    ((virt_to_real K walk h malloc_ok vaddr arn iregs acctype).ret ≠ none →
      (virt_to_real K walk h malloc_ok vaddr arn iregs acctype).heap = h) := by
  unfold virt_to_real
  obtain ⟨ct, cp⟩ := copy_regs_spec h iregs malloc_ok
  generalize copy_regs h iregs malloc_ok = c at ct cp
  obtain ⟨ch, cr⟩ := c
  simp only at ct cp
  cases cr with
  | none => exact ⟨ct, fun hne => absurd rfl hne⟩
  | some o =>
    cases o with
    | none => exact ⟨ct, fun hne => absurd rfl hne⟩
    | some regs =>
      obtain ⟨hregs, r, hr, hhost⟩ := cp regs rfl
      subst hregs
      have hgetD : ch.getD h.length REGS.uninit = r := by
        rw [List.getD_eq_getElem?_getD, hr]; rfl
      have hge : h.length ≤ r.hostregs.getD h.length := by
        rcases hhost with hh | hh <;> rw [hh] <;> simp
      simp only [hgetD]
      have key : ((logical_to_main_l walk
          (if r.sie_mode = true then
            ch.set (r.hostregs.getD h.length)
              { ch.getD (r.hostregs.getD h.length) REGS.uninit with progjmp := r.progjmp }
          else ch) vaddr
          (if acctype = K.ACCTYPE_INSTFETCH then K.USE_INST_SPACE else arn) h.length
          acctype).heap).take h.length = h := by
        rw [logical_to_main_l_take _ _ _ _ _ _ _ (le_refl _)]
        · split_ifs
          · rw [take_set_ge _ _ _ _ hge, ct]
          · exact ct
        · intro r2 hr2 hp hhp
          have hr2h : r2.hostregs = r.hostregs := by
            split_ifs at hr2 with hs
            · by_cases he : r.hostregs.getD h.length = h.length
              · rw [he, List.getElem?_set_self (by
                  have := List.getElem?_eq_some.mp hr
                  obtain ⟨hlt, -⟩ := this
                  exact hlt)] at hr2
                simp only [Option.some.injEq] at hr2
                rw [← hr2]
                simp only []
                rw [hgetD]
              · rw [List.getElem?_set_ne he, hr] at hr2
                simp only [Option.some.injEq] at hr2
                rw [hr2]
            · rw [hr] at hr2
              simp only [Option.some.injEq] at hr2
              rw [hr2]
          rw [hr2h] at hhp
          rw [hhp] at hge
          simpa using hge
      refine ⟨?_, fun _ => ?_⟩
      · rw [List.take_take, Nat.min_self]
        exact key
      · exact key

/-- A successful `copy_regs`: the copy is the new structure at the end of the
heap, it has the PSW mode, the SIE mode and the `dat.stid` of the original,
and its host pointer designates a structure of the heap. -/
theorem copy_regs_ok (h : Heap) (regs : Nat) (r : REGS)
    (hr : h[regs]? = some r)
    (hhost : r.sie_mode = true → ∃ p hr, r.hostregs = some p ∧ h[p]? = some hr) :
    (copy_regs h regs true).ret = some (some h.length) ∧
    ∃ nr hi, (copy_regs h regs true).heap[h.length]? = some nr ∧
      nr.real_mode = r.real_mode ∧ nr.sie_mode = r.sie_mode ∧
      nr.dat_stid = r.dat_stid ∧ nr.hostregs = some hi ∧
      hi < (copy_regs h regs true).heap.length := by
  by_cases hs : r.sie_mode = true
  · obtain ⟨p, hrr, hp, hhp⟩ := hhost hs
    have hplt : p < h.length := (List.getElem?_eq_some.mp hhp).1
    simp [copy_regs, hr, hs, hp, hhp, hplt, List.getElem?_append, List.getElem_append_right]
  · simp [copy_regs, hr, hs]
    split_ifs <;> simp [List.getElem_append_right]

/-- Translation in real mode: no exception, no table entry fetched, the
context keeps its `dat.stid` and its host pointer, and the host context holds
the input address as real address. -/
theorem logical_to_main_l_real (walk : TableWalk) (H : Heap) (vaddr : Nat) (arn : Int)
    (regs : Nat) (acctype : Int) (r : REGS) (hi : Nat)
    (hr : H[regs]? = some r) (hreal : r.real_mode = true) (hh : r.hostregs = some hi)
    (hlt : hi < H.length) :
    (logical_to_main_l walk H vaddr arn regs acctype).icode = 0 ∧
    (logical_to_main_l walk H vaddr arn regs acctype).fetched = [] ∧
    (∃ r2, (logical_to_main_l walk H vaddr arn regs acctype).heap[regs]? = some r2 ∧
      r2.dat_stid = r.dat_stid ∧ r2.hostregs = some hi) ∧
    (∃ h2, (logical_to_main_l walk H vaddr arn regs acctype).heap[hi]? = some h2 ∧
      h2.dat_raddr = vaddr) := by
  have hrlt : regs < H.length := (List.getElem?_eq_some.mp hr).1
  unfold logical_to_main_l
  simp only [hr, hreal, hh, Option.getD_some, if_true]
  refine ⟨trivial, trivial, ?_, ?_⟩
  · by_cases he : hi = regs
    · subst he
      refine ⟨_, List.getElem?_set_self (by simp [hrlt]), ?_, ?_⟩
      · simp only []
        rw [getD_set_self _ _ _ _ hrlt]
      · simp only []
        rw [getD_set_self _ _ _ _ hrlt]
    · rw [List.getElem?_set_ne he, List.getElem?_set_self hrlt]
      exact ⟨_, rfl, rfl, rfl⟩
  · exact ⟨_, List.getElem?_set_self (by simp [hlt]), rfl⟩

theorem progjmp_step (H : Heap) (regs : Nat) (nr : REGS) (hi : Nat)
    (hnr : H[regs]? = some nr) (hh : nr.hostregs = some hi) (hlt : hi < H.length) :
    ∃ r1, (if nr.sie_mode = true then
          H.set (nr.hostregs.getD regs)
            { H.getD (nr.hostregs.getD regs) REGS.uninit with progjmp := nr.progjmp }
        else H)[regs]? = some r1 ∧
      r1.real_mode = nr.real_mode ∧ r1.hostregs = some hi ∧ r1.dat_stid = nr.dat_stid ∧
      hi < (if nr.sie_mode = true then
          H.set (nr.hostregs.getD regs)
            { H.getD (nr.hostregs.getD regs) REGS.uninit with progjmp := nr.progjmp }
        else H).length := by
  have hrlt : regs < H.length := (List.getElem?_eq_some.mp hnr).1
  have hg : H.getD regs REGS.uninit = nr := by
    rw [List.getD_eq_getElem?_getD, hnr]; rfl
  split_ifs with hs
  · rw [hh, Option.getD_some]
    by_cases he : hi = regs
    · subst he
      rw [hg]
      exact ⟨_, List.getElem?_set_self hrlt, rfl, hh, rfl, by simpa using hlt⟩
    · rw [List.getElem?_set_ne he]
      exact ⟨nr, hnr, rfl, hh, rfl, by simpa using hlt⟩
  · exact ⟨nr, hnr, rfl, hh, rfl, hlt⟩

theorem virt_to_real_dat_off_aux (K : Consts) (walk : TableWalk) (h : Heap) (vaddr : Nat)
    (arn : Int) (iregs : Nat) (acctype : Int) (r : REGS)
    (hr : h[iregs]? = some r) (hreal : r.real_mode = true)
    (hhost : r.sie_mode = true → ∃ p hr, r.hostregs = some p ∧ h[p]? = some hr) :
    (virt_to_real K walk h true vaddr arn iregs acctype).ret = some (0, vaddr, r.dat_stid) ∧
    (virt_to_real K walk h true vaddr arn iregs acctype).fetched = [] := by
  obtain ⟨hret, nr, hi, hnr, hrm, hsm, hst, hh, hlt⟩ := copy_regs_ok h iregs r hr hhost
  unfold virt_to_real
  generalize copy_regs h iregs true = c at hret hnr hlt
  obtain ⟨H, cr⟩ := c
  simp only at hret hnr hlt
  subst hret
  simp only []
  have hg : H.getD h.length REGS.uninit = nr := by
    rw [List.getD_eq_getElem?_getD, hnr]; rfl
  simp only [hg]
  obtain ⟨r1, hr1, h1rm, h1h, h1st, h1lt⟩ := progjmp_step H h.length nr hi hnr hh hlt
  obtain ⟨t1, t2, ⟨r2, hr2, h2st, h2h⟩, ⟨h2, hh2, h2ra⟩⟩ :=
    logical_to_main_l_real walk _ vaddr
      (if acctype = K.ACCTYPE_INSTFETCH then K.USE_INST_SPACE else arn) h.length acctype r1 hi
      hr1 (by rw [h1rm, hrm, hreal]) h1h h1lt
  generalize logical_to_main_l walk _ vaddr _ h.length acctype = t at t1 t2 hr2 hh2
  have hg2 : t.heap.getD h.length REGS.uninit = r2 := by
    rw [List.getD_eq_getElem?_getD, hr2]; rfl
  have hg3 : t.heap.getD hi REGS.uninit = h2 := by
    rw [List.getD_eq_getElem?_getD, hh2]; rfl
  simp only [hg2, h2h, Option.getD_some, hg3, t1, t2, h2ra, h2st, h1st, hst, and_self]

/-- Claim C4: `virt_to_real` never modifies the CPU register context passed to
it. For every input, whatever the table walk does to the context it is given,
whether the translation succeeds or raises an exception, and whether or not
the working copy can be allocated: the context `iregs` is the same after the
call as before, as is every context that existed before the call, and when
the function returns the heap is what it was, the working copy being
released. -/
theorem virt_to_real_preserves_context (K : Consts) (walk : TableWalk) (h : Heap)
    (malloc_ok : Bool) (vaddr : Nat) (arn : Int) (iregs : Nat) (acctype : Int) :
    (virt_to_real K walk h malloc_ok vaddr arn iregs acctype).heap[iregs]? = h[iregs]? ∧
    (virt_to_real K walk h malloc_ok vaddr arn iregs acctype).heap.take h.length = h ∧
    ((virt_to_real K walk h malloc_ok vaddr arn iregs acctype).ret = none ∨
      (virt_to_real K walk h malloc_ok vaddr arn iregs acctype).heap = h) := by
  obtain ⟨t1, t2⟩ := virt_to_real_take K walk h malloc_ok vaddr arn iregs acctype
  refine ⟨?_, t1, ?_⟩
  · by_cases hlt : iregs < h.length
    · have := List.getElem?_take_of_lt (l := (virt_to_real K walk h malloc_ok vaddr arn iregs
        acctype).heap) hlt
      rw [t1] at this
      exact this.symm
    · have hn : h[iregs]? = none := List.getElem?_eq_none (by omega)
      have : (virt_to_real K walk h malloc_ok vaddr arn iregs acctype).heap = h := by
        simp [virt_to_real, copy_regs, hn]
      rw [this]
  · by_cases hn : (virt_to_real K walk h malloc_ok vaddr arn iregs acctype).ret = none
    · exact Or.inl hn
    · exact Or.inr (t2 hn)

/-- A translation for an SIE guest that raises a page-translation exception:
`virt_to_real` returns the exception code `0x0011`, and the guest and host
contexts are what they were, although the walk changed the contexts it was
given. -/
theorem virt_to_real_page_translation_exception :
    (virt_to_real example_consts example_walk example_heap true 0x5000 0 1 0).ret
      = some (0x11, 0, 3) ∧
    (virt_to_real example_consts example_walk example_heap true 0x5000 0 1 0).heap
      = example_heap := by
  decide

/-- Claim C5: for every virtual address translated by `virt_to_real` while the
PSW is in real mode (DAT off), with a working copy allocated: the return code
is `0`, the returned real address equals the input address, no table entry is
fetched whatever the table walk would do, and `bldtrans` yields `(dat off)`
whatever `stid` and `arn` are. -/
theorem virt_to_real_dat_off (K : Consts) (walk : TableWalk) (h : Heap) (vaddr : Nat)
    (arn : Int) (iregs : Nat) (acctype : Int) (r : REGS)
    (hr : h[iregs]? = some r) (hreal : r.real_mode = true)
    (hhost : r.sie_mode = true → ∃ p hr, r.hostregs = some p ∧ h[p]? = some hr) :
    (virt_to_real K walk h true vaddr arn iregs acctype).ret = some (0, vaddr, r.dat_stid) ∧
    (virt_to_real K walk h true vaddr arn iregs acctype).fetched = [] ∧
    ∀ (arn2 stid : Int), bldtrans K r arn2 stid = "(dat off)" := by
  obtain ⟨a1, a2⟩ := virt_to_real_dat_off_aux K walk h vaddr arn iregs acctype r hr hreal hhost
  refine ⟨a1, a2, ?_⟩
  intro arn2 stid
  unfold bldtrans
  rw [if_pos hreal]

/-- In real mode the address `0x12345` translates to itself, although every
page-table entry of `example_walk` is invalid. -/
theorem virt_to_real_dat_off_witness :
    (virt_to_real example_consts example_walk [example_regs] true 0x12345 0 0 0).ret
      = some (0, 0x12345, example_regs.dat_stid) ∧
    (virt_to_real example_consts example_walk [example_regs] true 0x12345 0 0 0).fetched = [] ∧
    ∀ (arn2 stid : Int), bldtrans example_consts example_regs arn2 stid = "(dat off)" :=
  virt_to_real_dat_off example_consts example_walk [example_regs] 0x12345 0 0 0 example_regs
    rfl rfl (fun hs => absurd hs (by decide))

theorem hex_text_cons (c : Char) (t : List Char) (hc : c ≠ '#') :
    hex_text (c :: t) = c :: hex_text t := by
  have : (c != '#') = true := by simpa using hc
  simp [hex_text, List.takeWhile_cons, this]

/-- The alteration value of a successful `parse_range`: up to `#` or the end of
the string it holds only hexadecimal digits, spaces and tabs, and an even
number of digits. -/
theorem parse_hexstring_ok_text (n : Nat) : ∀ (t : List Char) (acc r : List Nat),
    t.length ≤ n → parse_hexstring t acc = .ok r →
    (∀ c ∈ hex_text t, isxdigit c = true ∨ c = ' ' ∨ c = '\t') ∧
      (hex_text t).countP isxdigit % 2 = 0 := by
  induction n with
  | zero =>
    intro t acc r ht _
    have : t = [] := List.length_eq_zero.mp (by omega)
    subst this
    simp [hex_text]
  | succ n ih =>
    intro t acc r ht h
    cases t with
    | nil => simp [hex_text]
    | cons h1 s =>
      rw [parse_hexstring_cons] at h
      simp only [List.length_cons] at ht
      by_cases c1 : h1 = '#'
      · subst c1
        simp [hex_text, List.takeWhile_cons]
      · rw [if_neg c1] at h
        rw [hex_text_cons h1 s c1]
        by_cases c2 : h1 = ' ' ∨ h1 = '\t'
        · rw [if_pos c2] at h
          obtain ⟨i1, i2⟩ := ih s acc r (by omega) h
          have hx : isxdigit h1 = false := by rcases c2 with rfl | rfl <;> decide
          refine ⟨?_, ?_⟩
          · intro c hc
            rcases List.mem_cons.mp hc with rfl | hc
            · exact Or.inr c2
            · exact i1 c hc
          · rw [List.countP_cons_of_neg _ _ (by simp [hx])]
            exact i2
        · rw [if_neg c2] at h
          by_cases c3 : hexdigit h1 < 0
          · rw [if_pos c3] at h; simp at h
          · rw [if_neg c3] at h
            cases s with
            | nil => simp at h
            | cons h2 s2 =>
              simp only [] at h
              simp only [List.length_cons] at ht
              by_cases c4 : hexdigit h2 < 0
              · rw [if_pos c4] at h; simp at h
              · rw [if_neg c4] at h
                split_ifs at h with c5
                obtain ⟨i1, i2⟩ := ih s2 _ r (by omega) h
                have hx1 : isxdigit h1 = true := by simpa [isxdigit] using c3
                have hx2 : isxdigit h2 = true := by simpa [isxdigit] using c4
                rw [hex_text_cons h2 s2 (isxdigit_not_special h2 hx2).2.2.2.2.2.1]
                refine ⟨?_, ?_⟩
                · intro c hc
                  rcases List.mem_cons.mp hc with rfl | hc
                  · exact Or.inl hx1
                  · rcases List.mem_cons.mp hc with rfl | hc
                    · exact Or.inl hx2
                    · exact i1 c hc
                · rw [List.countP_cons_of_pos _ _ hx1, List.countP_cons_of_pos _ _ hx2]
                  omega

/-- Claim C11: `parse_range` returns `-1` for every alteration operand (an
address, an equal sign and a text) whose hex string (the text after the equal
sign up to `#` or the end of the string) contains a character that is not a
hex digit, a space or a tab, or whose number of hex digits is odd, whether or
not an alteration is accepted. -/
theorem parse_range_bad_hexstring (w a maxadr : Nat) (alter : Bool) (text : List Char)
    (ha : a < 2 ^ 64)
    (hbad : (∃ c ∈ hex_text (cstr text), isxdigit c = false ∧ c ≠ ' ' ∧ c ≠ '\t') ∨
      (hex_text (cstr text)).countP isxdigit % 2 = 1) :
    (parse_range (some (hexstr w a ++ '=' :: text)) maxadr alter).rc = -1 := by
  have hc : cstr (hexstr w a ++ '=' :: text) = hexstr w a ++ '=' :: cstr text := by
    rw [cstr_append _ _ (hexstr_no_nul w a)]
    simp [cstr, List.takeWhile_cons]
  have hsc := sscanf_range_hexstr_delim w a '=' (cstr text) ha (by decide)
  have hd : (sscanf_range (hexstr w a ++ '=' :: cstr text)).delim = '=' ∧
      (sscanf_range (hexstr w a ++ '=' :: cstr text)).rc ≠ 1 := by
    rw [hsc]
    split
    · exact ⟨rfl, by simp⟩
    · split <;> exact ⟨rfl, by simp⟩
  unfold parse_range
  simp only [hc]
  by_cases c1 : (sscanf_range (hexstr w a ++ '=' :: cstr text)).rc > 2 ∧
      (sscanf_range (hexstr w a ++ '=' :: cstr text)).delim = '=' ∧ alter = true
  · rw [if_pos c1, after_strchr_append _ _ '=' (hexstr_no w a '=' (by decide))]
    cases hp : parse_hexstring (cstr text) [] with
    | error e => rfl
    | ok r =>
      exfalso
      obtain ⟨i1, i2⟩ := parse_hexstring_ok_text _ _ _ _ (le_refl _) hp
      rcases hbad with ⟨c, hc1, hc2, hc3, hc4⟩ | hodd
      · rcases i1 c hc1 with h | h | h
        · rw [h] at hc2; exact absurd hc2 (by decide)
        · exact hc3 h
        · exact hc4 h
      · omega
  · rw [if_neg c1, if_neg hd.2, if_pos (Or.inr (by rw [hd.1]; decide))]
    rfl

/-- An operand with three hex digits, and one with a comma in its hex string:
both give `-1`. -/
theorem parse_range_bad_hexstring_witness :
    (parse_range (some (hexstr 0 0x1000 ++ '=' :: ['A', 'A', 'B'])) 0x7FFFFFFF true).rc = -1 ∧
    (parse_range (some (hexstr 0 0x1000 ++ '=' :: ['A', 'A', ',', 'B', 'B', '#', 'x']))
      0x7FFFFFFF true).rc = -1 :=
  ⟨parse_range_bad_hexstring 0 0x1000 0x7FFFFFFF true ['A', 'A', 'B'] (by decide)
      (Or.inr (by decide)),
   parse_range_bad_hexstring 0 0x1000 0x7FFFFFFF true ['A', 'A', ',', 'B', 'B', '#', 'x']
      (by decide) (Or.inl ⟨',', by decide, by decide, by decide, by decide⟩)⟩

/-- Claim C12: whenever `parse_range` returns a non-negative value, the bounds
it stores satisfy `start ≤ end ≤ maxadr`, for every operand, every `maxadr` and
with or without `newval`. -/
theorem parse_range_bounds (operand : Option (List Char)) (maxadr : Nat) (alter : Bool)
    (h : 0 ≤ (parse_range operand maxadr alter).rc) :
    ∃ n saddr eaddr newval, parse_range operand maxadr alter = .ok n saddr eaddr newval ∧
      saddr ≤ eaddr ∧ eaddr ≤ maxadr := by
  cases hp : parse_range operand maxadr alter with
  | error e =>
    rw [hp] at h
    simp [Parsed.rc] at h
  | ok n saddr eaddr newval =>
    obtain ⟨-, -, h1, h2, -, -⟩ := parse_range_ok _ _ _ _ _ _ _ hp
    exact ⟨n, saddr, eaddr, newval, rfl, h1, h2⟩

/-- The operand `1000.10` gives the bounds `0x1000` and `0x100F`. -/
theorem parse_range_bounds_witness :
    ∃ n saddr eaddr newval,
      parse_range (some ['1', '0', '0', '0', '.', '1', '0']) 0x7FFFFFFF false
        = .ok n saddr eaddr newval ∧ saddr ≤ eaddr ∧ eaddr ≤ 0x7FFFFFFF :=
  parse_range_bounds (some ['1', '0', '0', '0', '.', '1', '0']) 0x7FFFFFFF false (by decide)

/-- What `parse_range` computes for a well-formed alteration operand with any
number of pairs: it depends on the digits of the pairs only. -/
theorem parse_range_alter_pairs (w a maxadr : Nat) (ps : List HexPair) (bl cm : List Char)
    (ha : a < 2 ^ 64) (hps : ∀ p ∈ ps, p.valid) (hne : ps ≠ [])
    (hbl : ∀ c ∈ bl, c = ' ' ∨ c = '\t') (hcm : cm = [] ∨ cm.head? = some '#') :
    parse_range (some (hexstr w a ++ '=' :: (hexstring ps ++ (bl ++ cm)))) maxadr true =
      if 32 < ps.length then .error .too_many_bytes
      else if a > maxadr ∨ sub64 (add64 a ps.length) 1 > maxadr
          ∨ sub64 (add64 a ps.length) 1 < a
      then .error .invalid_range
      else .ok ps.length a (sub64 (add64 a ps.length) 1) (ps.map HexPair.byte) := by
  by_cases h32 : 32 < ps.length
  · rw [if_pos h32, parse_range_alter_eq w a maxadr ps _ ha hps hne,
      parse_hexstring_too_many ps _ [] hps (by simpa using h32) (by simp)]
  · rw [if_neg h32]
    have h1 : 1 ≤ ps.length := by
      cases ps with
      | nil => exact absurd rfl hne
      | cons p ps => simp
    exact parse_range_alter_value w a maxadr ps bl cm ha hps h1 (by omega) hbl hcm

theorem map_byte_eq (ps qs : List HexPair)
    (h : ps.map (fun p => (p.hi, p.lo)) = qs.map (fun p => (p.hi, p.lo))) :
    ps.map HexPair.byte = qs.map HexPair.byte ∧ ps.length = qs.length := by
  have h1 : ps.map HexPair.byte
      = (ps.map (fun p => (p.hi, p.lo))).map
          (fun d => (hexdigit d.1).toNat * 16 + (hexdigit d.2).toNat) := by
    rw [List.map_map]; rfl
  have h2 : qs.map HexPair.byte
      = (qs.map (fun p => (p.hi, p.lo))).map
          (fun d => (hexdigit d.1).toNat * 16 + (hexdigit d.2).toNat) := by
    rw [List.map_map]; rfl
  refine ⟨by rw [h1, h2, h], ?_⟩
  have := congrArg List.length h
  simpa using this

/-- Claim C13, amended: spaces and tabs between the pairs of hex digits of an
alteration operand (before the first digit of a pair, or after the last pair)
are optional and ignored: two alteration operands with the same address, the
same pairs of digits in the same order and the same comment, which differ
only in such blanks, give the same return value, bounds and bytes. A blank
between the two digits of one pair is not ignored. -/
theorem parse_range_blanks_between_pairs (w a maxadr : Nat) (alter : Bool)
    (ps qs : List HexPair) (bl1 bl2 cm : List Char) (ha : a < 2 ^ 64)
    (hps : ∀ p ∈ ps, p.valid) (hqs : ∀ p ∈ qs, p.valid) (hne : ps ≠ [])
    (hsame : ps.map (fun p => (p.hi, p.lo)) = qs.map (fun p => (p.hi, p.lo)))
    (hbl1 : ∀ c ∈ bl1, c = ' ' ∨ c = '\t') (hbl2 : ∀ c ∈ bl2, c = ' ' ∨ c = '\t')
    (hcm : cm = [] ∨ cm.head? = some '#') :
    parse_range (some (hexstr w a ++ '=' :: (hexstring ps ++ (bl1 ++ cm)))) maxadr alter =
      parse_range (some (hexstr w a ++ '=' :: (hexstring qs ++ (bl2 ++ cm)))) maxadr alter := by
  obtain ⟨hb, hl⟩ := map_byte_eq ps qs hsame
  have hne2 : qs ≠ [] := by
    intro h; rw [h] at hl; exact hne (List.length_eq_zero.mp hl)
  cases alter with
  | false =>
    rw [parse_range_alter_refused w a maxadr ps _ ha hps hne,
      parse_range_alter_refused w a maxadr qs _ ha hqs hne2]
  | true =>
    rw [parse_range_alter_pairs w a maxadr ps bl1 cm ha hps hne hbl1 hcm,
      parse_range_alter_pairs w a maxadr qs bl2 cm ha hqs hne2 hbl2 hcm, hb, hl]

/-- The operands `1000=AABB` and `1000= AA<tab>BB ` give the same result. -/
theorem parse_range_blanks_between_pairs_witness :
    parse_range (some (hexstr 0 0x1000 ++ '=' ::
        (hexstring [⟨[], 'A', 'A'⟩, ⟨[], 'B', 'B'⟩] ++ ([] ++ [])))) 0x7FFFFFFF true =
      parse_range (some (hexstr 0 0x1000 ++ '=' ::
        (hexstring [⟨[' '], 'A', 'A'⟩, ⟨['\t'], 'B', 'B'⟩] ++ ([' '] ++ [])))) 0x7FFFFFFF true :=
  parse_range_blanks_between_pairs 0 0x1000 0x7FFFFFFF true
    [⟨[], 'A', 'A'⟩, ⟨[], 'B', 'B'⟩] [⟨[' '], 'A', 'A'⟩, ⟨['\t'], 'B', 'B'⟩] [] [' '] []
    (by decide) (by decide) (by decide) (by decide) (by decide) (by decide) (by decide)
    (Or.inl rfl)

/-- Claim C13 fails for a blank between the two digits of a pair: the operand
`1000=AABB` gives two bytes, and `1000=A ABB`, which has a space between the
adjacent digits `A` and `A`, gives `-1` (invalid hex pair). -/
theorem parse_range_blank_inside_pair :
    parse_range (some ['1', '0', '0', '0', '=', 'A', 'A', 'B', 'B']) 0x7FFFFFFF true
      = .ok 2 0x1000 0x1001 [0xAA, 0xBB] ∧
    parse_range (some ['1', '0', '0', '0', '=', 'A', ' ', 'A', 'B', 'B']) 0x7FFFFFFF true
      = .error .invalid_hex_pair := by
  decide

/-- Claim C16: after the range-limiting step `LIMIT_RANGE (saddr, eaddr,
_64_KILOBYTE)` of `alter_display_real_or_abs`, `alter_display_virt` and
`disasm_stor`, for every range parsed with the limit of an architecture: the
start is unchanged (the macro yields the end only), the end is not below the
start and not above the parsed end, the range holds at most `0x10000` bytes,
the end is unchanged whenever the parsed range already held at most `0x10000`
bytes, and the amount the commands compute from it, `(eaddr - saddr) + 1` in
64 bits, is the number of bytes of the limited range. -/
theorem limit_range_64k (arch : Arch) (operand : Option (List Char)) (alter : Bool)
    (n saddr eaddr : Nat) (newval : List Nat)
    (hp : parse_range operand (maxadr arch) alter = .ok n saddr eaddr newval) :
    saddr ≤ LIMIT_RANGE saddr eaddr _64_KILOBYTE ∧
    LIMIT_RANGE saddr eaddr _64_KILOBYTE ≤ eaddr ∧
    LIMIT_RANGE saddr eaddr _64_KILOBYTE - saddr + 1 ≤ 0x10000 ∧
    (eaddr - saddr + 1 ≤ 0x10000 → LIMIT_RANGE saddr eaddr _64_KILOBYTE = eaddr) ∧
    add64 (sub64 (LIMIT_RANGE saddr eaddr _64_KILOBYTE) saddr) 1
      = LIMIT_RANGE saddr eaddr _64_KILOBYTE - saddr + 1 := by
  obtain ⟨-, -, h1, h2, h3, -⟩ := parse_range_ok _ _ _ _ _ _ _ hp
  have h64 : maxadr arch < 2 ^ 64 := by cases arch <;> decide
  have hsub : sub64 eaddr saddr = eaddr - saddr := by unfold sub64; omega
  unfold LIMIT_RANGE _64_KILOBYTE
  rw [hsub]
  by_cases hc : eaddr - saddr ≥ 0x10000
  · rw [if_pos hc]
    have : sub64 (add64 saddr 0x10000) 1 = saddr + 0xFFFF := by unfold sub64 add64; omega
    rw [this]
    refine ⟨by omega, by omega, by omega, by omega, ?_⟩
    unfold sub64 add64; omega
  · rw [if_neg hc]
    refine ⟨h1, le_refl _, by omega, fun _ => rfl, ?_⟩
    unfold sub64 add64; omega

/-- The range `0-FFFFFFFF` is limited to `0-FFFF`. -/
theorem limit_range_64k_witness :
    (0 : Nat) ≤ LIMIT_RANGE 0 0xFFFFFFFF _64_KILOBYTE ∧
    LIMIT_RANGE 0 0xFFFFFFFF _64_KILOBYTE ≤ 0xFFFFFFFF ∧
    LIMIT_RANGE 0 0xFFFFFFFF _64_KILOBYTE - 0 + 1 ≤ 0x10000 ∧
    (0xFFFFFFFF - 0 + 1 ≤ 0x10000 → LIMIT_RANGE 0 0xFFFFFFFF _64_KILOBYTE = 0xFFFFFFFF) ∧
    add64 (sub64 (LIMIT_RANGE 0 0xFFFFFFFF _64_KILOBYTE) 0) 1
      = LIMIT_RANGE 0 0xFFFFFFFF _64_KILOBYTE - 0 + 1 :=
  limit_range_64k .z900 (some ['0', '-', 'F', 'F', 'F', 'F', 'F', 'F', 'F', 'F']) false
    0 0 0xFFFFFFFF [] (by decide)

/-- Claim C17: `dump_abs_page` returns `-1` without reading any byte of storage
(its only message is HHC02219, invalid parameters) for every call in which
`offset ≥ page size`, or `amt > page size - offset`, or `aaddr` or `adr` is not
page aligned, or `wid` is neither 32 nor 64. -/
theorem dump_abs_page_invalid (arch : Arch) (regs : REGS) (m : Machine)
    (aaddr adr offset amt : Nat) (vra : Char) (wid : Nat)
    (h : offset ≥ PAGEFRAME_PAGESIZE arch ∨ amt > PAGEFRAME_PAGESIZE arch - offset ∨
      aaddr % PAGEFRAME_PAGESIZE arch ≠ 0 ∨ adr % PAGEFRAME_PAGESIZE arch ≠ 0 ∨
      (wid ≠ 32 ∧ wid ≠ 64)) :
    dump_abs_page arch regs m aaddr adr offset amt vra wid =
      (-1, [.HHC02219 "dump_abs_page()" "invalid parameters"]) ∧
    dumped (dump_abs_page arch regs m aaddr adr offset amt vra wid).2 = [] := by
  have : dump_abs_page arch regs m aaddr adr offset amt vra wid =
      (-1, [.HHC02219 "dump_abs_page()" "invalid parameters"]) := by
    unfold dump_abs_page
    rw [land_PAGEFRAME_BYTEMASK, land_PAGEFRAME_BYTEMASK, if_pos]
    tauto
  rw [this]
  exact ⟨rfl, rfl⟩

/-- A call with the offset `0x1000`, the size of a page, is refused. -/
theorem dump_abs_page_invalid_witness :
    dump_abs_page .s390 example_regs example_machine 0x2000 0x2000 0x1000 1 'R' 32 =
      (-1, [.HHC02219 "dump_abs_page()" "invalid parameters"]) ∧
    dumped (dump_abs_page .s390 example_regs example_machine 0x2000 0x2000 0x1000 1 'R' 32).2
      = [] :=
  dump_abs_page_invalid .s390 example_regs example_machine 0x2000 0x2000 0x1000 1 'R' 32
    (Or.inl (by decide))

/-- The three outcomes of `dump_abs_page`. -/
theorem dump_abs_page_cases (arch : Arch) (regs : REGS) (m : Machine)
    (aaddr adr offset amt : Nat) (vra : Char) (wid : Nat) :
    dump_abs_page arch regs m aaddr adr offset amt vra wid =
        (-1, [.HHC02219 "dump_abs_page()" "invalid parameters"]) ∨
    (aaddr > regs.mainlim ∧
      dump_abs_page arch regs m aaddr adr offset amt vra wid =
        (-1, [.dump_addressing (if vra = Char.ofNat 0 then 'V' else vra) adr])) ∨
    (aaddr % PAGEFRAME_PAGESIZE arch = 0 ∧ offset < PAGEFRAME_PAGESIZE arch ∧
      amt ≤ PAGEFRAME_PAGESIZE arch - offset ∧ aaddr ≤ regs.mainlim ∧
      dump_abs_page arch regs m aaddr adr offset amt vra wid =
        (0, [.dump vra
          { first := aaddr + offset
            data := (List.range amt).map (fun i => m.mainstor (aaddr + offset + i))
            skip := offset &&& 0xF, adr := add64 adr offset &&& 0xFFFFFFFFFFFFFFF0
            wid := wid, bpg := 4, gpl := 4 }])) := by
  unfold dump_abs_page
  rw [land_PAGEFRAME_BYTEMASK, land_PAGEFRAME_BYTEMASK]
  by_cases h1 : aaddr % PAGEFRAME_PAGESIZE arch ≠ 0 ∨ adr % PAGEFRAME_PAGESIZE arch ≠ 0 ∨
      offset ≥ PAGEFRAME_PAGESIZE arch ∨ amt > PAGEFRAME_PAGESIZE arch - offset ∨
      (wid ≠ 32 ∧ wid ≠ 64)
  · rw [if_pos h1]; exact Or.inl rfl
  · rw [if_neg h1]
    by_cases h2 : aaddr > regs.mainlim
    · rw [if_pos h2]; exact Or.inr (Or.inl ⟨h2, rfl⟩)
    · rw [if_neg h2]
      refine Or.inr (Or.inr ⟨?_, ?_, ?_, ?_, rfl⟩)
      · by_contra hc; exact h1 (Or.inl hc)
      · by_contra hc; exact h1 (Or.inr (Or.inr (Or.inl (by omega))))
      · by_contra hc; exact h1 (Or.inr (Or.inr (Or.inr (Or.inl (by omega)))))
      · omega

/-- Claim C18, amended: `dump_abs_page` compares the start of the page, not the
end of the dump, with `mainlim`. When main storage consists of whole pages
(`mainlim + 1` is a multiple of the page size): every call with
`aaddr + offset + amt - 1 > mainlim` returns `-1` and reads nothing (with the
addressing exception line when its parameters are valid, with HHC02219
otherwise), and every byte a call reads lies at an absolute address not
exceeding `mainlim`. -/
theorem dump_abs_page_within_storage (arch : Arch) (regs : REGS) (m : Machine)
    (aaddr adr offset amt : Nat) (vra : Char) (wid : Nat)
    (hwhole : (regs.mainlim + 1) % PAGEFRAME_PAGESIZE arch = 0) :
    (aaddr + offset + amt - 1 > regs.mainlim →
      (dump_abs_page arch regs m aaddr adr offset amt vra wid).1 = -1 ∧
      dumped (dump_abs_page arch regs m aaddr adr offset amt vra wid).2 = [] ∧
      (dump_abs_page arch regs m aaddr adr offset amt vra wid =
          (-1, [.HHC02219 "dump_abs_page()" "invalid parameters"]) ∨
        dump_abs_page arch regs m aaddr adr offset amt vra wid =
          (-1, [.dump_addressing (if vra = Char.ofNat 0 then 'V' else vra) adr]))) ∧
    (∀ v d, Msg.dump v d ∈ (dump_abs_page arch regs m aaddr adr offset amt vra wid).2 →
      d.first = aaddr + offset ∧ d.data.length = amt ∧
      ∀ i, i < d.data.length → d.first + i ≤ regs.mainlim) := by
  have hS : 0 < PAGEFRAME_PAGESIZE arch := by cases arch <;> decide
  have hwhole2 : ∀ a, a % PAGEFRAME_PAGESIZE arch = 0 → a ≤ regs.mainlim →
      a + PAGEFRAME_PAGESIZE arch ≤ regs.mainlim + 1 := by
    intro a ha hle
    obtain ⟨q, hq⟩ := Nat.dvd_of_mod_eq_zero ha
    obtain ⟨p, hp⟩ := Nat.dvd_of_mod_eq_zero hwhole
    have hlt : q < p := by
      have : PAGEFRAME_PAGESIZE arch * q < PAGEFRAME_PAGESIZE arch * p := by omega
      exact Nat.lt_of_mul_lt_mul_left this
    have : PAGEFRAME_PAGESIZE arch * (q + 1) ≤ PAGEFRAME_PAGESIZE arch * p :=
      Nat.mul_le_mul_left _ hlt
    rw [Nat.mul_add, Nat.mul_one] at this
    omega
  rcases dump_abs_page_cases arch regs m aaddr adr offset amt vra wid with
    h | ⟨-, h⟩ | ⟨h1, h2, h3, h4, h⟩
  · rw [h]
    refine ⟨fun _ => ⟨rfl, rfl, Or.inl rfl⟩, ?_⟩
    intro v d hd
    simp at hd
  · rw [h]
    refine ⟨fun _ => ⟨rfl, rfl, Or.inr rfl⟩, ?_⟩
    intro v d hd
    simp at hd
  · rw [h]
    have hw := hwhole2 aaddr h1 h4
    refine ⟨fun hgt => ?_, ?_⟩
    · exfalso; omega
    · intro v d hd
      simp only [List.mem_singleton, Msg.dump.injEq] at hd
      obtain ⟨-, rfl⟩ := hd
      refine ⟨rfl, by simp, ?_⟩
      intro i hi
      simp only [List.length_map, List.length_range] at hi
      show aaddr + offset + i ≤ regs.mainlim
      omega

/-- With 64K of main storage, the dump of the last 16 bytes of the page at
`0xF000` stays within storage, and a dump in the page at `0x10000` is
refused. -/
theorem dump_abs_page_within_storage_witness :
    ((0x10000 + 0xFF0 + 16 - 1 > example_regs.mainlim →
      (dump_abs_page .s390 example_regs example_machine 0x10000 0x10000 0xFF0 16 'R' 32).1
        = -1 ∧
      dumped (dump_abs_page .s390 example_regs example_machine 0x10000 0x10000 0xFF0 16
        'R' 32).2 = [] ∧
      (dump_abs_page .s390 example_regs example_machine 0x10000 0x10000 0xFF0 16 'R' 32 =
          (-1, [.HHC02219 "dump_abs_page()" "invalid parameters"]) ∨
        dump_abs_page .s390 example_regs example_machine 0x10000 0x10000 0xFF0 16 'R' 32 =
          (-1, [.dump_addressing (if 'R' = Char.ofNat 0 then 'V' else 'R') 0x10000]))) ∧
    (∀ v d, Msg.dump v d ∈
        (dump_abs_page .s390 example_regs example_machine 0x10000 0x10000 0xFF0 16 'R' 32).2 →
      d.first = 0x10000 + 0xFF0 ∧ d.data.length = 16 ∧
      ∀ i, i < d.data.length → d.first + i ≤ example_regs.mainlim)) :=
  dump_abs_page_within_storage .s390 example_regs example_machine 0x10000 0x10000 0xFF0 16
    'R' 32 (by decide)

/-- Claim C18 fails when `mainlim` is not the end of a page: with
`mainlim = 0x17FF`, the call for 16 bytes at offset `0x7F8` of the page at
`0x1000` has `aaddr + offset + amt - 1 = 0x1807 > mainlim`, yet it returns `0`
and reads 16 bytes, the last eight of them beyond `mainlim`. -/
theorem dump_abs_page_beyond_limit :
    0x1000 + 0x7F8 + 16 - 1 > ({ example_regs with mainlim := 0x17FF } : REGS).mainlim ∧
    dump_abs_page .s390 { example_regs with mainlim := 0x17FF } example_machine
      0x1000 0x1000 0x7F8 16 'R' 32 =
      (0, [.dump 'R'
        { first := 0x17F8
          data := (List.range 16).map (fun i => example_machine.mainstor (0x17F8 + i))
          skip := 8, adr := 0x17F0, wid := 32, bpg := 4, gpl := 4 }]) ∧
    (dumped (dump_abs_page .s390 { example_regs with mainlim := 0x17FF } example_machine
      0x1000 0x1000 0x7F8 16 'R' 32).2).length = 16 := by
  decide

/-- Claim C19: for every valid call of `dump_abs_page` for a page within main
storage, the cosmetic address given to the first dump line is `adr + offset`
rounded down to a multiple of 16 and the number of bytes skipped on that line
is `(adr + offset) mod 16`, so that aligned address plus skip is
`adr + offset`; the bytes dumped are the `amt` bytes from absolute address
`aaddr + offset` on, formatted 4 bytes per group and 4 groups per line. -/
theorem dump_abs_page_first_line (arch : Arch) (regs : REGS) (m : Machine)
    (aaddr adr offset amt : Nat) (vra : Char) (wid : Nat)
    (ha : aaddr % PAGEFRAME_PAGESIZE arch = 0) (hadr : adr % PAGEFRAME_PAGESIZE arch = 0)
    (hoff : offset < PAGEFRAME_PAGESIZE arch) (hamt : amt ≤ PAGEFRAME_PAGESIZE arch - offset)
    (hwid : wid = 32 ∨ wid = 64) (hlim : aaddr ≤ regs.mainlim) (h64 : adr < 2 ^ 64) :
    ∃ d, dump_abs_page arch regs m aaddr adr offset amt vra wid = (0, [.dump vra d]) ∧
      d.adr = (adr + offset) / 16 * 16 ∧ d.skip = (adr + offset) % 16 ∧
      d.adr + d.skip = adr + offset ∧ d.first = aaddr + offset ∧
      d.data = (List.range amt).map (fun i => m.mainstor (aaddr + offset + i)) ∧
      d.bpg = 4 ∧ d.gpl = 4 := by
  refine ⟨_, dump_abs_page_ok arch regs m aaddr adr offset amt vra wid ha hadr hoff hamt hwid
    hlim, ?_⟩
  simp only []
  have hS : PAGEFRAME_PAGESIZE arch ∣ 2 ^ 64 ∧ 16 ∣ PAGEFRAME_PAGESIZE arch := by
    cases arch
    · exact ⟨⟨2 ^ 53, by norm_num [PAGEFRAME_PAGESIZE]⟩, ⟨128, by norm_num [PAGEFRAME_PAGESIZE]⟩⟩
    · exact ⟨⟨2 ^ 52, by norm_num [PAGEFRAME_PAGESIZE]⟩, ⟨256, by norm_num [PAGEFRAME_PAGESIZE]⟩⟩
    · exact ⟨⟨2 ^ 52, by norm_num [PAGEFRAME_PAGESIZE]⟩, ⟨256, by norm_num [PAGEFRAME_PAGESIZE]⟩⟩
  have hsum : adr + offset < 2 ^ 64 := by
    obtain ⟨q, hq⟩ := Nat.dvd_of_mod_eq_zero hadr
    obtain ⟨p, hp⟩ := hS.1
    have hlt : q < p := by
      have : PAGEFRAME_PAGESIZE arch * q < PAGEFRAME_PAGESIZE arch * p := by omega
      exact Nat.lt_of_mul_lt_mul_left this
    have : PAGEFRAME_PAGESIZE arch * (q + 1) ≤ PAGEFRAME_PAGESIZE arch * p :=
      Nat.mul_le_mul_left _ hlt
    rw [Nat.mul_add, Nat.mul_one] at this
    omega
  have hadd : add64 adr offset = adr + offset := by unfold add64; omega
  have hmask : (adr + offset) &&& 0xFFFFFFFFFFFFFFF0 = (adr + offset) / 16 * 16 := by
    have := land_mask (adr + offset) 4 64 (by decide) hsum
    simpa using this
  have hskip : offset &&& 0xF = offset % 16 := Nat.and_pow_two_sub_one_eq_mod offset 4
  have h16 : adr % 16 = 0 := by
    obtain ⟨q, hq⟩ := Nat.dvd_of_mod_eq_zero hadr
    obtain ⟨p, hp⟩ := hS.2
    rw [hq, hp, Nat.mul_assoc]
    exact Nat.mul_mod_right _ _
  rw [hadd, hmask, hskip]
  refine ⟨?_, ?_, ?_, ?_, ?_, ?_, ?_⟩ <;> first | trivial | rfl | omega

/-- The dump of 4 bytes at offset `0x7FE` of the page at `0x3000`: the first
line has the address `0x37F0` and skips 14 bytes. -/
theorem dump_abs_page_first_line_witness :
    ∃ d, dump_abs_page .s390 example_regs example_machine 0x3000 0x3000 0x7FE 4 'R' 32
        = (0, [.dump 'R' d]) ∧
      d.adr = (0x3000 + 0x7FE) / 16 * 16 ∧ d.skip = (0x3000 + 0x7FE) % 16 ∧
      d.adr + d.skip = 0x3000 + 0x7FE ∧ d.first = 0x3000 + 0x7FE ∧
      d.data = (List.range 4).map (fun i => example_machine.mainstor (0x3000 + 0x7FE + i)) ∧
      d.bpg = 4 ∧ d.gpl = 4 :=
  dump_abs_page_first_line .s390 example_regs example_machine 0x3000 0x3000 0x7FE 4 'R' 32
    (by decide) (by decide) (by decide) (by decide) (Or.inl rfl) (by decide) (by decide)

/-! ## The commands for virtual storage -/

/-- A call of `virt_to_real` for a context of the heap, with a working copy
allocated, returns, and leaves the heap as it was. -/
theorem virt_to_real_returns (K : Consts) (walk : TableWalk) (h : Heap) (vaddr : Nat)
    (arn : Int) (iregs : Nat) (acctype : Int) (r : REGS)
    (hr : h[iregs]? = some r)
    (hhost : r.sie_mode = true → ∃ p hr, r.hostregs = some p ∧ h[p]? = some hr) :
    ∃ icode raddr stid,
      (virt_to_real K walk h true vaddr arn iregs acctype).ret = some (icode, raddr, stid) ∧
      (virt_to_real K walk h true vaddr arn iregs acctype).heap = h := by
  obtain ⟨hret, -⟩ := copy_regs_ok h iregs r hr hhost
  have hne : (virt_to_real K walk h true vaddr arn iregs acctype).ret ≠ none := by
    unfold virt_to_real
    simp only [hret]
    exact fun hc => Option.noConfusion hc
  obtain ⟨-, t2⟩ := virt_to_real_take K walk h true vaddr arn iregs acctype
  cases hv : (virt_to_real K walk h true vaddr arn iregs acctype).ret with
  | none => exact absurd hv hne
  | some x =>
    obtain ⟨icode, raddr, stid⟩ := x
    exact ⟨icode, raddr, stid, rfl, t2 hne⟩

/-- One iteration of the display loop of `alter_display_virt`, for a call of
`virt_to_real` that returns and leaves the heap as it was. -/
theorem virt_display_loop_step (arch : Arch) (K : CommandConsts) (walk : StorageWalk)
    (regs : Nat) (arn : Int) (m : Machine) (addrwid : Nat) (h : Heap) (r : REGS)
    (hr : h[regs]? = some r) (fuel totamt pageadr pageoff pageamt : Nat)
    (ic ra : Nat) (st : Int)
    (hret : (virt_to_real K.toConsts (walk m.mainstor) h true pageadr arn regs
      K.ACCTYPE_HW).ret = some (ic, ra, st))
    (hheap : (virt_to_real K.toConsts (walk m.mainstor) h true pageadr arn regs
      K.ACCTYPE_HW).heap = h) :
    virt_display_loop arch K walk true regs arn m addrwid (fuel + 1) totamt pageadr pageoff
        pageamt h =
      if ic % 65536 = 0 ∧ APPLY_PREFIXING arch ra r.PX > r.mainlim then
        ⟨h, m.mainstor, [.translation pageadr ic, .HHC02328 'R' ra], none⟩
      else if totamt - (if pageamt > totamt then totamt else pageamt) = 0 then
        ⟨h, m.mainstor, .translation pageadr ic ::
          (if ic % 65536 ≠ 0 then
            [Msg.HHC02329 'V' pageadr (ic % 65536) (bldtrans K.toConsts r arn st)]
          else
            .HHC02291_key ra (m.storkey (APPLY_PREFIXING arch ra r.PX))
                (bldtrans K.toConsts r arn st) ::
              (dump_abs_page arch r m (APPLY_PREFIXING arch ra r.PX) pageadr pageoff
                (if pageamt > totamt then totamt else pageamt) (Char.ofNat 0) addrwid).2),
          none⟩
      else
        { virt_display_loop arch K walk true regs arn m addrwid fuel
            (totamt - (if pageamt > totamt then totamt else pageamt))
            (add64 pageadr (PAGEFRAME_PAGESIZE arch)) 0 (PAGEFRAME_PAGESIZE arch) h with
          out := .translation pageadr ic ::
            (if ic % 65536 ≠ 0 then
              [Msg.HHC02329 'V' pageadr (ic % 65536) (bldtrans K.toConsts r arn st)]
            else
              .HHC02291_key ra (m.storkey (APPLY_PREFIXING arch ra r.PX))
                  (bldtrans K.toConsts r arn st) ::
                (dump_abs_page arch r m (APPLY_PREFIXING arch ra r.PX) pageadr pageoff
                  (if pageamt > totamt then totamt else pageamt) (Char.ofNat 0) addrwid).2) ++
            (virt_display_loop arch K walk true regs arn m addrwid fuel
              (totamt - (if pageamt > totamt then totamt else pageamt))
              (add64 pageadr (PAGEFRAME_PAGESIZE arch)) 0 (PAGEFRAME_PAGESIZE arch) h).out } := by
  have hg : h.getD regs REGS.uninit = r := by
    rw [List.getD_eq_getElem?_getD, hr]; rfl
  rw [virt_display_loop]
  simp only [hret, hheap, hg]

/-- The display loop of `alter_display_virt` reaches every page of its range
that is not preceded by a page with an addressing exception: the page is
translated; a translation exception is reported; a page within main storage is
displayed; an addressing exception is the last message. -/
theorem virt_display_loop_page (arch : Arch) (K : CommandConsts) (walk : StorageWalk)
    (regs : Nat) (arn : Int) (m : Machine) (addrwid : Nat) (h : Heap) (r : REGS)
    (hr : h[regs]? = some r)
    (hhost : r.sie_mode = true → ∃ p hr, r.hostregs = some p ∧ h[p]? = some hr) :
    ∀ (k fuel totamt pageadr pageoff : Nat),
      k < fuel → pageoff < PAGEFRAME_PAGESIZE arch →
      pageoff + totamt > k * PAGEFRAME_PAGESIZE arch → 1 ≤ totamt →
      pageadr + k * PAGEFRAME_PAGESIZE arch < 2 ^ 64 →
      (∀ j, j < k → ∀ ic ra st,
        (virt_to_real K.toConsts (walk m.mainstor) h true
          (pageadr + j * PAGEFRAME_PAGESIZE arch) arn regs K.ACCTYPE_HW).ret
            = some (ic, ra, st) →
        ic % 65536 = 0 → APPLY_PREFIXING arch ra r.PX ≤ r.mainlim) →
      ∃ ic ra st,
        (virt_to_real K.toConsts (walk m.mainstor) h true
          (pageadr + k * PAGEFRAME_PAGESIZE arch) arn regs K.ACCTYPE_HW).ret
            = some (ic, ra, st) ∧
        Msg.translation (pageadr + k * PAGEFRAME_PAGESIZE arch) ic ∈
          (virt_display_loop arch K walk true regs arn m addrwid fuel totamt pageadr pageoff
            (PAGEFRAME_PAGESIZE arch - pageoff) h).out ∧
        (ic % 65536 ≠ 0 →
          Msg.HHC02329 'V' (pageadr + k * PAGEFRAME_PAGESIZE arch) (ic % 65536)
              (bldtrans K.toConsts r arn st) ∈
            (virt_display_loop arch K walk true regs arn m addrwid fuel totamt pageadr pageoff
              (PAGEFRAME_PAGESIZE arch - pageoff) h).out) ∧
        (ic % 65536 = 0 → APPLY_PREFIXING arch ra r.PX ≤ r.mainlim →
          Msg.HHC02291_key ra (m.storkey (APPLY_PREFIXING arch ra r.PX))
              (bldtrans K.toConsts r arn st) ∈
            (virt_display_loop arch K walk true regs arn m addrwid fuel totamt pageadr pageoff
              (PAGEFRAME_PAGESIZE arch - pageoff) h).out) ∧
        (ic % 65536 = 0 → APPLY_PREFIXING arch ra r.PX > r.mainlim →
          (virt_display_loop arch K walk true regs arn m addrwid fuel totamt pageadr pageoff
              (PAGEFRAME_PAGESIZE arch - pageoff) h).out.getLast?
            = some (.HHC02328 'R' ra)) := by
  intro k
  induction k with
  | zero =>
    intro fuel totamt pageadr pageoff hf hoff hin ht h64 _
    obtain ⟨fuel, rfl⟩ : ∃ f, fuel = f + 1 := ⟨fuel - 1, by omega⟩
    simp only [Nat.zero_mul, Nat.add_zero]
    obtain ⟨ic, ra, st, hret, hheap⟩ := virt_to_real_returns K.toConsts (walk m.mainstor) h
      pageadr arn regs K.ACCTYPE_HW r hr hhost
    refine ⟨ic, ra, st, hret, ?_⟩
    rw [virt_display_loop_step arch K walk regs arn m addrwid h r hr fuel totamt pageadr pageoff
      _ ic ra st hret hheap]
    by_cases hx : ic % 65536 = 0
    · by_cases ha : APPLY_PREFIXING arch ra r.PX > r.mainlim
      · rw [if_pos ⟨hx, ha⟩]
        refine ⟨by simp, fun hne => absurd hx hne, fun _ hle => by omega, fun _ _ => by simp⟩
      · rw [if_neg (fun hc => ha hc.2), if_neg (not_not.mpr hx)]
        by_cases hz : totamt - (if PAGEFRAME_PAGESIZE arch - pageoff > totamt then totamt
            else PAGEFRAME_PAGESIZE arch - pageoff) = 0
        · rw [if_pos hz]
          exact ⟨by simp, fun hne => absurd hx hne, fun _ _ => by simp,
            fun _ hgt => absurd hgt ha⟩
        · rw [if_neg hz]
          exact ⟨by simp, fun hne => absurd hx hne, fun _ _ => by simp,
            fun _ hgt => absurd hgt ha⟩
    · rw [if_neg (fun hc => hx hc.1), if_pos hx]
      by_cases hz : totamt - (if PAGEFRAME_PAGESIZE arch - pageoff > totamt then totamt
          else PAGEFRAME_PAGESIZE arch - pageoff) = 0
      · rw [if_pos hz]
        exact ⟨by simp, fun _ => by simp, fun h0 => absurd h0 hx, fun h0 => absurd h0 hx⟩
      · rw [if_neg hz]
        exact ⟨by simp, fun _ => by simp, fun h0 => absurd h0 hx, fun h0 => absurd h0 hx⟩
  | succ k ih =>
    intro fuel totamt pageadr pageoff hf hoff hin ht h64 hprev
    obtain ⟨fuel, rfl⟩ : ∃ f, fuel = f + 1 := ⟨fuel - 1, by omega⟩
    have hS : 0 < PAGEFRAME_PAGESIZE arch := by cases arch <;> decide
    have hmul : (k + 1) * PAGEFRAME_PAGESIZE arch
        = k * PAGEFRAME_PAGESIZE arch + PAGEFRAME_PAGESIZE arch := Nat.succ_mul _ _
    obtain ⟨ic0, ra0, st0, hret0, hheap0⟩ := virt_to_real_returns K.toConsts (walk m.mainstor) h
      pageadr arn regs K.ACCTYPE_HW r hr hhost
    have h0 := hprev 0 (by omega) ic0 ra0 st0 (by simpa using hret0)
    have hadd : add64 pageadr (PAGEFRAME_PAGESIZE arch) = pageadr + PAGEFRAME_PAGESIZE arch := by
      unfold add64
      have : 0 ≤ k * PAGEFRAME_PAGESIZE arch := Nat.zero_le _
      omega
    have hpm : (if PAGEFRAME_PAGESIZE arch - pageoff > totamt then totamt
        else PAGEFRAME_PAGESIZE arch - pageoff) = PAGEFRAME_PAGESIZE arch - pageoff := by
      have : 0 ≤ k * PAGEFRAME_PAGESIZE arch := Nat.zero_le _
      rw [if_neg (by omega)]
    have hrest : totamt - (PAGEFRAME_PAGESIZE arch - pageoff) ≠ 0 := by
      have : 0 ≤ k * PAGEFRAME_PAGESIZE arch := Nat.zero_le _
      omega
    obtain ⟨ic, ra, st, hret, i1, i2, i3, i4⟩ := ih fuel
      (totamt - (PAGEFRAME_PAGESIZE arch - pageoff)) (pageadr + PAGEFRAME_PAGESIZE arch) 0
      (by omega) hS (by omega) (by omega) (by omega)
      (fun j hj ic ra st hrj => by
        have := hprev (j + 1) (by omega) ic ra st
        rw [show pageadr + (j + 1) * PAGEFRAME_PAGESIZE arch
          = pageadr + PAGEFRAME_PAGESIZE arch + j * PAGEFRAME_PAGESIZE arch by
            rw [Nat.succ_mul]; omega] at this
        exact this hrj)
    have haddr : pageadr + (k + 1) * PAGEFRAME_PAGESIZE arch
        = pageadr + PAGEFRAME_PAGESIZE arch + k * PAGEFRAME_PAGESIZE arch := by omega
    rw [haddr]
    refine ⟨ic, ra, st, hret, ?_⟩
    rw [virt_display_loop_step arch K walk regs arn m addrwid h r hr fuel totamt pageadr pageoff
      _ ic0 ra0 st0 hret0 hheap0, hpm, if_neg (fun hc => by have := h0 hc.1; omega),
      if_neg hrest, hadd]
    simp only [Nat.sub_zero] at i1 i2 i3 i4
    refine ⟨?_, fun hx => ?_, fun hx ha => ?_, fun hx ha => ?_⟩
    · exact List.mem_cons_of_mem _ (List.mem_append_right _ i1)
    · exact List.mem_cons_of_mem _ (List.mem_append_right _ (i2 hx))
    · exact List.mem_cons_of_mem _ (List.mem_append_right _ (i3 hx ha))
    · have := i4 hx ha
      show (_ :: (_ ++ _)).getLast? = _
      rw [← List.cons_append, List.getLast?_append, this]
      rfl

/-- The display loop of `alter_display_virt` hands every page of its range that
is translated to a frame within main storage, and is not preceded by a page
with an addressing exception, to `dump_abs_page`, with the offset and the
amount of the part of the range in the page: what that call writes is
written. -/
theorem virt_display_loop_dump (arch : Arch) (K : CommandConsts) (walk : StorageWalk)
    (regs : Nat) (arn : Int) (m : Machine) (addrwid : Nat) (h : Heap) (r : REGS)
    (hr : h[regs]? = some r)
    (hhost : r.sie_mode = true → ∃ p hr, r.hostregs = some p ∧ h[p]? = some hr) :
    ∀ (k fuel totamt pageadr pageoff : Nat),
      k < fuel → pageoff < PAGEFRAME_PAGESIZE arch →
      pageoff + totamt > k * PAGEFRAME_PAGESIZE arch → 1 ≤ totamt →
      pageadr + k * PAGEFRAME_PAGESIZE arch < 2 ^ 64 →
      (∀ j, j < k → ∀ ic ra st,
        (virt_to_real K.toConsts (walk m.mainstor) h true
          (pageadr + j * PAGEFRAME_PAGESIZE arch) arn regs K.ACCTYPE_HW).ret
            = some (ic, ra, st) →
        ic % 65536 = 0 → APPLY_PREFIXING arch ra r.PX ≤ r.mainlim) →
      ∀ ic ra st,
        (virt_to_real K.toConsts (walk m.mainstor) h true
          (pageadr + k * PAGEFRAME_PAGESIZE arch) arn regs K.ACCTYPE_HW).ret
            = some (ic, ra, st) →
        ic % 65536 = 0 → APPLY_PREFIXING arch ra r.PX ≤ r.mainlim →
        ∀ x ∈ (dump_abs_page arch r m (APPLY_PREFIXING arch ra r.PX)
            (pageadr + k * PAGEFRAME_PAGESIZE arch)
            (if k = 0 then pageoff else 0)
            (min (PAGEFRAME_PAGESIZE arch - (if k = 0 then pageoff else 0))
              (pageoff + totamt - k * PAGEFRAME_PAGESIZE arch
                - (if k = 0 then pageoff else 0)))
            (Char.ofNat 0) addrwid).2,
          x ∈ (virt_display_loop arch K walk true regs arn m addrwid fuel totamt pageadr pageoff
            (PAGEFRAME_PAGESIZE arch - pageoff) h).out := by
  intro k
  induction k with
  | zero =>
    intro fuel totamt pageadr pageoff hf hoff hin ht h64 _ ic ra st hret hx ha x hmem
    obtain ⟨fuel, rfl⟩ : ∃ f, fuel = f + 1 := ⟨fuel - 1, by omega⟩
    simp only [Nat.zero_mul, Nat.add_zero, Nat.sub_zero, if_true] at hret hmem
    obtain ⟨-, -, -, -, hheap⟩ := virt_to_real_returns K.toConsts (walk m.mainstor) h
      pageadr arn regs K.ACCTYPE_HW r hr hhost
    have hamt : min (PAGEFRAME_PAGESIZE arch - pageoff) (pageoff + totamt - pageoff)
        = (if PAGEFRAME_PAGESIZE arch - pageoff > totamt then totamt
            else PAGEFRAME_PAGESIZE arch - pageoff) := by
      rw [Nat.min_def]
      split_ifs <;> omega
    rw [hamt] at hmem
    rw [virt_display_loop_step arch K walk regs arn m addrwid h r hr fuel totamt pageadr pageoff
      _ ic ra st hret hheap, if_neg (fun hc => by have := hc.2; omega), if_neg (not_not.mpr hx)]
    by_cases hz : totamt - (if PAGEFRAME_PAGESIZE arch - pageoff > totamt then totamt
        else PAGEFRAME_PAGESIZE arch - pageoff) = 0
    · rw [if_pos hz]
      exact List.mem_cons_of_mem _ (List.mem_cons_of_mem _ hmem)
    · rw [if_neg hz]
      exact List.mem_cons_of_mem _ (List.mem_append_left _ (List.mem_cons_of_mem _ hmem))
  | succ k ih =>
    intro fuel totamt pageadr pageoff hf hoff hin ht h64 hprev ic ra st hret hx ha x hmem
    obtain ⟨fuel, rfl⟩ : ∃ f, fuel = f + 1 := ⟨fuel - 1, by omega⟩
    have hS : 0 < PAGEFRAME_PAGESIZE arch := by cases arch <;> decide
    have hmul : (k + 1) * PAGEFRAME_PAGESIZE arch
        = k * PAGEFRAME_PAGESIZE arch + PAGEFRAME_PAGESIZE arch := Nat.succ_mul _ _
    obtain ⟨ic0, ra0, st0, hret0, hheap0⟩ := virt_to_real_returns K.toConsts (walk m.mainstor) h
      pageadr arn regs K.ACCTYPE_HW r hr hhost
    have h0 := hprev 0 (by omega) ic0 ra0 st0 (by simpa using hret0)
    have hadd : add64 pageadr (PAGEFRAME_PAGESIZE arch) = pageadr + PAGEFRAME_PAGESIZE arch := by
      unfold add64
      have : 0 ≤ k * PAGEFRAME_PAGESIZE arch := Nat.zero_le _
      omega
    have hpm : (if PAGEFRAME_PAGESIZE arch - pageoff > totamt then totamt
        else PAGEFRAME_PAGESIZE arch - pageoff) = PAGEFRAME_PAGESIZE arch - pageoff := by
      have : 0 ≤ k * PAGEFRAME_PAGESIZE arch := Nat.zero_le _
      rw [if_neg (by omega)]
    have hrest : totamt - (PAGEFRAME_PAGESIZE arch - pageoff) ≠ 0 := by
      have : 0 ≤ k * PAGEFRAME_PAGESIZE arch := Nat.zero_le _
      omega
    have haddr : pageadr + (k + 1) * PAGEFRAME_PAGESIZE arch
        = pageadr + PAGEFRAME_PAGESIZE arch + k * PAGEFRAME_PAGESIZE arch := by omega
    have hamt : pageoff + totamt - (k + 1) * PAGEFRAME_PAGESIZE arch
        = 0 + (totamt - (PAGEFRAME_PAGESIZE arch - pageoff)) - k * PAGEFRAME_PAGESIZE arch := by
      rw [hmul]
      generalize k * PAGEFRAME_PAGESIZE arch = q at *
      omega
    rw [haddr] at hret hmem
    rw [if_neg (Nat.succ_ne_zero k), Nat.sub_zero, Nat.sub_zero, hamt] at hmem
    have i1 := ih fuel (totamt - (PAGEFRAME_PAGESIZE arch - pageoff))
      (pageadr + PAGEFRAME_PAGESIZE arch) 0
      (by omega) hS (by omega) (by omega) (by omega)
      (fun j hj ic ra st hrj => by
        have := hprev (j + 1) (by omega) ic ra st
        rw [show pageadr + (j + 1) * PAGEFRAME_PAGESIZE arch
          = pageadr + PAGEFRAME_PAGESIZE arch + j * PAGEFRAME_PAGESIZE arch by
            rw [Nat.succ_mul]; omega] at this
        exact this hrj) ic ra st hret hx ha x (by
          simp only [ite_self, Nat.sub_zero]
          exact hmem)
    rw [virt_display_loop_step arch K walk regs arn m addrwid h r hr fuel totamt pageadr pageoff
      _ ic0 ra0 st0 hret0 hheap0, hpm, if_neg (fun hc => by have := h0 hc.1; omega),
      if_neg hrest, hadd]
    simp only [Nat.sub_zero] at i1
    exact List.mem_cons_of_mem _ (List.mem_append_right _ i1)

/-- Claim C14, amended: in the display phase of `alter_display_virt` a
translation exception on a page does not end the display. For a range of at
most 64K and every page `k` of it that is not preceded by a page with an
addressing exception (whether or not the pages before it raised translation
exceptions): the page is translated; when its translation raises an exception
message HHC02329 is written for it; when it is translated to a frame within
main storage its key line is written and it is dumped: what the call of
`dump_abs_page` for the part of the range in the page writes is written, and
for a page-aligned absolute address that is the dump of the bytes of that part,
read from the frame; and when its absolute address exceeds `mainlim` the
addressing exception HHC02328 is the last message of the display. -/
theorem virt_display_continues (arch : Arch) (K : CommandConsts) (walk : StorageWalk)
    (regs : Nat) (arn : Int) (m : Machine) (h : Heap) (r : REGS) (saddr eaddr k : Nat)
    (hr : h[regs]? = some r)
    (hhost : r.sie_mode = true → ∃ p hr, r.hostregs = some p ∧ h[p]? = some hr)
    (hse : saddr ≤ eaddr) (hmax : eaddr ≤ maxadr arch) (hclamp : eaddr - saddr < 0x10000)
    (hk : saddr / PAGEFRAME_PAGESIZE arch * PAGEFRAME_PAGESIZE arch
      + k * PAGEFRAME_PAGESIZE arch ≤ eaddr)
    (hprev : ∀ j, j < k → ∀ ic ra st,
      (virt_to_real K.toConsts (walk m.mainstor) h true
        (saddr / PAGEFRAME_PAGESIZE arch * PAGEFRAME_PAGESIZE arch
          + j * PAGEFRAME_PAGESIZE arch) arn regs K.ACCTYPE_HW).ret = some (ic, ra, st) →
      ic % 65536 = 0 → APPLY_PREFIXING arch ra r.PX ≤ r.mainlim) :
    ∃ ic ra st,
      (virt_to_real K.toConsts (walk m.mainstor) h true
        (saddr / PAGEFRAME_PAGESIZE arch * PAGEFRAME_PAGESIZE arch
          + k * PAGEFRAME_PAGESIZE arch) arn regs K.ACCTYPE_HW).ret = some (ic, ra, st) ∧
      Msg.translation (saddr / PAGEFRAME_PAGESIZE arch * PAGEFRAME_PAGESIZE arch
          + k * PAGEFRAME_PAGESIZE arch) ic ∈
        (virt_display arch K walk true regs arn m saddr eaddr h).out ∧
      (ic % 65536 ≠ 0 →
        Msg.HHC02329 'V' (saddr / PAGEFRAME_PAGESIZE arch * PAGEFRAME_PAGESIZE arch
            + k * PAGEFRAME_PAGESIZE arch) (ic % 65536) (bldtrans K.toConsts r arn st) ∈
          (virt_display arch K walk true regs arn m saddr eaddr h).out) ∧
      (ic % 65536 = 0 → APPLY_PREFIXING arch ra r.PX ≤ r.mainlim →
        Msg.HHC02291_key ra (m.storkey (APPLY_PREFIXING arch ra r.PX))
            (bldtrans K.toConsts r arn st) ∈
          (virt_display arch K walk true regs arn m saddr eaddr h).out) ∧
      (ic % 65536 = 0 → APPLY_PREFIXING arch ra r.PX > r.mainlim →
        (virt_display arch K walk true regs arn m saddr eaddr h).out.getLast?
          = some (.HHC02328 'R' ra)) ∧
      (ic % 65536 = 0 → APPLY_PREFIXING arch ra r.PX ≤ r.mainlim →
        ∀ x ∈ (dump_abs_page arch r m (APPLY_PREFIXING arch ra r.PX)
            (saddr / PAGEFRAME_PAGESIZE arch * PAGEFRAME_PAGESIZE arch
              + k * PAGEFRAME_PAGESIZE arch)
            (if k = 0 then saddr % PAGEFRAME_PAGESIZE arch else 0)
            (min (PAGEFRAME_PAGESIZE arch - (if k = 0 then saddr % PAGEFRAME_PAGESIZE arch else 0))
              (eaddr + 1 - (saddr / PAGEFRAME_PAGESIZE arch * PAGEFRAME_PAGESIZE arch
                + k * PAGEFRAME_PAGESIZE arch
                + (if k = 0 then saddr % PAGEFRAME_PAGESIZE arch else 0))))
            (Char.ofNat 0) (if Arch.z900 = m.arch_mode then 64 else 32)).2,
          x ∈ (virt_display arch K walk true regs arn m saddr eaddr h).out) ∧
      (ic % 65536 = 0 → APPLY_PREFIXING arch ra r.PX ≤ r.mainlim →
        APPLY_PREFIXING arch ra r.PX % PAGEFRAME_PAGESIZE arch = 0 →
        Msg.dump (Char.ofNat 0)
          { first := APPLY_PREFIXING arch ra r.PX
              + (if k = 0 then saddr % PAGEFRAME_PAGESIZE arch else 0)
            data := (List.range
                (min (PAGEFRAME_PAGESIZE arch
                    - (if k = 0 then saddr % PAGEFRAME_PAGESIZE arch else 0))
                  (eaddr + 1 - (saddr / PAGEFRAME_PAGESIZE arch * PAGEFRAME_PAGESIZE arch
                    + k * PAGEFRAME_PAGESIZE arch
                    + (if k = 0 then saddr % PAGEFRAME_PAGESIZE arch else 0))))).map
              (fun i => m.mainstor (APPLY_PREFIXING arch ra r.PX
                + (if k = 0 then saddr % PAGEFRAME_PAGESIZE arch else 0) + i))
            skip := (if k = 0 then saddr % PAGEFRAME_PAGESIZE arch else 0) &&& 0xF
            adr := add64 (saddr / PAGEFRAME_PAGESIZE arch * PAGEFRAME_PAGESIZE arch
                + k * PAGEFRAME_PAGESIZE arch)
              (if k = 0 then saddr % PAGEFRAME_PAGESIZE arch else 0) &&& 0xFFFFFFFFFFFFFFF0
            wid := if Arch.z900 = m.arch_mode then 64 else 32
            bpg := 4
            gpl := 4 } ∈
          (virt_display arch K walk true regs arn m saddr eaddr h).out) := by
  have h64 : maxadr arch < 2 ^ 64 := by cases arch <;> decide
  have hS : 0 < PAGEFRAME_PAGESIZE arch := by cases arch <;> decide
  have hml := Nat.mod_lt saddr hS
  have hback : saddr / PAGEFRAME_PAGESIZE arch * PAGEFRAME_PAGESIZE arch
      + saddr % PAGEFRAME_PAGESIZE arch = saddr := Nat.div_add_mod' saddr _
  have hsub : sub64 eaddr saddr = eaddr - saddr := by unfold sub64; omega
  have htot : add64 (sub64 eaddr saddr) 1 = eaddr - saddr + 1 := by
    rw [hsub]; unfold add64; omega
  have hoff : sub64 saddr (saddr / PAGEFRAME_PAGESIZE arch * PAGEFRAME_PAGESIZE arch)
      = saddr % PAGEFRAME_PAGESIZE arch := by
    unfold sub64
    generalize saddr / PAGEFRAME_PAGESIZE arch * PAGEFRAME_PAGESIZE arch = q at hback ⊢
    omega
  have hkS : k = 0 ∨ k + PAGEFRAME_PAGESIZE arch ≤ k * PAGEFRAME_PAGESIZE arch + 1 := by
    cases k with
    | zero => exact Or.inl rfl
    | succ j =>
      right
      have := Nat.le_mul_of_pos_right j hS
      rw [Nat.succ_mul]
      omega
  have hfuel : k < eaddr - saddr + 1 := by
    generalize saddr / PAGEFRAME_PAGESIZE arch * PAGEFRAME_PAGESIZE arch = q at hback hk
    omega
  have hin : saddr % PAGEFRAME_PAGESIZE arch + (eaddr - saddr + 1)
      > k * PAGEFRAME_PAGESIZE arch := by
    generalize saddr / PAGEFRAME_PAGESIZE arch * PAGEFRAME_PAGESIZE arch = q at hback hk
    omega
  have hlt : saddr / PAGEFRAME_PAGESIZE arch * PAGEFRAME_PAGESIZE arch
      + k * PAGEFRAME_PAGESIZE arch < 2 ^ 64 := by
    generalize saddr / PAGEFRAME_PAGESIZE arch * PAGEFRAME_PAGESIZE arch = q at hback hk
    omega
  have hamt : saddr % PAGEFRAME_PAGESIZE arch + (eaddr - saddr + 1)
        - k * PAGEFRAME_PAGESIZE arch - (if k = 0 then saddr % PAGEFRAME_PAGESIZE arch else 0)
      = eaddr + 1 - (saddr / PAGEFRAME_PAGESIZE arch * PAGEFRAME_PAGESIZE arch
          + k * PAGEFRAME_PAGESIZE arch
          + (if k = 0 then saddr % PAGEFRAME_PAGESIZE arch else 0)) := by
    generalize saddr / PAGEFRAME_PAGESIZE arch * PAGEFRAME_PAGESIZE arch = q at hback hk
    generalize k * PAGEFRAME_PAGESIZE arch = kS at *
    split_ifs <;> omega
  have hpage : (saddr / PAGEFRAME_PAGESIZE arch * PAGEFRAME_PAGESIZE arch
      + k * PAGEFRAME_PAGESIZE arch) % PAGEFRAME_PAGESIZE arch = 0 := by
    rw [← Nat.add_mul]
    exact Nat.mul_mod_left _ _
  have hwid : (if Arch.z900 = m.arch_mode then 64 else 32) = 32
      ∨ (if Arch.z900 = m.arch_mode then 64 else 32) = 64 := by
    split_ifs
    · exact Or.inr rfl
    · exact Or.inl rfl
  unfold virt_display
  simp only [htot]
  rw [if_pos (by omega), land_PAGEFRAME_PAGEMASK arch saddr (by omega), hoff]
  obtain ⟨ic, ra, st, hret, c1, c2, c3, c4⟩ := virt_display_loop_page arch K walk regs arn m
    (if Arch.z900 = m.arch_mode then 64 else 32) h r hr hhost k (eaddr - saddr + 1)
    (eaddr - saddr + 1) (saddr / PAGEFRAME_PAGESIZE arch * PAGEFRAME_PAGESIZE arch)
    (saddr % PAGEFRAME_PAGESIZE arch) hfuel hml hin (by omega) hlt hprev
  have hd := virt_display_loop_dump arch K walk regs arn m
    (if Arch.z900 = m.arch_mode then 64 else 32) h r hr hhost k (eaddr - saddr + 1)
    (eaddr - saddr + 1) (saddr / PAGEFRAME_PAGESIZE arch * PAGEFRAME_PAGESIZE arch)
    (saddr % PAGEFRAME_PAGESIZE arch) hfuel hml hin (by omega) hlt hprev ic ra st hret
  rw [hamt] at hd
  refine ⟨ic, ra, st, hret, c1, c2, c3, c4, hd, fun hx ha hal => ?_⟩
  apply hd hx ha
  rw [dump_abs_page_ok arch r m _ _ _ _ _ _ hal hpage (by split_ifs <;> omega)
    (Nat.min_le_left _ _) hwid ha]
  exact List.mem_singleton_self _

/-- The display of `1FFE.4` with the page at `0x1000` invalid: the second page
of the range, at `0x2000`, is translated, its key line is written and its two
bytes of the range are dumped although the translation of the first page
raised an exception. -/
theorem virt_display_continues_witness :
    ∃ ic ra st,
      (virt_to_real example_command_consts.toConsts (example_walk_hole example_machine.mainstor)
        [example_dat_regs] true
        (0x1FFE / PAGEFRAME_PAGESIZE .s390 * PAGEFRAME_PAGESIZE .s390
          + 1 * PAGEFRAME_PAGESIZE .s390) 0 0 example_command_consts.ACCTYPE_HW).ret
        = some (ic, ra, st) ∧
      Msg.translation (0x1FFE / PAGEFRAME_PAGESIZE .s390 * PAGEFRAME_PAGESIZE .s390
          + 1 * PAGEFRAME_PAGESIZE .s390) ic ∈
        (virt_display .s390 example_command_consts example_walk_hole true 0 0 example_machine
          0x1FFE 0x2001 [example_dat_regs]).out ∧
      (ic % 65536 ≠ 0 →
        Msg.HHC02329 'V' (0x1FFE / PAGEFRAME_PAGESIZE .s390 * PAGEFRAME_PAGESIZE .s390
            + 1 * PAGEFRAME_PAGESIZE .s390) (ic % 65536)
            (bldtrans example_command_consts.toConsts example_dat_regs 0 st) ∈
          (virt_display .s390 example_command_consts example_walk_hole true 0 0 example_machine
            0x1FFE 0x2001 [example_dat_regs]).out) ∧
      (ic % 65536 = 0 → APPLY_PREFIXING .s390 ra example_dat_regs.PX ≤ example_dat_regs.mainlim →
        Msg.HHC02291_key ra
            (example_machine.storkey (APPLY_PREFIXING .s390 ra example_dat_regs.PX))
            (bldtrans example_command_consts.toConsts example_dat_regs 0 st) ∈
          (virt_display .s390 example_command_consts example_walk_hole true 0 0 example_machine
            0x1FFE 0x2001 [example_dat_regs]).out) ∧
      (ic % 65536 = 0 → APPLY_PREFIXING .s390 ra example_dat_regs.PX > example_dat_regs.mainlim →
        (virt_display .s390 example_command_consts example_walk_hole true 0 0 example_machine
            0x1FFE 0x2001 [example_dat_regs]).out.getLast?
          = some (.HHC02328 'R' ra)) ∧
      (ic % 65536 = 0 → APPLY_PREFIXING .s390 ra example_dat_regs.PX ≤ example_dat_regs.mainlim →
        ∀ x ∈ (dump_abs_page .s390 example_dat_regs example_machine
            (APPLY_PREFIXING .s390 ra example_dat_regs.PX)
            (0x1FFE / PAGEFRAME_PAGESIZE .s390 * PAGEFRAME_PAGESIZE .s390
              + 1 * PAGEFRAME_PAGESIZE .s390)
            (if 1 = 0 then 0x1FFE % PAGEFRAME_PAGESIZE .s390 else 0)
            (min (PAGEFRAME_PAGESIZE .s390
                - (if 1 = 0 then 0x1FFE % PAGEFRAME_PAGESIZE .s390 else 0))
              (0x2001 + 1 - (0x1FFE / PAGEFRAME_PAGESIZE .s390 * PAGEFRAME_PAGESIZE .s390
                + 1 * PAGEFRAME_PAGESIZE .s390
                + (if 1 = 0 then 0x1FFE % PAGEFRAME_PAGESIZE .s390 else 0))))
            (Char.ofNat 0) (if Arch.z900 = example_machine.arch_mode then 64 else 32)).2,
          x ∈ (virt_display .s390 example_command_consts example_walk_hole true 0 0
            example_machine 0x1FFE 0x2001 [example_dat_regs]).out) ∧
      (ic % 65536 = 0 → APPLY_PREFIXING .s390 ra example_dat_regs.PX ≤ example_dat_regs.mainlim →
        APPLY_PREFIXING .s390 ra example_dat_regs.PX % PAGEFRAME_PAGESIZE .s390 = 0 →
        Msg.dump (Char.ofNat 0)
          { first := APPLY_PREFIXING .s390 ra example_dat_regs.PX
              + (if 1 = 0 then 0x1FFE % PAGEFRAME_PAGESIZE .s390 else 0)
            data := (List.range
                (min (PAGEFRAME_PAGESIZE .s390
                    - (if 1 = 0 then 0x1FFE % PAGEFRAME_PAGESIZE .s390 else 0))
                  (0x2001 + 1 - (0x1FFE / PAGEFRAME_PAGESIZE .s390 * PAGEFRAME_PAGESIZE .s390
                    + 1 * PAGEFRAME_PAGESIZE .s390
                    + (if 1 = 0 then 0x1FFE % PAGEFRAME_PAGESIZE .s390 else 0))))).map
              (fun i => example_machine.mainstor (APPLY_PREFIXING .s390 ra example_dat_regs.PX
                + (if 1 = 0 then 0x1FFE % PAGEFRAME_PAGESIZE .s390 else 0) + i))
            skip := (if 1 = 0 then 0x1FFE % PAGEFRAME_PAGESIZE .s390 else 0) &&& 0xF
            adr := add64 (0x1FFE / PAGEFRAME_PAGESIZE .s390 * PAGEFRAME_PAGESIZE .s390
                + 1 * PAGEFRAME_PAGESIZE .s390)
              (if 1 = 0 then 0x1FFE % PAGEFRAME_PAGESIZE .s390 else 0) &&& 0xFFFFFFFFFFFFFFF0
            wid := if Arch.z900 = example_machine.arch_mode then 64 else 32
            bpg := 4
            gpl := 4 } ∈
          (virt_display .s390 example_command_consts example_walk_hole true 0 0
            example_machine 0x1FFE 0x2001 [example_dat_regs]).out) :=
  virt_display_continues .s390 example_command_consts example_walk_hole 0 0 example_machine
    [example_dat_regs] example_dat_regs 0x1FFE 0x2001 1 rfl
    (fun hs => absurd hs (by decide)) (by decide) (by decide) (by decide) (by decide)
    (fun j hj ic ra st hret hx => by
      have hj0 : j = 0 := by omega
      subst hj0
      have hv : (virt_to_real example_command_consts.toConsts
          (example_walk_hole example_machine.mainstor) [example_dat_regs] true
          (0x1FFE / PAGEFRAME_PAGESIZE .s390 * PAGEFRAME_PAGESIZE .s390
            + 0 * PAGEFRAME_PAGESIZE .s390) 0 0 example_command_consts.ACCTYPE_HW).ret
          = some (0x11, 0, 0) := by decide
      rw [hv] at hret
      simp only [Option.some.injEq, Prod.mk.injEq] at hret
      obtain ⟨rfl, -, -⟩ := hret
      exact absurd hx (by decide))

/-- Claim C14 fails: the page at `0x1000` raises a page-translation exception,
and the display goes on to the page at `0x2000`, which is translated and
dumped. -/
theorem virt_display_after_translation_exception :
    (arch_alter_display_virt .s390 example_command_consts example_walk_hole
      [example_dat_regs] example_machine true 0 1 [['1', 'F', 'F', 'E', '.', '4']]).out =
    [.translation 0x1000 0x11, .HHC02329 'V' 0x1000 0x11 "(primary)",
     .translation 0x2000 0, .HHC02291_key 0x2000 6 "(primary)",
     .dump (Char.ofNat 0)
       { first := 0x2000, data := [0, 0], skip := 0, adr := 0x2000, wid := 32, bpg := 4,
         gpl := 4 }] := by
  decide

theorem virt_to_real_example_frame (stor : Nat → Nat) (v : Nat) :
    virt_to_real example_command_consts.toConsts (example_walk_frame stor) [example_z900_regs]
      true v 0 0 example_command_consts.ACCTYPE_HW =
    ⟨[example_z900_regs], some (0, 0x2000 + v % 4096, 0), [v / 4096]⟩ := rfl

/-- The loop of `disasm_stor` with the end address `0xFFFFFFFFFFFFFFFF`, every
page mapped to a frame of storage that holds zeros: from every start address
the loop has not ended after any number of iterations, each of which
translates an address and displays an instruction of two bytes. -/
theorem disasm_loop_wraps :
    ∀ (fuel saddr : Nat) (stid : Int), saddr < 2 ^ 64 →
      (disasm_loop .z900 example_command_consts example_walk_frame true 0 'V' example_machine
        0xFFFFFFFFFFFFFFFF fuel saddr stid [example_z900_regs]).exit = some .unfinished ∧
      (disasm_loop .z900 example_command_consts example_walk_frame true 0 'V' example_machine
        0xFFFFFFFFFFFFFFFF fuel saddr stid [example_z900_regs]).out.length = 2 * fuel := by
  intro fuel
  induction fuel with
  | zero => intro saddr stid _; exact ⟨rfl, rfl⟩
  | succ fuel ih =>
    intro saddr stid hs
    have hml : saddr % 4096 < 4096 := Nat.mod_lt _ (by decide)
    have hpx : APPLY_PREFIXING .z900 (0x2000 + saddr % 4096) 0 = 0x2000 + saddr % 4096 := by
      rw [APPLY_PREFIXING_eq .z900 _ 0 (by simp only [maxadr]; omega) (by decide)]
      simp only [PREFIXING_FRAME]
      rw [if_neg (by omega), if_neg (by omega)]
    obtain ⟨i1, i2⟩ := ih (add64 saddr 2) 0 (by unfold add64; exact Nat.mod_lt _ (by decide))
    rw [disasm_loop]
    rw [if_pos (by omega)]
    simp only [show ¬ ('V' = 'R') by decide, if_false, virt_to_real_example_frame]
    have hg : ([example_z900_regs] : Heap).getD 0 REGS.uninit = example_z900_regs := rfl
    simp only [hg]
    have hPX : example_z900_regs.PX = 0 := rfl
    have hlim : example_z900_regs.mainlim = 0xFFFF := rfl
    have hst : example_machine.mainstor = fun _ => 0 := rfl
    simp only [hPX, hpx, hlim, hst, ILC]
    rw [if_neg (by decide), if_neg (by omega)]
    simp only [show (0 : Nat) < 0x40 by decide, if_true]
    rw [if_neg (by unfold add64; omega)]
    simp only [← hst]
    refine ⟨i1, ?_⟩
    simp only [List.singleton_append, List.length_cons, i2]
    omega

/-- Claim C20 fails in z/Architecture mode, where the addition `saddr += ilc`
wraps at `2^64`: for the operand `FFFFFFFFFFFFFFFE.2`, with DAT on, every page
mapped to a frame of storage that holds zeros (instructions of two bytes), the
loop of `disasm_stor` has not ended after any number of iterations, `0x8000`
or more, each of which translates an address and displays an instruction. -/
theorem disasm_stor_wraps (fuel : Nat) :
    (arch_disasm_stor .z900 example_command_consts example_walk_frame [example_z900_regs]
      example_machine true 0 1
      [['F', 'F', 'F', 'F', 'F', 'F', 'F', 'F', 'F', 'F', 'F', 'F', 'F', 'F', 'F', 'E', '.',
        '2']] fuel).exit = some .unfinished ∧
    (arch_disasm_stor .z900 example_command_consts example_walk_frame [example_z900_regs]
      example_machine true 0 1
      [['F', 'F', 'F', 'F', 'F', 'F', 'F', 'F', 'F', 'F', 'F', 'F', 'F', 'F', 'F', 'E', '.',
        '2']] fuel).out.length = 2 * fuel := by
  have hp : parse_range (some ['F', 'F', 'F', 'F', 'F', 'F', 'F', 'F', 'F', 'F', 'F', 'F', 'F',
      'F', 'F', 'E', '.', '2']) (maxadr .z900) false
      = .ok 0 0xFFFFFFFFFFFFFFFE 0xFFFFFFFFFFFFFFFF [] := by decide
  have hl : command_letter ['F', 'F', 'F', 'F', 'F', 'F', 'F', 'F', 'F', 'F', 'F', 'F', 'F',
      'F', 'F', 'E', '.', '2'] = 'F' := by decide
  have hlr : LIMIT_RANGE 0xFFFFFFFFFFFFFFFE 0xFFFFFFFFFFFFFFFF _64_KILOBYTE
      = 0xFFFFFFFFFFFFFFFF := by decide
  obtain ⟨i1, i2⟩ := disasm_loop_wraps fuel 0xFFFFFFFFFFFFFFFE (-1) (by decide)
  unfold arch_disasm_stor
  simp only [ne_eq, not_true_eq_false, if_false, List.getElem?_cons_zero, hl,
    show ¬ ('F' = 'R' ∨ 'F' = 'V' ∨ 'F' = 'P' ∨ 'F' = 'H') by decide, hp, Option.map_some',
    show example_z900_regs.real_mode = false from rfl, Bool.false_eq_true,
    show example_z900_regs.mainlim ≠ 0 by decide, hlr, i1, i2]
  exact ⟨rfl, trivial⟩

theorem ILC_bounds (opcode : Nat) : 2 ≤ ILC opcode ∧ ILC opcode ≤ 6 := by
  unfold ILC
  split_ifs <;> omega

theorem add64_ILC (saddr eaddr opcode : Nat) (hle : saddr ≤ eaddr) (he : eaddr + 6 < 2 ^ 64) :
    (eaddr + 2 - add64 saddr (ILC opcode)) / 2 + 1 ≤ (eaddr + 2 - saddr) / 2 := by
  obtain ⟨i1, i2⟩ := ILC_bounds opcode
  unfold add64
  rw [Nat.mod_eq_of_lt (by omega)]
  omega

/-- The loop of `disasm_stor` ends when the addition `saddr += ilc` cannot wrap,
that is when the end address is below `2^64 - 6`: after one iteration for the
final test and one for each two bytes up to the end address. -/
theorem disasm_loop_ends (arch : Arch) (K : CommandConsts) (walk : StorageWalk)
    (malloc_ok : Bool) (regs : Nat) (type : Char) (m : Machine) (eaddr : Nat)
    (he : eaddr + 6 < 2 ^ 64) :
    ∀ (fuel saddr : Nat) (stid : Int) (h : Heap), (eaddr + 2 - saddr) / 2 < fuel →
      (disasm_loop arch K walk malloc_ok regs type m eaddr fuel saddr stid h).exit
        ≠ some .unfinished := by
  intro fuel
  induction fuel with
  | zero => intro saddr stid h hf; omega
  | succ fuel ih =>
    intro saddr stid h hf
    rw [disasm_loop]
    by_cases hle : saddr ≤ eaddr
    · rw [if_pos hle]
      simp only []
      split
      · exact fun hc => by simp at hc
      · split_ifs <;> first
          | (intro hc; simp at hc; done)
          | exact ih _ _ _ (Nat.lt_of_lt_of_le
              (Nat.lt_of_succ_le (add64_ILC saddr eaddr _ hle he)) (by omega))
    · rw [if_neg hle]
      exact fun hc => by simp at hc

theorem exit_getD_ne (o : Option Exit) (h : o ≠ some .unfinished) :
    some (o.getD .returned) ≠ some .unfinished := by
  cases o with
  | none => exact fun hc => by simp at hc
  | some e => simpa using h

/-- The function `disasm_stor` returns or stops on a null pointer within
`0x8000` instructions whenever the ranges parsed end below `2^64 - 6`, as
every range does in S/370 and ESA/390 mode. -/
theorem arch_disasm_stor_ends (arch : Arch) (K : CommandConsts) (walk : StorageWalk)
    (h : Heap) (m : Machine) (malloc_ok : Bool) (regs : Nat) (argc : Int)
    (argv : List (List Char))
    (hend : arch = .z900 → ∀ opnd n saddr eaddr newval,
      parse_range (some opnd) (maxadr arch) false = .ok n saddr eaddr newval →
      eaddr + 6 < 2 ^ 64) :
    (arch_disasm_stor arch K walk h m malloc_ok regs argc argv 0x8001).exit
      ≠ some .unfinished := by
  unfold arch_disasm_stor
  split_ifs
  · exact fun hc => by simp at hc
  · split
    · exact fun hc => by simp at hc
    · simp only []
      split
      · exact fun hc => by simp at hc
      · split
        · exact fun hc => by simp at hc
        · rename_i n saddr eaddr newval hp
          split
          · exact fun hc => by simp at hc
          · split_ifs
            · exact fun hc => by simp at hc
            · obtain ⟨-, -, h1, h2, h3, -⟩ := parse_range_ok _ _ _ _ _ _ _ hp
              have he6 : eaddr + 6 < 2 ^ 64 := by
                cases arch with
                | z900 => exact hend rfl _ _ _ _ _ hp
                | s370 => simp only [maxadr] at h2; omega
                | s390 => simp only [maxadr] at h2; omega
              have hsub : sub64 eaddr saddr = eaddr - saddr := by unfold sub64; omega
              have hL : saddr ≤ LIMIT_RANGE saddr eaddr _64_KILOBYTE ∧
                  LIMIT_RANGE saddr eaddr _64_KILOBYTE ≤ eaddr ∧
                  LIMIT_RANGE saddr eaddr _64_KILOBYTE - saddr < 0x10000 := by
                unfold LIMIT_RANGE _64_KILOBYTE
                rw [hsub]
                by_cases hc : eaddr - saddr ≥ 0x10000
                · rw [if_pos hc]
                  have : sub64 (add64 saddr 0x10000) 1 = saddr + 0xFFFF := by
                    unfold sub64 add64; omega
                  rw [this]
                  omega
                · rw [if_neg hc]
                  omega
              exact exit_getD_ne _ (disasm_loop_ends _ _ _ _ _ _ _ _ (by omega) _ _ _ _
                (by omega))

/-! ## The working copy of `virt_to_real` -/

/-- Claim C22 fails: when no block can be allocated, `copy_regs` returns the
null pointer and `virt_to_real`, which does not test it, does not return: it
reads through the null pointer (`setjmp (regs->progjmp)`). No translation is
attempted and the heap is left as it was. This holds for every input; for the
context of `example_regs` the pointer `copy_regs` returns is null. -/
theorem virt_to_real_null_copy (K : Consts) (walk : TableWalk) (h : Heap) (vaddr : Nat)
    (arn : Int) (iregs : Nat) (acctype : Int) :
    (virt_to_real K walk h false vaddr arn iregs acctype).ret = none ∧
    (virt_to_real K walk h false vaddr arn iregs acctype).fetched = [] ∧
    (virt_to_real K walk h false vaddr arn iregs acctype).heap = h ∧
    (copy_regs [example_regs] 0 false).ret = some none := by
  refine ⟨?_, ?_, ?_, by decide⟩
  all_goals
    unfold virt_to_real
    cases hr : h[iregs]? with
    | none => simp [copy_regs, hr]
    | some r => simp [copy_regs, hr]

/-- Claim C24: when `acctype` is `ACCTYPE_INSTFETCH`, `virt_to_real` translates
in the instruction space whatever access register number is passed: two calls
that differ only in `arn` leave the same heap, return the same code, real
address and `stid`, and fetch the same table entries, which are those of the
call with `arn = USE_INST_SPACE`. -/
theorem virt_to_real_instfetch (K : Consts) (walk : TableWalk) (h : Heap) (malloc_ok : Bool)
    (vaddr : Nat) (arn1 arn2 : Int) (iregs : Nat) :
    virt_to_real K walk h malloc_ok vaddr arn1 iregs K.ACCTYPE_INSTFETCH =
      virt_to_real K walk h malloc_ok vaddr arn2 iregs K.ACCTYPE_INSTFETCH ∧
    virt_to_real K walk h malloc_ok vaddr arn1 iregs K.ACCTYPE_INSTFETCH =
      virt_to_real K walk h malloc_ok vaddr K.USE_INST_SPACE iregs K.ACCTYPE_INSTFETCH := by
  constructor <;>
  · unfold virt_to_real
    simp only [if_true]

/-- Instruction fetch for the guest of `example_heap`: the access register
numbers 0 and 7 give the same result. -/
theorem virt_to_real_instfetch_example :
    (virt_to_real example_consts example_walk example_heap true 0x5000 0 1
      example_consts.ACCTYPE_INSTFETCH).ret =
    (virt_to_real example_consts example_walk example_heap true 0x5000 7 1
      example_consts.ACCTYPE_INSTFETCH).ret := by
  decide

/-! ## Prefixing twice -/

/-- Claim C25 fails: in ESA/390 mode with the prefix `0x5000`, the real address
`0x100` has the absolute address `0x5100`, and applying the transform to
`0x5100` gives `0x100` back, not `0x5100`. -/
theorem APPLY_PREFIXING_not_idempotent :
    APPLY_PREFIXING .s390 0x100 0x5000 = 0x5100 ∧
    APPLY_PREFIXING .s390 (APPLY_PREFIXING .s390 0x100 0x5000) 0x5000 = 0x100 ∧
    APPLY_PREFIXING .s390 (APPLY_PREFIXING .s390 0x100 0x5000) 0x5000
      ≠ APPLY_PREFIXING .s390 0x100 0x5000 := by
  decide

theorem APPLY_PREFIXING_le (arch : Arch) (a px : Nat) (ha : a ≤ maxadr arch)
    (hpx : is_prefix_value arch px) : APPLY_PREFIXING arch a px ≤ maxadr arch := by
  obtain ⟨hple, hpf⟩ := prefix_value_props arch px hpx
  rw [APPLY_PREFIXING_eq arch a px ha hpx]
  cases arch <;> simp only [PREFIXING_FRAME, maxadr] at * <;> split_ifs <;> omega

/-- Claim C25, amended: the prefixing transform is a function of the real
address and the prefix, and applying it twice with the same prefix gives the
real address back: for every address `a` up to the address limit and every
prefix value `p`, `toAbsolute (toAbsolute (a, p), p) = a`. Applying it twice
gives the same as applying it once exactly for the addresses the transform
leaves unchanged, which are all addresses when the prefix is zero. -/
theorem APPLY_PREFIXING_involution (arch : Arch) (a p : Nat) (ha : a ≤ maxadr arch)
    (hp : is_prefix_value arch p) :
    APPLY_PREFIXING arch (APPLY_PREFIXING arch a p) p = a ∧
    (APPLY_PREFIXING arch (APPLY_PREFIXING arch a p) p = APPLY_PREFIXING arch a p ↔
      APPLY_PREFIXING arch a p = a) ∧
    (p = 0 → APPLY_PREFIXING arch a p = a) := by
  obtain ⟨hple, hpf⟩ := prefix_value_props arch p hp
  have hle := APPLY_PREFIXING_le arch a p ha hp
  have hinv : APPLY_PREFIXING arch (APPLY_PREFIXING arch a p) p = a := by
    rw [APPLY_PREFIXING_eq arch _ p hle hp, APPLY_PREFIXING_eq arch a p ha hp]
    cases arch <;> simp only [PREFIXING_FRAME, maxadr] at * <;> split_ifs <;> omega
  refine ⟨hinv, ?_, ?_⟩
  · rw [hinv]
    exact ⟨fun h => h.symm, fun h => h.symm⟩
  · intro h0
    rw [APPLY_PREFIXING_eq arch a p ha hp]
    cases arch <;> simp only [PREFIXING_FRAME, maxadr] at * <;> split_ifs <;> omega

/-- With the prefix `0x5000`, the address `0x5100` goes to `0x100` and back. -/
theorem APPLY_PREFIXING_involution_witness :
    APPLY_PREFIXING .s390 (APPLY_PREFIXING .s390 0x5100 0x5000) 0x5000 = 0x5100 ∧
    (APPLY_PREFIXING .s390 (APPLY_PREFIXING .s390 0x5100 0x5000) 0x5000
        = APPLY_PREFIXING .s390 0x5100 0x5000 ↔
      APPLY_PREFIXING .s390 0x5100 0x5000 = 0x5100) ∧
    ((0x5000 : Nat) = 0 → APPLY_PREFIXING .s390 0x5100 0x5000 = 0x5100) :=
  APPLY_PREFIXING_involution .s390 0x5100 0x5000 (by decide) (by decide)

/-! ## The links of the working copies -/

/-- Claim C23: for every live context (a context of the heap whose host
context, when it is an SIE guest, is in the heap), the contexts `copy_regs`
produces are new structures after the live ones, which are unchanged, and they
are linked only to each other. For a context not in SIE mode the host link of
the copy is the copy itself and its guest link is null. For an SIE guest the
host link of the copy is the copy of the host, made in the structure after
it; the host link of that host copy is itself and its guest link is the guest
copy; the guest link of the guest copy is itself. No link of a copy designates
a live context, and every copy is marked `ghostregs`. -/
theorem copy_regs_links (h : Heap) (regs : Nat) (r : REGS)
    (hr : h[regs]? = some r)
    (hhost : r.sie_mode = true → ∃ p hr, r.hostregs = some p ∧ h[p]? = some hr) :
    (copy_regs h regs true).ret = some (some h.length) ∧
    (copy_regs h regs true).heap.take h.length = h ∧
    ∃ c, (copy_regs h regs true).heap[h.length]? = some c ∧ c.ghostregs = true ∧
      (r.sie_mode = false →
        c.hostregs = some h.length ∧ c.guestregs = none) ∧
      (r.sie_mode = true →
        c.hostregs = some (h.length + 1) ∧ c.guestregs = some h.length ∧
        ∃ hc, (copy_regs h regs true).heap[h.length + 1]? = some hc ∧ hc.ghostregs = true ∧
          hc.hostregs = some (h.length + 1) ∧ hc.guestregs = some h.length) ∧
      (∀ p, c.hostregs = some p ∨ c.guestregs = some p → h.length ≤ p) ∧
      (∀ hc p, r.sie_mode = true → (copy_regs h regs true).heap[h.length + 1]? = some hc →
        hc.hostregs = some p ∨ hc.guestregs = some p → h.length ≤ p) := by
  refine ⟨(copy_regs_ok h regs r hr hhost).1, (copy_regs_spec h regs true).1, ?_⟩
  by_cases hs : r.sie_mode = true
  · obtain ⟨p, hrr, hp, hhp⟩ := hhost hs
    have hplt : p < h.length := (List.getElem?_eq_some.mp hhp).1
    simp [copy_regs, hr, hs, hp, hhp, hplt, List.getElem?_append, List.getElem_append_right]
    refine ⟨fun q hq => by omega, ?_⟩
    rintro hc q rfl hq
    simp only [Option.some.injEq] at hq
    omega
  · simp [copy_regs, hr, hs]
    split_ifs <;> simp [List.getElem_append_right]

/-- The copies of the SIE guest of `example_heap` and of its host. -/
theorem copy_regs_links_witness :
    (copy_regs example_heap 1 true).ret = some (some example_heap.length) ∧
    (copy_regs example_heap 1 true).heap.take example_heap.length = example_heap ∧
    ∃ c, (copy_regs example_heap 1 true).heap[example_heap.length]? = some c ∧
      c.ghostregs = true ∧
      (example_guest.sie_mode = false →
        c.hostregs = some example_heap.length ∧ c.guestregs = none) ∧
      (example_guest.sie_mode = true →
        c.hostregs = some (example_heap.length + 1) ∧
        c.guestregs = some example_heap.length ∧
        ∃ hc, (copy_regs example_heap 1 true).heap[example_heap.length + 1]? = some hc ∧
          hc.ghostregs = true ∧
          hc.hostregs = some (example_heap.length + 1) ∧
          hc.guestregs = some example_heap.length) ∧
      (∀ p, c.hostregs = some p ∨ c.guestregs = some p → example_heap.length ≤ p) ∧
      (∀ hc p, example_guest.sie_mode = true →
        (copy_regs example_heap 1 true).heap[example_heap.length + 1]? = some hc →
        hc.hostregs = some p ∨ hc.guestregs = some p → example_heap.length ≤ p) :=
  copy_regs_links example_heap 1 example_guest rfl (fun _ => ⟨0, example_host, rfl, rfl⟩)

/-! ## Commands that write nothing, and the frame of an alteration -/

/-- Claim C26: for every operand on which `parse_range` returns `-1`,
`alter_display_real_or_abs` and `alter_display_virt` return with main storage
and the heap of contexts as they were, having written the one message of
`parse_range`, which is no translation and no page dump. -/
theorem parse_error_no_effect (arch : Arch) :
    (∀ (regs : REGS) (m : Machine) (argv : List (List Char)),
      (parse_range argv[1]? (maxadr arch) true).rc = -1 →
      ∃ e, parse_range argv[1]? (maxadr arch) true = .error e ∧
        arch_alter_display_real_or_abs arch regs m 2 argv = some (m, [e.msg])) ∧
    (∀ (K : CommandConsts) (walk : StorageWalk) (h : Heap) (m : Machine) (malloc_ok : Bool)
        (regs : Nat) (argv : List (List Char)) (opnd : List Char),
      argv[0]? = some opnd →
      (parse_range (some (space_operand opnd)) (maxadr arch) true).rc = -1 →
      ∃ e, parse_range (some (space_operand opnd)) (maxadr arch) true = .error e ∧
        (arch_alter_display_virt arch K walk h m malloc_ok regs 1 argv).mainstor = m.mainstor ∧
        (arch_alter_display_virt arch K walk h m malloc_ok regs 1 argv).heap = h ∧
        (arch_alter_display_virt arch K walk h m malloc_ok regs 1 argv).out = [e.msg] ∧
        (arch_alter_display_virt arch K walk h m malloc_ok regs 1 argv).exit
          = some .returned) ∧
    (∀ e : ParseError, dumped [e.msg] = [] ∧ e.msg.is_display = false ∧
      ∀ v ic, e.msg ≠ .translation v ic) := by
  refine ⟨?_, ?_, ?_⟩
  · intro regs m argv hrc
    cases hp : parse_range argv[1]? (maxadr arch) true with
    | ok n saddr eaddr newval =>
      rw [hp] at hrc
      simp only [Parsed.rc] at hrc
      omega
    | error e =>
      refine ⟨e, rfl, ?_⟩
      unfold arch_alter_display_real_or_abs
      simp only [hp, ne_eq, not_true_eq_false, if_false]
  · intro K walk h m malloc_ok regs argv opnd hargv hrc
    cases hp : parse_range (some (space_operand opnd)) (maxadr arch) true with
    | ok n saddr eaddr newval =>
      rw [hp] at hrc
      simp only [Parsed.rc] at hrc
      omega
    | error e =>
      refine ⟨e, rfl, ?_⟩
      unfold arch_alter_display_virt
      simp only [hargv, hp, ne_eq, not_true_eq_false, if_false, and_self]
  · intro e
    cases e <;> exact ⟨rfl, rfl, fun v ic hc => by simp [ParseError.msg] at hc⟩

/-- The operand `1000=AAB`, with an odd number of hex digits, given to the
commands `abs` and `v`. -/
theorem parse_error_no_effect_witness :
    (∃ e, parse_range [['a', 'b', 's'], ['1', '0', '0', '0', '=', 'A', 'A', 'B']][1]?
          (maxadr .s390) true = .error e ∧
        arch_alter_display_real_or_abs .s390 example_regs example_machine 2
          [['a', 'b', 's'], ['1', '0', '0', '0', '=', 'A', 'A', 'B']]
          = some (example_machine, [e.msg])) ∧
    (∃ e, parse_range (some (space_operand ['1', '0', '0', '0', '=', 'A', 'A', 'B']))
          (maxadr .s390) true = .error e ∧
        (arch_alter_display_virt .s390 example_command_consts example_walk_hole
          [example_dat_regs] example_machine true 0 1
          [['1', '0', '0', '0', '=', 'A', 'A', 'B']]).mainstor = example_machine.mainstor ∧
        (arch_alter_display_virt .s390 example_command_consts example_walk_hole
          [example_dat_regs] example_machine true 0 1
          [['1', '0', '0', '0', '=', 'A', 'A', 'B']]).heap = [example_dat_regs] ∧
        (arch_alter_display_virt .s390 example_command_consts example_walk_hole
          [example_dat_regs] example_machine true 0 1
          [['1', '0', '0', '0', '=', 'A', 'A', 'B']]).out = [e.msg] ∧
        (arch_alter_display_virt .s390 example_command_consts example_walk_hole
          [example_dat_regs] example_machine true 0 1
          [['1', '0', '0', '0', '=', 'A', 'A', 'B']]).exit = some .returned) :=
  ⟨(parse_error_no_effect .s390).1 example_regs example_machine
      [['a', 'b', 's'], ['1', '0', '0', '0', '=', 'A', 'A', 'B']] (by decide),
   (parse_error_no_effect .s390).2.1 example_command_consts example_walk_hole
      [example_dat_regs] example_machine true 0 [['1', '0', '0', '0', '=', 'A', 'A', 'B']]
      ['1', '0', '0', '0', '=', 'A', 'A', 'B'] rfl (by decide)⟩

/-- The alteration loop of `alter_display_real_or_abs` changes storage only at
absolute addresses of its bytes that do not exceed `mainlim`. -/
theorem alter_loop_frame (arch : Arch) (regs : REGS) (c : Char) (saddr : Nat) :
    ∀ (bs : List Nat) (i : Nat) (stor : Nat → Nat) (x : Nat),
      (alter_loop arch regs c saddr i bs stor).1 x ≠ stor x →
      ∃ j, j < bs.length ∧ x = to_absolute arch regs c (add64 saddr (i + j)) ∧
        x ≤ regs.mainlim := by
  intro bs
  induction bs with
  | nil => intro i stor x hx; exact absurd rfl hx
  | cons b bs ih =>
    intro i stor x hx
    unfold alter_loop at hx
    simp only [] at hx
    by_cases h0 : to_absolute arch regs c (add64 saddr i) > regs.mainlim
    · rw [if_pos h0] at hx
      exact absurd rfl hx
    · rw [if_neg h0] at hx
      by_cases hxa : x = to_absolute arch regs c (add64 saddr i)
      · exact ⟨0, by simp, by rw [Nat.add_zero]; exact hxa, by rw [hxa]; omega⟩
      · have hne : (alter_loop arch regs c saddr (i + 1) bs
            (Function.update stor (to_absolute arch regs c (add64 saddr i)) b)).1 x ≠
            Function.update stor (to_absolute arch regs c (add64 saddr i)) b x := by
          rw [Function.update_noteq hxa]
          exact hx
        obtain ⟨j, hj, hxj, hle⟩ := ih (i + 1) _ x hne
        exact ⟨j + 1, by simpa using hj, by rw [hxj]; congr 2; omega, hle⟩

/-- The display loop of `alter_display_real_or_abs` ends within `totamt`
iterations. -/
theorem display_loop_returns (arch : Arch) (regs : REGS) (m : Machine) (c : Char)
    (addrwid : Nat) :
    ∀ (fuel totamt pageadr pageoff pageamt : Nat),
      1 ≤ totamt → totamt ≤ fuel → 1 ≤ pageamt →
      ∃ out, display_loop arch regs m c addrwid fuel totamt pageadr pageoff pageamt
        = some out := by
  intro fuel
  induction fuel with
  | zero => intro totamt _ _ _ h1 h2 _; omega
  | succ fuel ih =>
    intro totamt pageadr pageoff pageamt h1 h2 h3
    have hS : 1 ≤ PAGEFRAME_PAGESIZE arch := by cases arch <;> decide
    rw [display_loop]
    simp only []
    by_cases ha : to_absolute arch regs c pageadr > regs.mainlim
    · rw [if_pos ha]; exact ⟨_, rfl⟩
    · rw [if_neg ha]
      by_cases hz : totamt - (if pageamt > totamt then totamt else pageamt) = 0
      · rw [if_pos hz]; exact ⟨_, rfl⟩
      · rw [if_neg hz]
        obtain ⟨out, ho⟩ := ih (totamt - (if pageamt > totamt then totamt else pageamt))
          (add64 pageadr (PAGEFRAME_PAGESIZE arch)) 0 (PAGEFRAME_PAGESIZE arch)
          (by omega) (by split_ifs at hz ⊢ <;> omega) hS
        rw [ho]
        exact ⟨_, rfl⟩

/-- Claim C27: for every call, `alter_display_real_or_abs` returns, and a byte
of main storage that differs after the call is a byte of the patch: `mainlim`
is not zero, the operand is an alteration of `n` bytes at `A`, and the byte is
at the absolute address of `A + i` for some `i < n` (`toAbsolute (A + i, PX)`
for the real variant, `A + i` for the absolute variant), which does not exceed
`mainlim`. Every other byte is unchanged; a display range (`n = 0`) or
`mainlim = 0` changes no byte. -/
theorem alter_frame (arch : Arch) (regs : REGS) (m : Machine) (argc : Int)
    (argv : List (List Char)) :
    ∃ m2 out, arch_alter_display_real_or_abs arch regs m argc argv = some (m2, out) ∧
      ∀ x, m2.mainstor x ≠ m.mainstor x →
        regs.mainlim ≠ 0 ∧ x ≤ regs.mainlim ∧
        ∃ n saddr eaddr newval i,
          parse_range argv[1]? (maxadr arch) true = .ok n saddr eaddr newval ∧ i < n ∧
          x = to_absolute arch regs (command_letter (argv.getD 0 [])) (saddr + i) := by
  unfold arch_alter_display_real_or_abs
  by_cases hc : argc ≠ 2
  · rw [if_pos hc]
    exact ⟨_, _, rfl, fun x hx => absurd rfl hx⟩
  · rw [if_neg hc]
    simp only []
    cases hp : parse_range argv[1]? (maxadr arch) true with
    | error e => exact ⟨_, _, rfl, fun x hx => absurd rfl hx⟩
    | ok n saddr eaddr newval =>
      obtain ⟨hlen, h32, hse, hem, hs64, hE⟩ := parse_range_ok _ _ _ _ _ _ _ hp
      have h64 : maxadr arch < 2 ^ 64 := by cases arch <;> decide
      simp only []
      by_cases h0 : regs.mainlim = 0
      · rw [if_pos h0]
        exact ⟨_, _, rfl, fun x hx => absurd rfl hx⟩
      · rw [if_neg h0]
        have htake : newval.take n = newval := by rw [← hlen]; exact List.take_length _
        rw [htake]
        have hframe := alter_loop_frame arch regs (command_letter (argv.getD 0 [])) saddr
          newval 0 m.mainstor
        have hfr : ∀ x, (alter_loop arch regs (command_letter (argv.getD 0 [])) saddr 0 newval
            m.mainstor).1 x ≠ m.mainstor x →
            regs.mainlim ≠ 0 ∧ x ≤ regs.mainlim ∧
            ∃ n2 saddr2 eaddr2 newval2 i,
              Parsed.ok n saddr eaddr newval = .ok n2 saddr2 eaddr2 newval2 ∧ i < n2 ∧
              x = to_absolute arch regs (command_letter (argv.getD 0 [])) (saddr2 + i) := by
          intro x hx
          obtain ⟨j, hj, hxj, hle⟩ := hframe x hx
          have hn : 0 < n := by omega
          have hE := hE hn
          refine ⟨h0, hle, n, saddr, eaddr, newval, j, rfl, by omega, ?_⟩
          rw [hxj, Nat.zero_add]
          congr 1
          unfold add64
          omega
        generalize alter_loop arch regs (command_letter (argv.getD 0 [])) saddr 0 newval
          m.mainstor = res at hfr
        obtain ⟨stor, r2⟩ := res
        cases r2 with
        | some msg => exact ⟨_, _, rfl, hfr⟩
        | none =>
          simp only []
          by_cases ht : add64 (sub64 (LIMIT_RANGE saddr eaddr _64_KILOBYTE) saddr) 1 > 0
          · rw [if_pos ht]
            have hS : 0 < PAGEFRAME_PAGESIZE arch := by cases arch <;> decide
            have hml := Nat.mod_lt saddr hS
            have hback : saddr / PAGEFRAME_PAGESIZE arch * PAGEFRAME_PAGESIZE arch
                + saddr % PAGEFRAME_PAGESIZE arch = saddr := Nat.div_add_mod' saddr _
            have hoff : sub64 saddr (saddr / PAGEFRAME_PAGESIZE arch * PAGEFRAME_PAGESIZE arch)
                = saddr % PAGEFRAME_PAGESIZE arch := by
              unfold sub64
              generalize saddr / PAGEFRAME_PAGESIZE arch * PAGEFRAME_PAGESIZE arch = q
                at hback ⊢
              omega
            rw [land_PAGEFRAME_PAGEMASK arch saddr (by omega), hoff]
            obtain ⟨out, ho⟩ := display_loop_returns arch regs { m with mainstor := stor }
              (command_letter (argv.getD 0 []))
              (if Arch.z900 = m.arch_mode then 64 else 32)
              (add64 (sub64 (LIMIT_RANGE saddr eaddr _64_KILOBYTE) saddr) 1)
              (add64 (sub64 (LIMIT_RANGE saddr eaddr _64_KILOBYTE) saddr) 1)
              (saddr / PAGEFRAME_PAGESIZE arch * PAGEFRAME_PAGESIZE arch)
              (saddr % PAGEFRAME_PAGESIZE arch)
              (PAGEFRAME_PAGESIZE arch - saddr % PAGEFRAME_PAGESIZE arch)
              ht (le_refl _) (by omega)
            rw [ho]
            exact ⟨_, _, rfl, hfr⟩
          · rw [if_neg ht]
            exact ⟨_, _, rfl, hfr⟩

/-- The patch `FFE=AABBCCDD` of the command `r` with the prefix `0x5000`: the
command returns, and every byte that differs is a byte of the patch. -/
theorem alter_frame_witness :
    ∃ m2 out, arch_alter_display_real_or_abs .s390 example_regs example_machine 2
        [['r'], ['F', 'F', 'E', '=', 'A', 'A', 'B', 'B', 'C', 'C', 'D', 'D']] = some (m2, out) ∧
      ∀ x, m2.mainstor x ≠ example_machine.mainstor x →
        example_regs.mainlim ≠ 0 ∧ x ≤ example_regs.mainlim ∧
        ∃ n saddr eaddr newval i,
          parse_range [['r'], ['F', 'F', 'E', '=', 'A', 'A', 'B', 'B', 'C', 'C', 'D', 'D']][1]?
            (maxadr .s390) true = .ok n saddr eaddr newval ∧ i < n ∧
          x = to_absolute .s390 example_regs (command_letter
            ([['r'], ['F', 'F', 'E', '=', 'A', 'A', 'B', 'B', 'C', 'C', 'D', 'D']].getD 0 []))
            (saddr + i) :=
  alter_frame .s390 example_regs example_machine 2
    [['r'], ['F', 'F', 'E', '=', 'A', 'A', 'B', 'B', 'C', 'C', 'D', 'D']]

/-- The command `abs 0x=AA` stores `0xAA` at absolute address 0. -/
theorem alter_abs_bare_0x :
    ∃ m2 out, arch_alter_display_real_or_abs .s390 example_regs example_machine 2
        ["abs".toList, "0x=AA".toList] = some (m2, out) ∧
      m2.mainstor 0 = 0xAA ∧ example_machine.mainstor 0 = 0 := by
  refine ⟨_, _, rfl, ?_, ?_⟩ <;> decide

/-! ## `PIC2Name` -/

theorem PIC2Name_code (pcode : Int) :
    (pcode % 2 ^ 32).toNat &&& 0xFF = (pcode % 256).toNat := by
  have h := Nat.and_pow_two_sub_one_eq_mod (pcode % 2 ^ 32).toNat 8
  have e : (2 : Nat) ^ 8 - 1 = 0xFF := by decide
  rw [e] at h
  rw [h]
  omega

/-- Claim C28: for every program interruption code, `PIC2Name` depends only on
the low-order byte `c` of the code: it returns the `c`-th entry of its table
of 64 names when `1 ≤ c ≤ 0x40` and `Unassigned exception` for every other
`c`, and it never reads outside the table. The entries `0x05`, `0x10`, `0x11`
and `0x12` are the addressing, segment-translation, page-translation and
translation-specification exceptions. -/
theorem PIC2Name_low_byte (pcode : Int) :
    pgmintname.length = 64 ∧
    PIC2Name pcode = PIC2Name (pcode % 256) ∧
    PIC2Name pcode =
      (if 1 ≤ (pcode % 256).toNat ∧ (pcode % 256).toNat ≤ 0x40 then
        pgmintname[(pcode % 256).toNat - 1]?
      else some "Unassigned exception") ∧
    ((pcode % 256).toNat ≤ 0x40 → (pcode % 256).toNat - 1 < pgmintname.length) ∧
    PIC2Name pcode ≠ none ∧
    PIC2Name 0x05 = some "Addressing exception" ∧
    PIC2Name 0x10 = some "Segment-translation exception" ∧
    PIC2Name 0x11 = some "Page-translation exception" ∧
    PIC2Name 0x12 = some "Translation-specification exception" := by
  have hlen : pgmintname.length = 64 := by decide
  have hval : ∀ p : Int, PIC2Name p =
      (if 1 ≤ (p % 256).toNat ∧ (p % 256).toNat ≤ 0x40 then
        pgmintname[(p % 256).toNat - 1]?
      else some "Unassigned exception") := by
    intro p
    unfold PIC2Name
    simp only [PIC2Name_code, hlen]
    by_cases hc : 1 ≤ (p % 256).toNat ∧ (p % 256).toNat ≤ 0x40
    · have hnd : ((p % 256).toNat - 1) &&& 0x3F = (p % 256).toNat - 1 := by
        have h := Nat.and_pow_two_sub_one_eq_mod ((p % 256).toNat - 1) 6
        have e : (2 : Nat) ^ 6 - 1 = 0x3F := by decide
        rw [e] at h
        rw [h]
        omega
      rw [if_neg (by omega), if_pos hc, hnd, if_pos (by omega)]
    · rw [if_pos (by omega), if_neg hc]
  refine ⟨hlen, ?_, hval pcode, fun h => by omega, ?_, by decide, by decide, by decide,
    by decide⟩
  · rw [hval pcode, hval (pcode % 256)]
    have : pcode % 256 % 256 = pcode % 256 := by omega
    rw [this]
  · rw [hval pcode]
    split_ifs with hc
    · have hlt : (pcode % 256).toNat - 1 < pgmintname.length := by omega
      rw [List.getElem?_eq_getElem hlt]
      exact fun h => Option.noConfusion h
    · exact fun h => Option.noConfusion h

/-- The code `0x0211` has the low-order byte `0x11`; the code `0x41` has no
entry in the table. -/
theorem PIC2Name_low_byte_witness :
    pgmintname.length = 64 ∧
    PIC2Name 0x211 = PIC2Name (0x211 % 256) ∧
    PIC2Name 0x211 =
      (if 1 ≤ ((0x211 : Int) % 256).toNat ∧ ((0x211 : Int) % 256).toNat ≤ 0x40 then
        pgmintname[((0x211 : Int) % 256).toNat - 1]?
      else some "Unassigned exception") ∧
    (((0x211 : Int) % 256).toNat ≤ 0x40 → ((0x211 : Int) % 256).toNat - 1 < pgmintname.length) ∧
    PIC2Name 0x211 ≠ none ∧
    PIC2Name 0x05 = some "Addressing exception" ∧
    PIC2Name 0x10 = some "Segment-translation exception" ∧
    PIC2Name 0x11 = some "Page-translation exception" ∧
    PIC2Name 0x12 = some "Translation-specification exception" :=
  PIC2Name_low_byte 0x211

/-! ## The instruction at the end of storage -/

/-- One iteration of the loop of `disasm_stor` for a real address (letter `R`)
within the range: an addressing exception is reported, and the command
returns, exactly when `aaddr + ilc` exceeds `mainlim`; otherwise the
instruction is displayed and the loop goes on after it. -/
theorem disasm_loop_real_step (arch : Arch) (K : CommandConsts) (walk : StorageWalk)
    (malloc_ok : Bool) (regs : Nat) (m : Machine) (eaddr fuel saddr : Nat) (stid : Int)
    (h : Heap) (hle : saddr ≤ eaddr)
    (hnw : APPLY_PREFIXING arch saddr (h.getD regs REGS.uninit).PX + 6 < 2 ^ 64) :
    (APPLY_PREFIXING arch saddr (h.getD regs REGS.uninit).PX
        + ILC (m.mainstor (APPLY_PREFIXING arch saddr (h.getD regs REGS.uninit).PX))
          > (h.getD regs REGS.uninit).mainlim →
      (disasm_loop arch K walk malloc_ok regs 'R' m eaddr (fuel + 1) saddr stid h).exit
        = some .returned ∧
      ∃ a, (disasm_loop arch K walk malloc_ok regs 'R' m eaddr (fuel + 1) saddr stid h).out
        = [.HHC02289_addressing a]) ∧
    (APPLY_PREFIXING arch saddr (h.getD regs REGS.uninit).PX
        + ILC (m.mainstor (APPLY_PREFIXING arch saddr (h.getD regs REGS.uninit).PX))
          ≤ (h.getD regs REGS.uninit).mainlim →
      ∃ c inst, (disasm_loop arch K walk malloc_ok regs 'R' m eaddr (fuel + 1) saddr stid h).out
        = .HHC02289_inst c saddr inst ::
          (disasm_loop arch K walk malloc_ok regs 'R' m eaddr fuel
            (add64 saddr (ILC (m.mainstor
              (APPLY_PREFIXING arch saddr (h.getD regs REGS.uninit).PX)))) stid h).out) := by
  obtain ⟨i1, i2⟩ := ILC_bounds (m.mainstor (APPLY_PREFIXING arch saddr
    (h.getD regs REGS.uninit).PX))
  have hadd : add64 (APPLY_PREFIXING arch saddr (h.getD regs REGS.uninit).PX)
      (ILC (m.mainstor (APPLY_PREFIXING arch saddr (h.getD regs REGS.uninit).PX)))
      = APPLY_PREFIXING arch saddr (h.getD regs REGS.uninit).PX
        + ILC (m.mainstor (APPLY_PREFIXING arch saddr (h.getD regs REGS.uninit).PX)) := by
    unfold add64
    exact Nat.mod_eq_of_lt (by omega)
  rw [disasm_loop]
  simp only [if_pos hle, if_true, Nat.zero_mod, ne_eq, not_true_eq_false, if_false,
    List.nil_append, hadd]
  constructor
  · intro hgt
    by_cases h1 : APPLY_PREFIXING arch saddr (h.getD regs REGS.uninit).PX
        > (h.getD regs REGS.uninit).mainlim
    · rw [if_pos h1]
      exact ⟨rfl, _, rfl⟩
    · rw [if_neg h1, if_pos hgt]
      exact ⟨rfl, _, rfl⟩
  · intro hok
    rw [if_neg (by omega), if_neg (by omega)]
    exact ⟨_, _, rfl⟩

/-- Claim C21 fails for the last instruction of storage: with 64K of storage
(`mainlim = 0xFFFF`) the instruction of two bytes at `0xFFFE` has its last byte
at `mainlim`, and `disasm_stor` reports an addressing exception for it instead
of displaying it; the instruction at `0xFFFC` is displayed. -/
theorem disasm_stor_last_instruction :
    0xFFFE + ILC (example_machine.mainstor 0xFFFE) - 1 ≤ example_regs.mainlim ∧
    (arch_disasm_stor .s390 example_command_consts example_walk_hole [example_regs]
      example_machine true 0 1 [['R', 'F', 'F', 'F', 'E', '.', '2']] 3).out
        = [.HHC02289_addressing 0xFFFE] ∧
    (arch_disasm_stor .s390 example_command_consts example_walk_hole [example_regs]
      example_machine true 0 1 [['R', 'F', 'F', 'F', 'C', '.', '2']] 3).out
        = [.HHC02289_inst 'R' 0xFFFC [0, 0]] := by
  decide

/-! ## `display_real` -/

theorem APPLY_PREFIXING_lt (arch : Arch) (a p : Nat) (ha : a < 2 ^ 64) (hp : p < 2 ^ 64) :
    APPLY_PREFIXING arch a p < 2 ^ 64 := by
  have h32 : a % 2 ^ 32 < 2 ^ 64 := lt_of_le_of_lt (Nat.mod_le _ _) ha
  unfold APPLY_PREFIXING
  cases arch <;> simp only [] <;> split_ifs <;>
    first | exact ha | exact Nat.xor_lt_two_pow ha hp | exact Nat.xor_lt_two_pow h32 hp

/-- The loop of `display_real` reads consecutive addresses from `aaddr` on, up
to the end of the page of `aaddr` and at most as many as it has iterations
left. -/
theorem display_real_loop_eq (arch : Arch) :
    ∀ (left aaddr : Nat), aaddr < 2 ^ 64 →
      display_real_loop arch left aaddr =
        (List.range (min left (PAGEFRAME_PAGESIZE arch - aaddr % PAGEFRAME_PAGESIZE arch))).map
          (fun i => aaddr + i) := by
  intro left
  induction left with
  | zero => intro aaddr _; simp [display_real_loop]
  | succ left ih =>
    intro aaddr ha
    rw [display_real_loop]
    simp only [land_PAGEFRAME_BYTEMASK]
    have hS : PAGEFRAME_PAGESIZE arch = 2048 ∨ PAGEFRAME_PAGESIZE arch = 4096 := by
      cases arch <;> simp [PAGEFRAME_PAGESIZE]
    have hml : aaddr % PAGEFRAME_PAGESIZE arch < PAGEFRAME_PAGESIZE arch :=
      Nat.mod_lt _ (by rcases hS with h | h <;> omega)
    by_cases hend : aaddr % PAGEFRAME_PAGESIZE arch + 1 = PAGEFRAME_PAGESIZE arch
    · have h0 : add64 aaddr 1 % PAGEFRAME_PAGESIZE arch = 0 := by
        unfold add64
        rcases hS with h | h <;> rw [h] at hend ⊢ <;> omega
      rw [if_pos h0]
      have hmin : min (left + 1) (PAGEFRAME_PAGESIZE arch - aaddr % PAGEFRAME_PAGESIZE arch)
          = 1 := by omega
      rw [hmin]
      rfl
    · have hlt : aaddr + 1 < 2 ^ 64 := by
        rcases hS with h | h <;> rw [h] at hend hml <;> omega
      have hnext : add64 aaddr 1 = aaddr + 1 := by unfold add64; exact Nat.mod_eq_of_lt hlt
      have hmod : (aaddr + 1) % PAGEFRAME_PAGESIZE arch
          = aaddr % PAGEFRAME_PAGESIZE arch + 1 := by
        rcases hS with h | h <;> rw [h] at hend hml ⊢ <;> omega
      rw [hnext, if_neg (by rw [hmod]; omega), ih (aaddr + 1) hlt, hmod]
      have hmin : min (left + 1) (PAGEFRAME_PAGESIZE arch - aaddr % PAGEFRAME_PAGESIZE arch)
          = min left (PAGEFRAME_PAGESIZE arch - (aaddr % PAGEFRAME_PAGESIZE arch + 1)) + 1 := by
        omega
      rw [hmin, List.range_succ_eq_map, List.map_cons, List.map_map]
      congr 1
      apply List.map_congr_left
      intro i _
      simp only [Function.comp, Nat.succ_eq_add_one]
      omega

/-- Claim C29, amended: the storage limit `display_real` tests is `mainlim` of
the context, and `mainlim` of its host context for an SIE guest. When that
limit is zero or `aaddr`, the absolute address of `raddr` after prefixing,
exceeds it, `display_real` reads no storage and reports that the real address
is not valid. Otherwise it formats exactly `min (16, page size - (aaddr mod
page size))` bytes starting at `aaddr`, all of them in the page of `aaddr`. -/
theorem display_real_bytes (arch : Arch) (regs hostregs : REGS) (m : Machine) (raddr : Nat)
    (draflag : Int) (hdr : String) (hra : raddr < 2 ^ 64) (hpx : regs.PX < 2 ^ 64) :
    ((if regs.sie_mode then hostregs.mainlim else regs.mainlim) = 0 ∨
        APPLY_PREFIXING arch raddr regs.PX
          > (if regs.sie_mode then hostregs.mainlim else regs.mainlim) →
      (display_real arch regs hostregs m raddr draflag hdr).body =
        (if regs.sie_mode then .guest_not_valid (APPLY_PREFIXING arch raddr regs.PX)
          else .not_valid)) ∧
    (¬ ((if regs.sie_mode then hostregs.mainlim else regs.mainlim) = 0 ∨
        APPLY_PREFIXING arch raddr regs.PX
          > (if regs.sie_mode then hostregs.mainlim else regs.mainlim)) →
      ∃ absolute key read,
        (display_real arch regs hostregs m raddr draflag hdr).body =
          .storage absolute key read (read.map m.mainstor) ∧
        read = (List.range (min 16 (PAGEFRAME_PAGESIZE arch
            - APPLY_PREFIXING arch raddr regs.PX % PAGEFRAME_PAGESIZE arch))).map
          (fun i => APPLY_PREFIXING arch raddr regs.PX + i) ∧
        ∀ a ∈ read, a / PAGEFRAME_PAGESIZE arch
          = APPLY_PREFIXING arch raddr regs.PX / PAGEFRAME_PAGESIZE arch) := by
  have hlt := APPLY_PREFIXING_lt arch raddr regs.PX hra hpx
  have hloop := display_real_loop_eq arch 16 _ hlt
  have hS : 0 < PAGEFRAME_PAGESIZE arch := by cases arch <;> decide
  have hpage : ∀ a ∈ (List.range (min 16 (PAGEFRAME_PAGESIZE arch
        - APPLY_PREFIXING arch raddr regs.PX % PAGEFRAME_PAGESIZE arch))).map
        (fun i => APPLY_PREFIXING arch raddr regs.PX + i),
      a / PAGEFRAME_PAGESIZE arch = APPLY_PREFIXING arch raddr regs.PX / PAGEFRAME_PAGESIZE arch := by
    intro a ha
    simp only [List.mem_map, List.mem_range] at ha
    obtain ⟨i, hi, rfl⟩ := ha
    have hd := Nat.div_add_mod (APPLY_PREFIXING arch raddr regs.PX) (PAGEFRAME_PAGESIZE arch)
    have hm := Nat.mod_lt (APPLY_PREFIXING arch raddr regs.PX) hS
    generalize APPLY_PREFIXING arch raddr regs.PX = A at *
    apply Nat.div_eq_of_lt_le
    · rw [Nat.mul_comm]
      generalize PAGEFRAME_PAGESIZE arch * (A / PAGEFRAME_PAGESIZE arch) = q at *
      omega
    · rw [Nat.succ_mul, Nat.mul_comm]
      generalize PAGEFRAME_PAGESIZE arch * (A / PAGEFRAME_PAGESIZE arch) = q at *
      omega
  unfold display_real
  simp only [hloop]
  by_cases hs : regs.sie_mode = true
  · simp only [hs, if_true]
    constructor
    · intro hbad
      rw [if_pos hbad]
    · intro hok
      rw [if_neg hok]
      exact ⟨_, _, _, rfl, rfl, hpage⟩
  · simp only [hs, if_false, Bool.false_eq_true]
    constructor
    · intro hbad
      rw [if_pos hbad]
    · intro hok
      rw [if_neg hok]
      exact ⟨_, _, _, rfl, rfl, hpage⟩

/-- The display of the real address `0xFFA` with the prefix `0x5000`: the
absolute address is `0x5FFA`, six bytes from the end of its page, and six bytes
are read. -/
theorem display_real_bytes_witness :
    ((if example_regs.sie_mode then example_regs.mainlim else example_regs.mainlim) = 0 ∨
        APPLY_PREFIXING .s390 0xFFA example_regs.PX
          > (if example_regs.sie_mode then example_regs.mainlim else example_regs.mainlim) →
      (display_real .s390 example_regs example_regs example_machine 0xFFA 1 "").body =
        (if example_regs.sie_mode then
          .guest_not_valid (APPLY_PREFIXING .s390 0xFFA example_regs.PX)
          else .not_valid)) ∧
    (¬ ((if example_regs.sie_mode then example_regs.mainlim else example_regs.mainlim) = 0 ∨
        APPLY_PREFIXING .s390 0xFFA example_regs.PX
          > (if example_regs.sie_mode then example_regs.mainlim else example_regs.mainlim)) →
      ∃ absolute key read,
        (display_real .s390 example_regs example_regs example_machine 0xFFA 1 "").body =
          .storage absolute key read (read.map example_machine.mainstor) ∧
        read = (List.range (min 16 (PAGEFRAME_PAGESIZE .s390
            - APPLY_PREFIXING .s390 0xFFA example_regs.PX % PAGEFRAME_PAGESIZE .s390))).map
          (fun i => APPLY_PREFIXING .s390 0xFFA example_regs.PX + i) ∧
        ∀ a ∈ read, a / PAGEFRAME_PAGESIZE .s390
          = APPLY_PREFIXING .s390 0xFFA example_regs.PX / PAGEFRAME_PAGESIZE .s390) :=
  display_real_bytes .s390 example_regs example_regs example_machine 0xFFA 1 ""
    (by decide) (by decide)

/-- The six bytes read for the real address `0xFFA`, and the refusal of an
address beyond 64K. -/
theorem display_real_example :
    display_real .s390 example_regs example_regs example_machine 0xFFA 1 "" =
      ⟨"", some 0xFFA, .storage none 6 [0x5FFA, 0x5FFB, 0x5FFC, 0x5FFD, 0x5FFE, 0x5FFF]
        [0, 0, 0, 0, 0, 0]⟩ ∧
    display_real .s390 example_regs example_regs example_machine 0x10000 0 "" =
      ⟨"", none, .not_valid⟩ ∧
    display_real .s390 example_guest example_host example_machine 0x10000 0 "" =
      ⟨"", none, .guest_not_valid 0x10000⟩ := by
  decide

/-- Claim C29 fails: for an SIE guest `display_real` tests `mainlim` of the host
context. The guest context has `mainlim = 0` and its host has 64K of main
storage: the real address `0` is displayed, and the 16 bytes at the absolute
address `0x5000` are read. -/
theorem display_real_guest_no_storage :
    example_guest_no_storage.sie_mode = true ∧ example_guest_no_storage.mainlim = 0 ∧
    example_host.mainlim = 0xFFFF ∧
    display_real .s390 example_guest_no_storage example_host example_machine 0 1 "" =
      ⟨"", some 0, .storage (some 0x5000) 6
        [0x5000, 0x5001, 0x5002, 0x5003, 0x5004, 0x5005, 0x5006, 0x5007,
         0x5008, 0x5009, 0x500A, 0x500B, 0x500C, 0x500D, 0x500E, 0x500F]
        [0, 0, 0, 0, 0, 0, 0, 0, 0, 0, 0, 0, 0, 0, 0, 0]⟩ := by
  decide

/-! ## The chunks of the display loops -/

theorem chunks_append (a b : List Msg) : chunks (a ++ b) = chunks a ++ chunks b := by
  induction a with
  | nil => rfl
  | cons x a ih =>
    cases x <;> simp [chunks, ih]

/-- A valid call of `dump_abs_page` for a page within main storage dumps one
chunk: `amt` bytes with the cosmetic address `adr + offset`. -/
theorem dump_abs_page_chunk (arch : Arch) (regs : REGS) (m : Machine)
    (aaddr adr offset amt : Nat) (vra : Char) (wid : Nat)
    (ha : aaddr % PAGEFRAME_PAGESIZE arch = 0) (hadr : adr % PAGEFRAME_PAGESIZE arch = 0)
    (hoff : offset < PAGEFRAME_PAGESIZE arch) (hamt : amt ≤ PAGEFRAME_PAGESIZE arch - offset)
    (hwid : wid = 32 ∨ wid = 64) (hlim : aaddr ≤ regs.mainlim) (h64 : adr + offset < 2 ^ 64) :
    chunks (dump_abs_page arch regs m aaddr adr offset amt vra wid).2 = [(adr + offset, amt)] ∧
    (∀ x ∈ (dump_abs_page arch regs m aaddr adr offset amt vra wid).2, x.is_display = true) ∧
    (∀ v d, Msg.dump v d ∈ (dump_abs_page arch regs m aaddr adr offset amt vra wid).2 →
      d.wid = wid) := by
  rw [dump_abs_page_ok arch regs m aaddr adr offset amt vra wid ha hadr hoff hamt hwid hlim]
  have h16 : adr % 16 = 0 := by
    have hS : PAGEFRAME_PAGESIZE arch = 2048 ∨ PAGEFRAME_PAGESIZE arch = 4096 := by
      cases arch <;> simp [PAGEFRAME_PAGESIZE]
    rcases hS with h | h <;> rw [h] at hadr <;> omega
  have hadd : add64 adr offset = adr + offset := by unfold add64; omega
  have hmask : (adr + offset) &&& 0xFFFFFFFFFFFFFFF0 = (adr + offset) / 16 * 16 := by
    have := land_mask (adr + offset) 4 64 (by decide) h64
    simpa using this
  have hskip : offset &&& 0xF = offset % 16 := Nat.and_pow_two_sub_one_eq_mod offset 4
  refine ⟨?_, ?_, ?_⟩
  · simp only [chunks, hadd, hmask, hskip, List.length_map, List.length_range]
    congr 2
    omega
  · intro x hx
    simp only [List.mem_singleton] at hx
    rw [hx]; rfl
  · intro v d hd
    simp only [List.mem_singleton, Msg.dump.injEq] at hd
    rw [hd.2]

/-- The display loop of `alter_display_real_or_abs`, entered for `totamt` bytes
from `pageadr + pageoff` on: it ends, no call of `dump_abs_page` has invalid
parameters, every dump has the width given, and when every page of the range
is within main storage the chunks dumped are consecutive from
`pageadr + pageoff`, each within one page, `totamt` bytes together. -/
theorem display_loop_chunks (arch : Arch) (regs : REGS) (m : Machine) (c : Char) (addrwid : Nat)
    (hpx : is_prefix_value arch regs.PX) (hwid : addrwid = 32 ∨ addrwid = 64) :
    ∀ (fuel totamt pageadr pageoff : Nat),
      pageadr % PAGEFRAME_PAGESIZE arch = 0 → pageoff < PAGEFRAME_PAGESIZE arch →
      1 ≤ totamt → totamt ≤ fuel → pageadr + pageoff + totamt - 1 ≤ maxadr arch →
      ∃ out, display_loop arch regs m c addrwid fuel totamt pageadr pageoff
            (PAGEFRAME_PAGESIZE arch - pageoff) = some out ∧
        (∀ f t, Msg.HHC02219 f t ∉ out) ∧
        (∀ v d, Msg.dump v d ∈ out → d.wid = addrwid) ∧
        ((∀ j, j < totamt → to_absolute arch regs c (pageadr + pageoff + j) ≤ regs.mainlim) →
          chunks_cover arch (chunks out) (pageadr + pageoff) totamt) := by
  intro fuel
  induction fuel with
  | zero => intro totamt _ _ _ _ h1 h2; omega
  | succ fuel ih =>
    intro totamt pageadr pageoff hP hoff ht hfuel hmax
    have h64 : maxadr arch < 2 ^ 64 := by cases arch <;> decide
    have hS : 0 < PAGEFRAME_PAGESIZE arch := by cases arch <;> decide
    have hal := to_absolute_aligned arch regs c pageadr hpx hP (by omega)
    have hmodoff : (pageadr + pageoff) % PAGEFRAME_PAGESIZE arch = pageoff := by
      rw [Nat.add_mod, hP, Nat.zero_add, Nat.mod_mod, Nat.mod_eq_of_lt hoff]
    unfold display_loop
    simp only []
    by_cases hbeyond : to_absolute arch regs c pageadr > regs.mainlim
    · rw [if_pos hbeyond]
      refine ⟨_, rfl, ?_, ?_, ?_⟩
      · intro f t hm
        simp at hm
      · intro v d hm
        simp at hm
      · intro hlim
        exfalso
        have := hlim 0 ht
        rw [Nat.add_zero, to_absolute_page arch regs c pageadr pageoff hpx hP hoff (by omega)]
          at this
        omega
    · rw [if_neg hbeyond]
      have hl0 : to_absolute arch regs c pageadr ≤ regs.mainlim := by omega
      have hamt : (if PAGEFRAME_PAGESIZE arch - pageoff > totamt then totamt
          else PAGEFRAME_PAGESIZE arch - pageoff) ≤ PAGEFRAME_PAGESIZE arch - pageoff := by
        split_ifs <;> omega
      obtain ⟨c1, c2, c3⟩ := dump_abs_page_chunk arch regs m (to_absolute arch regs c pageadr)
        pageadr pageoff (if PAGEFRAME_PAGESIZE arch - pageoff > totamt then totamt
          else PAGEFRAME_PAGESIZE arch - pageoff) c addrwid hal hP hoff hamt hwid hl0 (by omega)
      have hno : ∀ f t, Msg.HHC02219 f t ∉ (dump_abs_page arch regs m
          (to_absolute arch regs c pageadr) pageadr pageoff
          (if PAGEFRAME_PAGESIZE arch - pageoff > totamt then totamt
            else PAGEFRAME_PAGESIZE arch - pageoff) c addrwid).2 := by
        intro f t hm
        have := c2 _ hm
        simp [Msg.is_display] at this
      generalize dump_abs_page arch regs m (to_absolute arch regs c pageadr) pageadr pageoff
        (if PAGEFRAME_PAGESIZE arch - pageoff > totamt then totamt
          else PAGEFRAME_PAGESIZE arch - pageoff) c addrwid = page at c1 c2 c3 hno
      by_cases hdone : totamt - (if PAGEFRAME_PAGESIZE arch - pageoff > totamt then totamt
          else PAGEFRAME_PAGESIZE arch - pageoff) = 0
      · rw [if_pos hdone]
        have hEq : (if PAGEFRAME_PAGESIZE arch - pageoff > totamt then totamt
            else PAGEFRAME_PAGESIZE arch - pageoff) = totamt := by
          split_ifs at hdone ⊢ <;> omega
        refine ⟨_, rfl, ?_, ?_, ?_⟩
        · intro f t hm
          simp only [List.mem_cons, reduceCtorEq, false_or] at hm
          exact hno f t hm
        · intro v d hm
          simp only [List.mem_cons, reduceCtorEq, false_or] at hm
          exact c3 v d hm
        · intro _
          simp only [chunks, c1, hEq, chunks_cover, Nat.sub_self, hmodoff, true_and,
            le_refl, and_true]
          rw [hEq] at hamt
          omega
      · rw [if_neg hdone]
        have hfull : (if PAGEFRAME_PAGESIZE arch - pageoff > totamt then totamt
            else PAGEFRAME_PAGESIZE arch - pageoff) = PAGEFRAME_PAGESIZE arch - pageoff := by
          split_ifs at hdone ⊢ <;> omega
        rw [hfull] at hdone c1 ⊢
        have hnext : add64 pageadr (PAGEFRAME_PAGESIZE arch)
            = pageadr + PAGEFRAME_PAGESIZE arch := by unfold add64; omega
        rw [hnext]
        obtain ⟨rest, hr1, hr2, hr3, hr4⟩ := ih (totamt - (PAGEFRAME_PAGESIZE arch - pageoff))
          (pageadr + PAGEFRAME_PAGESIZE arch) 0
          (by rw [Nat.add_mod_right]; exact hP) hS (by omega) (by omega) (by omega)
        rw [Nat.sub_zero] at hr1
        rw [hr1]
        refine ⟨_, rfl, ?_, ?_, ?_⟩
        · intro f t hm
          simp only [List.mem_cons, reduceCtorEq, false_or, List.mem_append] at hm
          rcases hm with hm | hm
          · exact hno f t hm
          · exact hr2 f t hm
        · intro v d hm
          simp only [List.mem_cons, reduceCtorEq, false_or, List.mem_append] at hm
          rcases hm with hm | hm
          · exact c3 v d hm
          · exact hr3 v d hm
        · intro hlim
          have hrest := hr4 (fun j hj => by
            have := hlim (PAGEFRAME_PAGESIZE arch - pageoff + j) (by omega)
            rw [show pageadr + PAGEFRAME_PAGESIZE arch + 0 + j
              = pageadr + pageoff + (PAGEFRAME_PAGESIZE arch - pageoff + j) by omega]
            exact this)
          show chunks_cover arch (chunks (page.2 ++ rest)) _ _
          rw [chunks_append, c1]
          simp only [List.singleton_append, chunks_cover, hmodoff, true_and]
          refine ⟨by omega, by omega, by omega, ?_⟩
          rw [show pageadr + pageoff + (PAGEFRAME_PAGESIZE arch - pageoff)
            = pageadr + PAGEFRAME_PAGESIZE arch + 0 by omega]
          exact hrest

theorem APPLY_PREFIXING_aligned (arch : Arch) (ra px : Nat) (hpx : is_prefix_value arch px)
    (hP : ra % PAGEFRAME_PAGESIZE arch = 0) (hmax : ra ≤ maxadr arch) :
    APPLY_PREFIXING arch ra px % PAGEFRAME_PAGESIZE arch = 0 := by
  obtain ⟨hple, hpf⟩ := prefix_value_props arch px hpx
  rw [APPLY_PREFIXING_eq arch _ _ hmax hpx]
  cases arch <;> simp only [PREFIXING_FRAME, PAGEFRAME_PAGESIZE] at * <;> split_ifs <;> omega

theorem chunks_translation (v ic : Nat) (l : List Msg) :
    chunks (.translation v ic :: l) = chunks l := rfl

/-- The display loop of `alter_display_virt`, entered for `totamt` bytes from
`pageadr + pageoff` on, when translation maps page-aligned addresses to
page-aligned real addresses: it ends, no call of `dump_abs_page` has invalid
parameters, every dump has the width given, and when every page of the range
is translated without exception to a frame within main storage the chunks
dumped are consecutive from `pageadr + pageoff`, each within one page,
`totamt` bytes together. -/
theorem virt_display_loop_chunks (arch : Arch) (K : CommandConsts) (walk : StorageWalk)
    (regs : Nat) (arn : Int) (m : Machine) (addrwid : Nat) (h : Heap) (r : REGS)
    (hr : h[regs]? = some r)
    (hhost : r.sie_mode = true → ∃ p hr, r.hostregs = some p ∧ h[p]? = some hr)
    (hpx : is_prefix_value arch r.PX) (hwid : addrwid = 32 ∨ addrwid = 64)
    (haligned : ∀ v ic ra st,
      (virt_to_real K.toConsts (walk m.mainstor) h true v arn regs K.ACCTYPE_HW).ret
        = some (ic, ra, st) →
      v % PAGEFRAME_PAGESIZE arch = 0 → ic % 65536 = 0 →
      ra % PAGEFRAME_PAGESIZE arch = 0 ∧ ra ≤ maxadr arch) :
    ∀ (fuel totamt pageadr pageoff : Nat),
      pageadr % PAGEFRAME_PAGESIZE arch = 0 → pageoff < PAGEFRAME_PAGESIZE arch →
      1 ≤ totamt → totamt ≤ fuel → pageadr + pageoff + totamt - 1 ≤ maxadr arch →
      (virt_display_loop arch K walk true regs arn m addrwid fuel totamt pageadr pageoff
        (PAGEFRAME_PAGESIZE arch - pageoff) h).exit = none ∧
      (∀ f t, Msg.HHC02219 f t ∉
        (virt_display_loop arch K walk true regs arn m addrwid fuel totamt pageadr pageoff
          (PAGEFRAME_PAGESIZE arch - pageoff) h).out) ∧
      (∀ v d, Msg.dump v d ∈
        (virt_display_loop arch K walk true regs arn m addrwid fuel totamt pageadr pageoff
          (PAGEFRAME_PAGESIZE arch - pageoff) h).out → d.wid = addrwid) ∧
      ((∀ k, k * PAGEFRAME_PAGESIZE arch < pageoff + totamt → ∀ ic ra st,
          (virt_to_real K.toConsts (walk m.mainstor) h true
            (pageadr + k * PAGEFRAME_PAGESIZE arch) arn regs K.ACCTYPE_HW).ret
              = some (ic, ra, st) →
          ic % 65536 = 0 ∧ APPLY_PREFIXING arch ra r.PX ≤ r.mainlim) →
        chunks_cover arch
          (chunks (virt_display_loop arch K walk true regs arn m addrwid fuel totamt pageadr
            pageoff (PAGEFRAME_PAGESIZE arch - pageoff) h).out)
          (pageadr + pageoff) totamt) := by
  intro fuel
  induction fuel with
  | zero => intro totamt _ _ _ _ h1 h2; omega
  | succ fuel ih =>
    intro totamt pageadr pageoff hP hoff ht hfuel hmax
    have h64 : maxadr arch < 2 ^ 64 := by cases arch <;> decide
    have hS : 0 < PAGEFRAME_PAGESIZE arch := by cases arch <;> decide
    have hmodoff : (pageadr + pageoff) % PAGEFRAME_PAGESIZE arch = pageoff := by
      rw [Nat.add_mod, hP, Nat.zero_add, Nat.mod_mod, Nat.mod_eq_of_lt hoff]
    obtain ⟨ic, ra, st, hret, hheap⟩ := virt_to_real_returns K.toConsts (walk m.mainstor) h
      pageadr arn regs K.ACCTYPE_HW r hr hhost
    rw [virt_display_loop_step arch K walk regs arn m addrwid h r hr fuel totamt pageadr pageoff
      _ ic ra st hret hheap]
    by_cases hbreak : ic % 65536 = 0 ∧ APPLY_PREFIXING arch ra r.PX > r.mainlim
    · rw [if_pos hbreak]
      refine ⟨rfl, ?_, ?_, ?_⟩
      · intro f t hm
        simp at hm
      · intro v d hm
        simp at hm
      · intro hall
        exfalso
        have := hall 0 (by omega) ic ra st (by simpa using hret)
        omega
    · rw [if_neg hbreak]
      -- what is written for this page
      have hpage : ∀ (amt : Nat), amt ≤ PAGEFRAME_PAGESIZE arch - pageoff →
          (∀ f t, Msg.HHC02219 f t ∉
            (if ic % 65536 ≠ 0 then
              [Msg.HHC02329 'V' pageadr (ic % 65536) (bldtrans K.toConsts r arn st)]
            else
              .HHC02291_key ra (m.storkey (APPLY_PREFIXING arch ra r.PX))
                  (bldtrans K.toConsts r arn st) ::
                (dump_abs_page arch r m (APPLY_PREFIXING arch ra r.PX) pageadr pageoff
                  amt (Char.ofNat 0) addrwid).2)) ∧
          (∀ v d, Msg.dump v d ∈
            (if ic % 65536 ≠ 0 then
              [Msg.HHC02329 'V' pageadr (ic % 65536) (bldtrans K.toConsts r arn st)]
            else
              .HHC02291_key ra (m.storkey (APPLY_PREFIXING arch ra r.PX))
                  (bldtrans K.toConsts r arn st) ::
                (dump_abs_page arch r m (APPLY_PREFIXING arch ra r.PX) pageadr pageoff
                  amt (Char.ofNat 0) addrwid).2) → d.wid = addrwid) ∧
          (ic % 65536 = 0 →
            chunks (if ic % 65536 ≠ 0 then
              [Msg.HHC02329 'V' pageadr (ic % 65536) (bldtrans K.toConsts r arn st)]
            else
              .HHC02291_key ra (m.storkey (APPLY_PREFIXING arch ra r.PX))
                  (bldtrans K.toConsts r arn st) ::
                (dump_abs_page arch r m (APPLY_PREFIXING arch ra r.PX) pageadr pageoff
                  amt (Char.ofNat 0) addrwid).2) = [(pageadr + pageoff, amt)]) := by
        intro amt hamt
        by_cases hx : ic % 65536 = 0
        · rw [if_neg (not_not.mpr hx)]
          obtain ⟨ha1, ha2⟩ := haligned pageadr ic ra st hret hP hx
          have hl0 : APPLY_PREFIXING arch ra r.PX ≤ r.mainlim := by
            by_contra hc
            exact hbreak ⟨hx, by omega⟩
          obtain ⟨c1, c2, c3⟩ := dump_abs_page_chunk arch r m (APPLY_PREFIXING arch ra r.PX)
            pageadr pageoff amt (Char.ofNat 0) addrwid
            (APPLY_PREFIXING_aligned arch ra r.PX hpx ha1 ha2) hP hoff hamt hwid hl0 (by omega)
          refine ⟨?_, ?_, fun _ => ?_⟩
          · intro f t hm
            simp only [List.mem_cons, reduceCtorEq, false_or] at hm
            have := c2 _ hm
            simp [Msg.is_display] at this
          · intro v d hm
            simp only [List.mem_cons, reduceCtorEq, false_or] at hm
            exact c3 v d hm
          · show chunks (dump_abs_page arch r m (APPLY_PREFIXING arch ra r.PX) pageadr pageoff
              amt (Char.ofNat 0) addrwid).2 = _
            exact c1
        · rw [if_pos hx]
          refine ⟨?_, ?_, fun h0 => absurd h0 hx⟩
          · intro f t hm
            simp at hm
          · intro v d hm
            simp at hm
      by_cases hdone : totamt - (if PAGEFRAME_PAGESIZE arch - pageoff > totamt then totamt
          else PAGEFRAME_PAGESIZE arch - pageoff) = 0
      · rw [if_pos hdone]
        have hEq : (if PAGEFRAME_PAGESIZE arch - pageoff > totamt then totamt
            else PAGEFRAME_PAGESIZE arch - pageoff) = totamt := by
          split_ifs at hdone ⊢ <;> omega
        rw [hEq]
        obtain ⟨p1, p2, p3⟩ := hpage totamt (by rw [← hEq]; split_ifs <;> omega)
        refine ⟨rfl, ?_, ?_, ?_⟩
        · intro f t hm
          simp only [List.mem_cons, reduceCtorEq, false_or] at hm
          exact p1 f t hm
        · intro v d hm
          simp only [List.mem_cons, reduceCtorEq, false_or] at hm
          exact p2 v d hm
        · intro hall
          have hx := (hall 0 (by omega) ic ra st (by simpa using hret)).1
          show chunks_cover arch (chunks (Msg.translation pageadr ic :: _)) _ _
          rw [chunks_translation, p3 hx]
          simp only [chunks_cover, Nat.sub_self, hmodoff, true_and, le_refl, and_true]
          have : totamt ≤ PAGEFRAME_PAGESIZE arch - pageoff := by
            rw [← hEq]; split_ifs <;> omega
          omega
      · rw [if_neg hdone]
        have hfull : (if PAGEFRAME_PAGESIZE arch - pageoff > totamt then totamt
            else PAGEFRAME_PAGESIZE arch - pageoff) = PAGEFRAME_PAGESIZE arch - pageoff := by
          split_ifs at hdone ⊢ <;> omega
        rw [hfull] at hdone ⊢
        have hnext : add64 pageadr (PAGEFRAME_PAGESIZE arch)
            = pageadr + PAGEFRAME_PAGESIZE arch := by unfold add64; omega
        rw [hnext]
        obtain ⟨p1, p2, p3⟩ := hpage (PAGEFRAME_PAGESIZE arch - pageoff) (le_refl _)
        obtain ⟨hr1, hr2, hr3, hr4⟩ := ih (totamt - (PAGEFRAME_PAGESIZE arch - pageoff))
          (pageadr + PAGEFRAME_PAGESIZE arch) 0
          (by rw [Nat.add_mod_right]; exact hP) hS (by omega) (by omega) (by omega)
        rw [Nat.sub_zero] at hr1 hr2 hr3 hr4
        refine ⟨hr1, ?_, ?_, ?_⟩
        · intro f t hm
          simp only [List.mem_cons, reduceCtorEq, false_or, List.mem_append] at hm
          rcases hm with hm | hm
          · exact p1 f t hm
          · exact hr2 f t hm
        · intro v d hm
          simp only [List.mem_cons, reduceCtorEq, false_or, List.mem_append] at hm
          rcases hm with hm | hm
          · exact p2 v d hm
          · exact hr3 v d hm
        · intro hall
          have hx := (hall 0 (by omega) ic ra st (by simpa using hret)).1
          have hrest := hr4 (fun k hk ic2 ra2 st2 hret2 => by
            have := hall (k + 1) (by rw [Nat.succ_mul]; omega) ic2 ra2 st2
            rw [show pageadr + (k + 1) * PAGEFRAME_PAGESIZE arch
              = pageadr + PAGEFRAME_PAGESIZE arch + k * PAGEFRAME_PAGESIZE arch by
                rw [Nat.succ_mul]; omega] at this
            exact this hret2)
          show chunks_cover arch (chunks (Msg.translation pageadr ic :: (_ ++ _))) _ _
          rw [chunks_translation, chunks_append, p3 hx]
          simp only [List.singleton_append, chunks_cover, hmodoff, true_and]
          refine ⟨by omega, by omega, by omega, ?_⟩
          rw [show pageadr + pageoff + (PAGEFRAME_PAGESIZE arch - pageoff)
            = pageadr + PAGEFRAME_PAGESIZE arch + 0 by omega]
          exact hrest

theorem LIMIT_RANGE_bounds (saddr eaddr : Nat) (hse : saddr ≤ eaddr) (he : eaddr < 2 ^ 64) :
    saddr ≤ LIMIT_RANGE saddr eaddr _64_KILOBYTE ∧
    LIMIT_RANGE saddr eaddr _64_KILOBYTE ≤ eaddr ∧
    LIMIT_RANGE saddr eaddr _64_KILOBYTE - saddr < 0x10000 ∧
    (eaddr - saddr < 0x10000 → LIMIT_RANGE saddr eaddr _64_KILOBYTE = eaddr) ∧
    add64 (sub64 (LIMIT_RANGE saddr eaddr _64_KILOBYTE) saddr) 1
      = LIMIT_RANGE saddr eaddr _64_KILOBYTE - saddr + 1 := by
  have hsub : sub64 eaddr saddr = eaddr - saddr := by unfold sub64; omega
  unfold LIMIT_RANGE _64_KILOBYTE
  rw [hsub]
  by_cases hc : eaddr - saddr ≥ 0x10000
  · rw [if_pos hc]
    have : sub64 (add64 saddr 0x10000) 1 = saddr + 0xFFFF := by unfold sub64 add64; omega
    rw [this]
    refine ⟨by omega, by omega, by omega, by omega, ?_⟩
    unfold sub64 add64; omega
  · rw [if_neg hc]
    refine ⟨hse, le_refl _, by omega, fun _ => rfl, ?_⟩
    unfold sub64 add64; omega

theorem alter_loop_msg (arch : Arch) (regs : REGS) (c : Char) (saddr : Nat) :
    ∀ (bs : List Nat) (i : Nat) (stor : Nat → Nat) (msg : Msg),
      (alter_loop arch regs c saddr i bs stor).2 = some msg → ∃ a, msg = .HHC02328 'A' a := by
  intro bs
  induction bs with
  | nil => intro i stor msg hm; simp [alter_loop] at hm
  | cons b bs ih =>
    intro i stor msg hm
    unfold alter_loop at hm
    simp only [] at hm
    split_ifs at hm
    · simp only [Option.some.injEq] at hm
      exact ⟨_, hm.symm⟩
    · exact ih _ _ _ hm

/-- Claim C30, amended: in the display loops of `alter_display_real_or_abs` and
`alter_display_virt` (the latter given that translation maps page-aligned
addresses to page-aligned real addresses), for every clamped range from
`start` to `end`: the loop ends; every chunk handed to `dump_abs_page` has
valid parameters (no call fails with HHC02219) and the width 32 or 64; and
when no page of the range raises an addressing exception or a translation
exception, the chunks handed to `dump_abs_page` are consecutive from `start`,
each of at least one byte within a single page, and their amounts sum to
`end - start + 1`. -/
theorem display_chunks (arch : Arch) :
    (∀ (regs : REGS) (m : Machine) (argv : List (List Char)) (n saddr eaddr : Nat)
        (newval : List Nat),
      parse_range argv[1]? (maxadr arch) true = .ok n saddr eaddr newval →
      regs.mainlim ≠ 0 → is_prefix_value arch regs.PX →
      ∃ m2 out, arch_alter_display_real_or_abs arch regs m 2 argv = some (m2, out) ∧
        (∀ f t, Msg.HHC02219 f t ∉ out) ∧
        (∀ v d, Msg.dump v d ∈ out → d.wid = 32 ∨ d.wid = 64) ∧
        ((∀ j, j ≤ LIMIT_RANGE saddr eaddr _64_KILOBYTE - saddr →
            to_absolute arch regs (command_letter (argv.getD 0 [])) (saddr + j)
              ≤ regs.mainlim) →
          chunks_cover arch (chunks out) saddr
            (LIMIT_RANGE saddr eaddr _64_KILOBYTE - saddr + 1))) ∧
    (∀ (K : CommandConsts) (walk : StorageWalk) (regs : Nat) (arn : Int) (m : Machine)
        (h : Heap) (r : REGS) (saddr eaddr : Nat),
      h[regs]? = some r →
      (r.sie_mode = true → ∃ p hr, r.hostregs = some p ∧ h[p]? = some hr) →
      is_prefix_value arch r.PX →
      saddr ≤ eaddr → eaddr ≤ maxadr arch → eaddr - saddr < 0x10000 →
      (∀ v ic ra st,
        (virt_to_real K.toConsts (walk m.mainstor) h true v arn regs K.ACCTYPE_HW).ret
          = some (ic, ra, st) →
        v % PAGEFRAME_PAGESIZE arch = 0 → ic % 65536 = 0 →
        ra % PAGEFRAME_PAGESIZE arch = 0 ∧ ra ≤ maxadr arch) →
      (virt_display arch K walk true regs arn m saddr eaddr h).exit = none ∧
      (∀ f t, Msg.HHC02219 f t ∉ (virt_display arch K walk true regs arn m saddr eaddr h).out) ∧
      (∀ v d, Msg.dump v d ∈ (virt_display arch K walk true regs arn m saddr eaddr h).out →
        d.wid = 32 ∨ d.wid = 64) ∧
      ((∀ k, saddr / PAGEFRAME_PAGESIZE arch * PAGEFRAME_PAGESIZE arch
            + k * PAGEFRAME_PAGESIZE arch ≤ eaddr → ∀ ic ra st,
          (virt_to_real K.toConsts (walk m.mainstor) h true
            (saddr / PAGEFRAME_PAGESIZE arch * PAGEFRAME_PAGESIZE arch
              + k * PAGEFRAME_PAGESIZE arch) arn regs K.ACCTYPE_HW).ret = some (ic, ra, st) →
          ic % 65536 = 0 ∧ APPLY_PREFIXING arch ra r.PX ≤ r.mainlim) →
        chunks_cover arch (chunks (virt_display arch K walk true regs arn m saddr eaddr h).out)
          saddr (eaddr - saddr + 1))) := by
  have h64 : maxadr arch < 2 ^ 64 := by cases arch <;> decide
  have hS : 0 < PAGEFRAME_PAGESIZE arch := by cases arch <;> decide
  constructor
  · intro regs m argv n saddr eaddr newval hparse hlim0 hpx
    obtain ⟨hlen, h32, hse, hem, hs64, hE⟩ := parse_range_ok _ _ _ _ _ _ _ hparse
    obtain ⟨l1, l2, l3, l4, l5⟩ := LIMIT_RANGE_bounds saddr eaddr hse (by omega)
    have htake : newval.take n = newval := by rw [← hlen]; exact List.take_length _
    have hml := Nat.mod_lt saddr hS
    have hback : saddr / PAGEFRAME_PAGESIZE arch * PAGEFRAME_PAGESIZE arch
        + saddr % PAGEFRAME_PAGESIZE arch = saddr := Nat.div_add_mod' saddr _
    have hoff : sub64 saddr (saddr / PAGEFRAME_PAGESIZE arch * PAGEFRAME_PAGESIZE arch)
        = saddr % PAGEFRAME_PAGESIZE arch := by
      unfold sub64
      generalize saddr / PAGEFRAME_PAGESIZE arch * PAGEFRAME_PAGESIZE arch = q at hback ⊢
      omega
    -- the alteration loop does not stop when the whole range is within storage
    have halter : (∀ j, j ≤ LIMIT_RANGE saddr eaddr _64_KILOBYTE - saddr →
          to_absolute arch regs (command_letter (argv.getD 0 [])) (saddr + j)
            ≤ regs.mainlim) →
        (alter_loop arch regs (command_letter (argv.getD 0 [])) saddr 0 newval m.mainstor).2
          = none := by
      intro hin
      obtain ⟨a1, -, -⟩ := alter_loop_spec arch regs (command_letter (argv.getD 0 [])) saddr hpx
        newval 0 n m.mainstor (by omega)
        (fun j hj => by have := hE (by omega); omega)
        (fun j hj => by
          rw [Nat.add_zero]
          have := hE (by omega)
          exact hin j (by rw [l4 (by omega)]; omega))
        (fun hk => by omega)
      rw [a1, if_neg (by omega)]
    unfold arch_alter_display_real_or_abs
    simp only [hparse, ne_eq, not_true_eq_false, if_false, hlim0, htake]
    have hmsg := alter_loop_msg arch regs (command_letter (argv.getD 0 [])) saddr newval 0
      m.mainstor
    generalize alter_loop arch regs (command_letter (argv.getD 0 [])) saddr 0 newval
      m.mainstor = res at halter hmsg
    obtain ⟨stor, r2⟩ := res
    cases r2 with
    | some msg =>
      obtain ⟨a, rfl⟩ := hmsg msg rfl
      refine ⟨_, _, rfl, ?_, ?_, ?_⟩
      · intro f t hm
        simp at hm
      · intro v d hm
        simp at hm
      · intro hin
        have := halter hin
        simp at this
    | none =>
      simp only [l5]
      rw [if_pos (by omega), land_PAGEFRAME_PAGEMASK arch saddr (by omega), hoff]
      obtain ⟨out, d1, d2, d3, d4⟩ := display_loop_chunks arch regs { m with mainstor := stor }
        (command_letter (argv.getD 0 [])) (if Arch.z900 = m.arch_mode then 64 else 32) hpx
        (by split_ifs <;> simp)
        (LIMIT_RANGE saddr eaddr _64_KILOBYTE - saddr + 1)
        (LIMIT_RANGE saddr eaddr _64_KILOBYTE - saddr + 1)
        (saddr / PAGEFRAME_PAGESIZE arch * PAGEFRAME_PAGESIZE arch)
        (saddr % PAGEFRAME_PAGESIZE arch) (Nat.mul_mod_left _ _) hml (by omega) (le_refl _)
        (by rw [hback]; omega)
      rw [d1]
      refine ⟨_, _, rfl, d2, ?_, ?_⟩
      · intro v d hm
        rw [d3 v d hm]
        split_ifs <;> simp
      · intro hin
        have := d4 (fun j hj => by rw [hback]; exact hin j (by omega))
        rw [hback] at this
        exact this
  · intro K walk regs arn m h r saddr eaddr hr hhost hpx hse hmax hclamp haligned
    have hml := Nat.mod_lt saddr hS
    have hback : saddr / PAGEFRAME_PAGESIZE arch * PAGEFRAME_PAGESIZE arch
        + saddr % PAGEFRAME_PAGESIZE arch = saddr := Nat.div_add_mod' saddr _
    have hsub : sub64 eaddr saddr = eaddr - saddr := by unfold sub64; omega
    have htot : add64 (sub64 eaddr saddr) 1 = eaddr - saddr + 1 := by
      rw [hsub]; unfold add64; omega
    have hoff : sub64 saddr (saddr / PAGEFRAME_PAGESIZE arch * PAGEFRAME_PAGESIZE arch)
        = saddr % PAGEFRAME_PAGESIZE arch := by
      unfold sub64
      generalize saddr / PAGEFRAME_PAGESIZE arch * PAGEFRAME_PAGESIZE arch = q at hback ⊢
      omega
    obtain ⟨e1, e2, e3, e4⟩ := virt_display_loop_chunks arch K walk regs arn m
      (if Arch.z900 = m.arch_mode then 64 else 32) h r hr hhost hpx (by split_ifs <;> simp)
      haligned (eaddr - saddr + 1) (eaddr - saddr + 1)
      (saddr / PAGEFRAME_PAGESIZE arch * PAGEFRAME_PAGESIZE arch)
      (saddr % PAGEFRAME_PAGESIZE arch) (Nat.mul_mod_left _ _) hml (by omega) (le_refl _)
      (by rw [hback]; omega)
    have hdisp : virt_display arch K walk true regs arn m saddr eaddr h =
        virt_display_loop arch K walk true regs arn m
          (if Arch.z900 = m.arch_mode then 64 else 32) (eaddr - saddr + 1) (eaddr - saddr + 1)
          (saddr / PAGEFRAME_PAGESIZE arch * PAGEFRAME_PAGESIZE arch)
          (saddr % PAGEFRAME_PAGESIZE arch)
          (PAGEFRAME_PAGESIZE arch - saddr % PAGEFRAME_PAGESIZE arch) h := by
      unfold virt_display
      simp only [htot]
      rw [if_pos (by omega), land_PAGEFRAME_PAGEMASK arch saddr (by omega), hoff]
    rw [hdisp]
    refine ⟨e1, e2, ?_, ?_⟩
    · intro v d hm
      rw [e3 v d hm]
      split_ifs <;> simp
    · intro hall
      have := e4 (fun k hk ic ra st hret => hall k (by
        generalize saddr / PAGEFRAME_PAGESIZE arch * PAGEFRAME_PAGESIZE arch = q at hback
        omega) ic ra st hret)
      rw [hback] at this
      exact this

/-- The display of `FFE.4` by the command `r`, and the display of the virtual
range from `0x2FFE` to `0x3001` with every page mapped to the frame at
`0x2000`. -/
theorem display_chunks_witness :
    (∃ m2 out, arch_alter_display_real_or_abs .s390 example_regs example_machine 2
        [['r'], ['F', 'F', 'E', '.', '4']] = some (m2, out) ∧
      (∀ f t, Msg.HHC02219 f t ∉ out) ∧
      (∀ v d, Msg.dump v d ∈ out → d.wid = 32 ∨ d.wid = 64) ∧
      ((∀ j, j ≤ LIMIT_RANGE 0xFFE 0x1001 _64_KILOBYTE - 0xFFE →
          to_absolute .s390 example_regs
            (command_letter ([['r'], ['F', 'F', 'E', '.', '4']].getD 0 [])) (0xFFE + j)
            ≤ example_regs.mainlim) →
        chunks_cover .s390 (chunks out) 0xFFE
          (LIMIT_RANGE 0xFFE 0x1001 _64_KILOBYTE - 0xFFE + 1))) ∧
    ((virt_display .z900 example_command_consts example_walk_frame true 0 0 example_machine
        0x2FFE 0x3001 [example_z900_regs]).exit = none ∧
      (∀ f t, Msg.HHC02219 f t ∉ (virt_display .z900 example_command_consts example_walk_frame
        true 0 0 example_machine 0x2FFE 0x3001 [example_z900_regs]).out) ∧
      (∀ v d, Msg.dump v d ∈ (virt_display .z900 example_command_consts example_walk_frame
        true 0 0 example_machine 0x2FFE 0x3001 [example_z900_regs]).out →
        d.wid = 32 ∨ d.wid = 64) ∧
      ((∀ k, 0x2FFE / PAGEFRAME_PAGESIZE .z900 * PAGEFRAME_PAGESIZE .z900
            + k * PAGEFRAME_PAGESIZE .z900 ≤ 0x3001 → ∀ ic ra st,
          (virt_to_real example_command_consts.toConsts
            (example_walk_frame example_machine.mainstor) [example_z900_regs] true
            (0x2FFE / PAGEFRAME_PAGESIZE .z900 * PAGEFRAME_PAGESIZE .z900
              + k * PAGEFRAME_PAGESIZE .z900) 0 0 example_command_consts.ACCTYPE_HW).ret
            = some (ic, ra, st) →
          ic % 65536 = 0 ∧
            APPLY_PREFIXING .z900 ra example_z900_regs.PX ≤ example_z900_regs.mainlim) →
        chunks_cover .z900 (chunks (virt_display .z900 example_command_consts
          example_walk_frame true 0 0 example_machine 0x2FFE 0x3001 [example_z900_regs]).out)
          0x2FFE (0x3001 - 0x2FFE + 1))) :=
  ⟨(display_chunks .s390).1 example_regs example_machine [['r'], ['F', 'F', 'E', '.', '4']]
      0 0xFFE 0x1001 [] (by decide) (by decide) (by decide),
   (display_chunks .z900).2 example_command_consts example_walk_frame 0 0 example_machine
      [example_z900_regs] example_z900_regs 0x2FFE 0x3001 rfl
      (fun hs => absurd hs (by decide)) (by decide) (by decide) (by decide) (by decide)
      (fun v ic ra st hret hv _ => by
        rw [virt_to_real_example_frame] at hret
        simp only [Option.some.injEq, Prod.mk.injEq] at hret
        obtain ⟨-, rfl, -⟩ := hret
        simp only [PAGEFRAME_PAGESIZE, maxadr] at hv ⊢
        omega)⟩

/-- The chunks dumped by the two displays of `display_chunks_witness`: two
bytes at the end of a page and two at the start of the next. -/
theorem display_chunks_example :
    (arch_alter_display_real_or_abs .s390 example_regs example_machine 2
        [['r'], ['F', 'F', 'E', '.', '4']]).map (fun r => chunks r.2)
      = some [(0xFFE, 2), (0x1000, 2)] ∧
    chunks (virt_display .z900 example_command_consts example_walk_frame true 0 0
        example_machine 0x2FFE 0x3001 [example_z900_regs]).out
      = [(0x2FFE, 2), (0x3000, 2)] := by
  decide

/-- Claim C30 fails when a page of the range raises an exception. The display
of the virtual range `1FFE.4` with the page at `0x1000` invalid hands one chunk
to `dump_abs_page`, two bytes at `0x2000`; the display of the absolute range
`FFE.4` with `mainlim = 0xFFF` hands one chunk, two bytes at `0xFFE`. In both
the amounts sum to 2, not to `end - start + 1 = 4`, and the chunks do not
cover the range. -/
theorem display_chunks_after_exception :
    chunks (arch_alter_display_virt .s390 example_command_consts example_walk_hole
      [example_dat_regs] example_machine true 0 1 [['1', 'F', 'F', 'E', '.', '4']]).out
      = [(0x2000, 2)] ∧
    ¬ chunks_cover .s390 (chunks (arch_alter_display_virt .s390 example_command_consts
      example_walk_hole [example_dat_regs] example_machine true 0 1
      [['1', 'F', 'F', 'E', '.', '4']]).out) 0x1FFE 4 ∧
    (arch_alter_display_real_or_abs .s390 { example_regs with mainlim := 0xFFF }
      example_machine 2 [['a', 'b', 's'], ['F', 'F', 'E', '.', '4']]).map
        (fun r => (chunks r.2, decide (chunks_cover .s390 (chunks r.2) 0xFFE 4)))
      = some ([(0xFFE, 2)], false) := by
  decide

end Hyperion
